import Mathlib

/-!
# Revisr grading back end (`server.js`): a shallow embedding

The handler of `POST /api/upload` receives the text of a paper, asks a language model for
rubric grades, repairs the decoded answer in place and computes an overall score.  This file
embeds the pure core of that handler and proves properties of it.

Modelling conventions.

* A JavaScript string is the list of its UTF-16 code units (`JSString = List Nat`); `length`,
  `indexOf`, `includes` and the regular expressions of `normalizeString` all work on code
  units.  `lit` turns a Lean literal into such a list (one unit per character, which is exact
  for the ASCII literals used here).
* A decoded JSON value is a `JSON`.  A number inside it is finite and held as the rational
  it denotes; `±Infinity`, which `JSON.parse` gives for a numeral beyond the range of binary64,
  is not represented, and the statements about numbers are about finite ones.  The arithmetic
  of `computeOverall` is the binary64 arithmetic of the runtime (`roundDouble`, round to
  nearest, ties to even); its results are `JSNumber`s, which include `±Infinity` and `NaN`.
  The sign of zero is not kept: nothing computed here depends on it.  `undefined` is
  `none : Option JSON`.
* Code that mutates the decoded objects in place is modelled by functions returning the
  updated value; a thrown exception is `Except.error`.
* What belongs to the runtime or to the network is a parameter: `JSON.parse` (`jsonParse`),
  the conversion of a value that is not a string to a string (`toStr`), the message of a
  `TypeError` (`runtimeMessage`) and the way each HTTP request to the model ends (`post`).
-/

namespace Revisr

/-! ## Values -/

/-- A JavaScript string: its UTF-16 code units. -/
abbrev JSString := List Nat

/-- The code units of a literal. -/
def lit (s : String) : JSString := s.toList.map Char.toNat

/-- A decoded JSON value (what `JSON.parse` returns). -/
inductive JSON where
  | null : JSON
  | bool (b : Bool) : JSON
  | num (q : ℚ) : JSON
  | str (s : JSString) : JSON
  | arr (xs : List JSON) : JSON
  | obj (kvs : List (String × JSON)) : JSON

/-- A value thrown by the sanitising code: a `TypeError` of the runtime, or an `Error` built
by the handler with the given message. -/
inductive JSError where
  | typeError : JSError
  | error (message : JSString) : JSError
  deriving DecidableEq

/-- Lookup in the property list of an object. -/
def lookupKey (k : String) : List (String × JSON) → Option JSON
  | [] => none
  | (k', v) :: rest => if k' = k then some v else lookupKey k rest

/-- Assignment `o[k] = v` on a property list: an existing property keeps its place, a new one
is added at the end. -/
def assignKey (k : String) (v : JSON) : List (String × JSON) → List (String × JSON)
  | [] => [(k, v)]
  | (k', v') :: rest => if k' = k then (k', v) :: rest else (k', v') :: assignKey k v rest

/-- Property read `x.k` for the data property names used by the handler (`score`, `maxScore`,
`comment`, `evidence`, `text`, `suggestion`, `revised_excerpt`, `rubricGrades`): the own
property of an object, `undefined` on an array, a string, a number or a boolean.  (Reads on
`null` are always guarded by a truthiness test in the source.) -/
def getField (x : JSON) (k : String) : Option JSON :=
  match x with
  | .obj kvs => lookupKey k kvs
  | _ => none

/-- Property write `x.k = v` on an object (the source writes only to values it has found to
be objects). -/
def setField (x : JSON) (k : String) (v : JSON) : JSON :=
  match x with
  | .obj kvs => .obj (assignKey k v kvs)
  | other => other

/-- JavaScript truthiness of a JSON value. -/
def truthy : JSON → Bool
  | .null => false
  | .bool b => b
  | .num q => decide (q ≠ 0)
  | .str s => !s.isEmpty
  | .arr _ => true
  | .obj _ => true

/-- Truthiness of a possibly `undefined` value. -/
def truthyOpt : Option JSON → Bool
  | none => false
  | some v => truthy v

/-- The test `typeof v === 'number'`. -/
def isNumber : Option JSON → Bool
  | some (.num _) => true
  | _ => false

/-- The test `typeof g === 'object'` (true of `null`, arrays and objects). -/
def typeofObject : JSON → Bool
  | .null => true
  | .arr _ => true
  | .obj _ => true
  | _ => false

/-- Numeric value of a property known to be a number (0 otherwise; never used otherwise). -/
def numField (g : JSON) (k : String) : ℚ :=
  match getField g k with
  | some (.num q) => q
  | _ => 0

/-! ## Score aggregation (`computeOverall`) -/

/-- The function `Math.round`: the nearest integer, ties towards `+∞`. -/
def mathRound (x : ℚ) : ℤ := ⌊x + 1 / 2⌋

/-- The filter predicate of `computeOverall`:
`g && typeof g === 'object' && typeof g.score === 'number' && typeof g.maxScore === 'number'`. -/
def isValidGrade (g : JSON) : Bool :=
  truthy g && typeofObject g && isNumber (getField g "score") && isNumber (getField g "maxScore")

/-- A number as the arithmetic of the runtime produces it: a finite value, an infinity or
`NaN`. -/
inductive JSNumber where
  | finite (q : ℚ) : JSNumber
  | posInf : JSNumber
  | negInf : JSNumber
  | nan : JSNumber

instance (n : Nat) : OfNat JSNumber n := ⟨.finite n⟩

/-- The integer nearest to `t`, the even one of the two at a tie. -/
def roundHalfEven (t : ℚ) : ℤ :=
  if t - ⌊t⌋ < 1 / 2 then ⌊t⌋
  else if 1 / 2 < t - ⌊t⌋ then ⌊t⌋ + 1
  else if ⌊t⌋ % 2 = 0 then ⌊t⌋ else ⌊t⌋ + 1

/-- The binary exponent used to round `x` to binary64: that of its leading bit, and `-1022`
in the subnormal range. -/
def binaryExponent (x : ℚ) : ℤ := max (Int.log 2 |x|) (-1022)

/-- The binary64 number nearest to the real `x` (53 significant bits, ties to even), an
infinity when that rounding reaches `2 ^ 1024`: the rounding made by every arithmetic
operation on numbers. -/
def roundDouble (x : ℚ) : JSNumber :=
  if x = 0 then .finite 0
  else
    let ulp : ℚ := (2 : ℚ) ^ (binaryExponent x - 52)
    let y : ℚ := (roundHalfEven (|x| / ulp) : ℚ) * ulp
    if y < (2 : ℚ) ^ (1024 : ℕ) then .finite (if x < 0 then -y else y)
    else if x < 0 then .negInf else .posInf

/-- The operator `+` on two numbers. -/
def jsAdd : JSNumber → JSNumber → JSNumber
  | .finite a, .finite b => roundDouble (a + b)
  | .nan, _ => .nan
  | _, .nan => .nan
  | .posInf, .negInf => .nan
  | .negInf, .posInf => .nan
  | .posInf, _ => .posInf
  | _, .posInf => .posInf
  | .negInf, _ => .negInf
  | _, .negInf => .negInf

/-- The operator `/` with a finite positive divisor `d`. -/
def jsDivPos (x : JSNumber) (d : ℚ) : JSNumber :=
  match x with
  | .finite a => roundDouble (a / d)
  | other => other

/-- The operator `*` with a finite positive factor `c`. -/
def jsMulPos (x : JSNumber) (c : ℚ) : JSNumber :=
  match x with
  | .finite a => roundDouble (a * c)
  | other => other

/-- The function `Math.round` on a number: exact on a finite value, the identity on the
infinities and on `NaN`. -/
def jsMathRound : JSNumber → JSNumber
  | .finite a => .finite (mathRound a)
  | other => other

/-- The body of the reducer: `g.maxScore > 0 ? (g.score / g.maxScore) : 0`. -/
def pct (g : JSON) : JSNumber :=
  if numField g "maxScore" > 0 then roundDouble (numField g "score" / numField g "maxScore")
  else 0

/-- The function `computeOverall` of the handler.  (The length of an array is below `2 ^ 32`
and is a binary64 number.) -/
def computeOverall (grades : JSON) : JSNumber :=
  match grades with
  | .arr gs =>
    let validGrades := gs.filter isValidGrade
    if validGrades.length = 0 then 0
    else
      let totalPercent :=
        jsDivPos (validGrades.foldl (fun acc g => jsAdd acc (pct g)) 0) (validGrades.length : ℚ)
      jsMathRound (jsMulPos totalPercent 100)
  | _ => 0

/-- The records counted by the specification: objects whose `score` and `maxScore` are both
numbers. -/
def hasNumericScores (g : JSON) : Bool :=
  match g with
  | .obj kvs => isNumber (lookupKey "score" kvs) && isNumber (lookupKey "maxScore" kvs)
  | _ => false

/-- The percentage of a counted record, in the words of the specification:
`score / maxScore` when `maxScore > 0`, else `0`. -/
def specPercent (g : JSON) : ℚ :=
  match g with
  | .obj kvs =>
    match lookupKey "score" kvs, lookupKey "maxScore" kvs with
    | some (.num s), some (.num m) => if m > 0 then s / m else 0
    | _, _ => 0
  | _ => 0

/-- Reference definition of the aggregate, following the specification, in exact
arithmetic: with `V` the records having numeric `score` and `maxScore`, the result is `0`
when `V` is empty and `round (100 * (Σ p) / |V|)` otherwise. -/
def aggregateSpec (grades : List JSON) : ℤ :=
  let V := grades.filter hasNumericScores
  if V.isEmpty then 0
  else mathRound (100 * (V.map specPercent).sum / (V.length : ℚ))

/-- The percentage of a counted record in binary64 arithmetic: the quotient `score / maxScore`
rounded when `maxScore > 0`, else `0`. -/
def specPercentDouble (g : JSON) : JSNumber :=
  match g with
  | .obj kvs =>
    match lookupKey "score" kvs, lookupKey "maxScore" kvs with
    | some (.num s), some (.num m) => if m > 0 then roundDouble (s / m) else 0
    | _, _ => 0
  | _ => 0

/-- Reference definition of the aggregate with every operation made in binary64 arithmetic:
over the records `V` having numeric `score` and `maxScore`, `0` when `V` is empty, else the
percentages are added from the left, the sum is divided by `|V|`, the mean is multiplied by
100 and the product is rounded to an integer. -/
def aggregateDouble (grades : List JSON) : JSNumber :=
  let V := grades.filter hasNumericScores
  if V.isEmpty then 0
  else
    jsMathRound (jsMulPos
      (jsDivPos (V.foldl (fun acc g => jsAdd acc (specPercentDouble g)) 0) (V.length : ℚ)) 100)

/-- A grade record with the given score and maximum. -/
def mkGrade (score maxScore : ℚ) : JSON :=
  .obj [("category", .str (lit "Clarity")), ("score", .num score), ("maxScore", .num maxScore)]

/-! ## Strings -/

/-- The test `needle` is a prefix of `hay`, unit by unit. -/
def startsWith : JSString → JSString → Bool
  | _, [] => true
  | [], _ :: _ => false
  | h :: hs, n :: ns => h == n && startsWith hs ns

/-- Search of `needle` in `hay` from the left; `i` is the index of the head of `hay` in the
whole string. -/
def indexOfFrom (needle : JSString) : JSString → Nat → Option Nat
  | [], i => if startsWith [] needle then some i else none
  | c :: cs, i => if startsWith (c :: cs) needle then some i else indexOfFrom needle cs (i + 1)

/-- The call `hay.indexOf(needle)`: the least index at which `needle` occurs, `-1` when there is none. -/
def indexOf (hay needle : JSString) : ℤ :=
  match indexOfFrom needle hay 0 with
  | some i => (i : ℤ)
  | none => -1

/-- The call `hay.includes(needle)` on strings: an occurrence exists. -/
def includes (hay needle : JSString) : Bool :=
  decide (indexOf hay needle ≠ -1)

/-- The call `s.slice(a, b)` for `0 ≤ a ≤ b`. -/
def slice (s : JSString) (a b : Nat) : JSString := (s.drop a).take (b - a)

/-- The class `\s` of a regular expression without the `u` flag, which is also the set of
units removed by `trim`: white space and line terminators. -/
def isWhitespace (c : Nat) : Bool :=
  c == 9 || c == 10 || c == 11 || c == 12 || c == 13 || c == 32 || c == 160 || c == 5760 ||
  (8192 ≤ c && c ≤ 8202) || c == 8232 || c == 8233 || c == 8239 || c == 8287 ||
  c == 12288 || c == 65279

/-- The step `.replace(/[\u2018\u2019]/g, ...)`: both typographic single quotes become the
ASCII apostrophe (unit 39). -/
def replaceSmartSingle (s : JSString) : JSString :=
  s.map (fun c => if c = 8216 ∨ c = 8217 then 39 else c)

/-- The step `.replace(/[\u201C\u201D]/g, ...)`: both typographic double quotes become the
ASCII double quote (unit 34). -/
def replaceSmartDouble (s : JSString) : JSString :=
  s.map (fun c => if c = 8220 ∨ c = 8221 then 34 else c)

/-- Worker of `collapseWhitespace`; `inRun` tells that the preceding unit was white space, in
which case the space standing for the run has been written already. -/
def collapseFrom : Bool → JSString → JSString
  | _, [] => []
  | inRun, c :: cs =>
    if isWhitespace c then
      if inRun then collapseFrom true cs else 32 :: collapseFrom true cs
    else c :: collapseFrom false cs

/-- The step `.replace(/\s+/g, ...)`: every maximal run of white space becomes one space
(unit 32). -/
def collapseWhitespace (s : JSString) : JSString := collapseFrom false s

/-- The step `.trim()`: white space is removed at both ends. -/
def trim (s : JSString) : JSString :=
  ((s.dropWhile isWhitespace).reverse.dropWhile isWhitespace).reverse

/-- The chain of replacements of `normalizeString` on a string. -/
def normalizeText (s : JSString) : JSString :=
  trim (collapseWhitespace (replaceSmartDouble (replaceSmartSingle s)))

/-- The function `normalizeString` of the handler: `''` on a falsy argument, the normalised
text on a string, and a `TypeError` on any other value, which has no method `replace`. -/
def normalizeString : Option JSON → Except JSError JSString
  | some (.str s) => .ok (normalizeText s)
  | v => if truthyOpt v then .error .typeError else .ok []

/-! ## Sanitising the grades -/

/-- The comment written on a perfect score without evidence. -/
def positiveComment : JSString :=
  lit "Excellent work in this category. No specific areas for improvement were identified."

/-- The suffix appended to the comment of a non-perfect score without evidence. -/
def diagnosticSuffix : JSString :=
  lit " (Note: The AI failed to provide valid examples to justify its score.)"

/-- The marker looked for in `text`. -/
def markerText : JSString := lit "[AI ERROR"

/-- The marker looked for in `suggestion`. -/
def markerSuggestion : JSString := lit "[AI did not provide"

/-- The call `v.includes(needle)` on a truthy value `v`: `String.prototype.includes` on a
string, `Array.prototype.includes` on an array (an element is the string `needle`), and a
`TypeError` on a number, a boolean or an object, where `includes` is not a function. -/
def jsIncludes (v : Option JSON) (needle : JSString) : Except JSError Bool :=
  match v with
  | some (.str s) => .ok (includes s needle)
  | some (.arr xs) =>
    .ok (xs.any (fun x => match x with
      | .str s => decide (s = needle)
      | _ => false))
  | _ => .error .typeError

/-- The callback given to `grade.evidence.filter`. -/
def keepEvidence (ev : JSON) : Except JSError Bool :=
  if !truthy ev || !truthyOpt (getField ev "text") || !truthyOpt (getField ev "suggestion")
      || !truthyOpt (getField ev "revised_excerpt") then .ok false
  else
    match jsIncludes (getField ev "text") markerText with
    | .error e => .error e
    | .ok true => .ok false
    | .ok false =>
      match jsIncludes (getField ev "suggestion") markerSuggestion with
      | .error e => .error e
      | .ok true => .ok false
      | .ok false => .ok true

/-- The callback returned `true` (it neither returned `false` nor threw). -/
def passesFilter (ev : JSON) : Bool :=
  match keepEvidence ev with
  | .ok true => true
  | _ => false

/-- The call `grade.evidence.filter(callback)`: elements are visited from the left and the
first exception ends the call. -/
def filterEvidence : List JSON → Except JSError (List JSON)
  | [] => .ok []
  | ev :: evs =>
    match keepEvidence ev with
    | .error e => .error e
    | .ok keep =>
      match filterEvidence evs with
      | .error e => .error e
      | .ok rest => .ok (if keep then ev :: rest else rest)

/-- The value of `validEvidence` after lines 203-218: the filtered list when `grade.evidence`
is an array, `[]` otherwise. -/
def validEvidence (grade : JSON) : Except JSError (List JSON) :=
  match getField grade "evidence" with
  | some (.arr evs) => filterEvidence evs
  | _ => .ok []

/-- The conversion to a string made by `+` on a string and another value: a string is taken
as it is; for any other value (`undefined`, `null`, a number, ...) the runtime applies
`ToString`, which may throw; that part of the runtime is the parameter `toStr`. -/
def toStringValue (toStr : Option JSON → Except JSError JSString) (v : Option JSON) :
    Except JSError JSString :=
  match v with
  | some (.str s) => .ok s
  | other => toStr other

/-- The statement `grade.comment += suffix`: the new value of `grade.comment`. -/
def appendToComment (toStr : Option JSON → Except JSError JSString) (comment : Option JSON)
    (suffix : JSString) : Except JSError JSString :=
  match toStringValue toStr comment with
  | .error e => .error e
  | .ok s => .ok (s ++ suffix)

/-- Lines 222-232: the comment is rewritten when no evidence is left. -/
def backfillComment (toStr : Option JSON → Except JSError JSString) (grade : JSON) :
    Except JSError JSON :=
  match getField grade "evidence" with
  | some (.arr []) =>
    if numField grade "score" = numField grade "maxScore" then
      .ok (setField grade "comment" (.str positiveComment))
    else
      match appendToComment toStr (getField grade "comment") diagnosticSuffix with
      | .error e => .error e
      | .ok s => .ok (setField grade "comment" (.str s))
  | _ => .ok grade

/-- The body of the loop over `grade.evidence` (lines 236-254) for one item.  The item has
passed the filter, so its `text` is truthy; `normalizeString` throws unless it is a string. -/
def resolveOffsets (paperContent normalizedPaperContent : JSString) (ev : JSON) :
    Except JSError JSON :=
  match normalizeString (getField ev "text") with
  | .error e => .error e
  | .ok normalizedAiText =>
    if includes normalizedPaperContent normalizedAiText then
      match getField ev "text" with
      | some (.str text) =>
        let startIndex := indexOf paperContent text
        if startIndex ≠ -1 then
          .ok (setField (setField ev "start_index" (.num startIndex))
            "end_index" (.num (startIndex + (text.length : ℤ))))
        else
          .ok (setField (setField ev "start_index" (.num (-1))) "end_index" (.num (-1)))
      | _ => .error .typeError
    else
      .ok (setField (setField ev "start_index" (.num (-1))) "end_index" (.num (-1)))

/-- The loop `for (const ev of grade.evidence)`. -/
def resolveAll (paperContent normalizedPaperContent : JSString) :
    List JSON → Except JSError (List JSON)
  | [] => .ok []
  | ev :: evs =>
    match resolveOffsets paperContent normalizedPaperContent ev with
    | .error e => .error e
    | .ok ev' =>
      match resolveAll paperContent normalizedPaperContent evs with
      | .error e => .error e
      | .ok rest => .ok (ev' :: rest)

/-- The guard of line 198, negated: the grade is processed. -/
def isProcessedGrade (grade : JSON) : Bool :=
  truthy grade && isNumber (getField grade "score") && isNumber (getField grade "maxScore")

/-- The body of the loop over `rubricGrades` (lines 197-255) for one grade: the value of
the grade after the iteration. -/
def sanitizeGrade (toStr : Option JSON → Except JSError JSString)
    (paperContent normalizedPaperContent : JSString) (grade : JSON) : Except JSError JSON :=
  if !isProcessedGrade grade then .ok grade
  else
    match validEvidence grade with
    | .error e => .error e
    | .ok kept =>
      match backfillComment toStr (setField grade "evidence" (.arr kept)) with
      | .error e => .error e
      | .ok grade1 =>
        match resolveAll paperContent normalizedPaperContent kept with
        | .error e => .error e
        | .ok resolved => .ok (setField grade1 "evidence" (.arr resolved))

/-- The loop `for (const grade of rubricGrades)`. -/
def sanitizeLoop (toStr : Option JSON → Except JSError JSString)
    (paperContent normalizedPaperContent : JSString) : List JSON → Except JSError (List JSON)
  | [] => .ok []
  | grade :: grades =>
    match sanitizeGrade toStr paperContent normalizedPaperContent grade with
    | .error e => .error e
    | .ok grade' =>
      match sanitizeLoop toStr paperContent normalizedPaperContent grades with
      | .error e => .error e
      | .ok rest => .ok (grade' :: rest)

/-- Lines 193-257: the contents of `rubricGrades` after sanitising. -/
def sanitizeGrades (toStr : Option JSON → Except JSError JSString) (paperContent : JSString)
    (rubricGrades : List JSON) : Except JSError (List JSON) :=
  sanitizeLoop toStr paperContent (normalizeText paperContent) rubricGrades

/-- The object `responsePayload` sent on success. -/
structure ResponsePayload where
  overallScore : JSNumber
  rubricGrades : List JSON
  paperContent : JSString

/-- Message of the error thrown at line 180. -/
def schemaErrorMessage : JSString := lit "AI response did not contain a valid \"rubricGrades\" array."

/-- Lines 176-303 after the model has answered with the decoded object `response`: the
payload sent, or the exception that reaches the `catch` of line 306.  (The decoded answer is
always an object, since the parser decodes a text that starts with an opening brace.) -/
def gradeResponse (toStr : Option JSON → Except JSError JSString) (paperContent : JSString)
    (response : JSON) : Except JSError ResponsePayload :=
  match getField response "rubricGrades" with
  | some (.arr rubricGrades) =>
    match sanitizeGrades toStr paperContent rubricGrades with
    | .error e => .error e
    | .ok cleaned =>
      .ok { overallScore := computeOverall (.arr cleaned), rubricGrades := cleaned,
            paperContent := paperContent }
  | _ => .error (.error schemaErrorMessage)

/-! ## Retrying the call to the model (`callAIWithRetry`) -/

/-- The arguments of one call of `callAI`. -/
structure CallArgs where
  system_prompt : JSString
  user_prompt : JSString
  context : JSString
  timeout : Nat
  deriving DecidableEq

/-- The text put in front of the user prompt after a failure. -/
def retryInstruction : JSString :=
  lit "PLEASE RESPOND WITH VALID JSON ONLY. DO NOT ADD ANY EXTRA TEXT. Example: \x7b \"key\": \"value\" \x7d\n\n"

/-- What a run of `callAIWithRetry` does: the calls of `callAI` it made, in order, and its
completion, either a returned value or a thrown one (`none` is `undefined`, the initial
value of `lastError`). -/
structure RetryRun (ε ρ : Type) where
  calls : List CallArgs
  result : Except (Option ε) ρ

/-- The loop `while (attempt < retries)` of `callAIWithRetry`, from a state
`(attempt, currentUserPrompt, lastError)`.  `callAI n args` is the completion of the `n`-th
call of `callAI` in the run, made with arguments `args`. -/
def retryLoop {ε ρ : Type} (callAI : Nat → CallArgs → Except ε ρ)
    (system_prompt user_prompt context : JSString) (timeout retries : Nat)
    (attempt : Nat) (currentUserPrompt : JSString) (lastError : Option ε) : RetryRun ε ρ :=
  if attempt < retries then
    let args : CallArgs := ⟨system_prompt, currentUserPrompt, context, timeout⟩
    match callAI (attempt + 1) args with
    | .ok r => ⟨[args], .ok r⟩
    | .error err =>
      let rest := retryLoop callAI system_prompt user_prompt context timeout retries
        (attempt + 1) (retryInstruction ++ user_prompt) (some err)
      ⟨args :: rest.calls, rest.result⟩
  else ⟨[], .error lastError⟩
termination_by retries - attempt

/-- The function `callAIWithRetry` of the handler. -/
def callAIWithRetry {ε ρ : Type} (callAI : Nat → CallArgs → Except ε ρ)
    (system_prompt user_prompt context : JSString) (timeout retries : Nat) : RetryRun ε ρ :=
  retryLoop callAI system_prompt user_prompt context timeout retries 0 user_prompt none

/-! ## Predicates used in the statements -/

/-- A non-empty string whose first and last units are not white space. -/
def Tight (x : JSString) : Prop :=
  (∃ c t, x = c :: t ∧ isWhitespace c = false) ∧ (∃ i c, x = i ++ [c] ∧ isWhitespace c = false)

/-- The offset invariant of an evidence item against the document `d`: the offsets are
`(-1, -1)`, or they delimit a non-empty range of `d` whose content is the item's `text`. -/
def OffsetsValid (d : JSString) (ev : JSON) : Prop :=
  (getField ev "start_index" = some (.num (-1)) ∧ getField ev "end_index" = some (.num (-1))) ∨
  ∃ (s e : Nat) (q : JSString),
    getField ev "start_index" = some (.num s) ∧ getField ev "end_index" = some (.num e) ∧
    getField ev "text" = some (.str q) ∧ s < e ∧ e ≤ d.length ∧ slice d s e = q

/-! ## Sample values -/

/-- A short document. -/
def samplePaper : JSString := lit "The sky is blue."

/-- An evidence item with the given fields, all strings. -/
def mkEvidence (text suggestion revised : String) : JSON :=
  .obj [("text", .str (lit text)), ("suggestion", .str (lit suggestion)),
    ("revised_excerpt", .str (lit revised))]

/-- A grade record with a comment and a list of evidence. -/
def mkFullGrade (score maxScore : ℚ) (comment : String) (evidence : List JSON) : JSON :=
  .obj [("category", .str (lit "Clarity")), ("score", .num score), ("maxScore", .num maxScore),
    ("comment", .str (lit comment)), ("evidence", .arr evidence)]

/-- A conversion to string used in examples; it maps every value to `"undefined"`. -/
def sampleToStr : Option JSON → Except JSError JSString := fun _ => .ok (lit "undefined")

/-- The structural filter in the words of the specification, on candidates whose fields are
strings: the three fields are present and non-empty, and neither `text` nor `suggestion`
contains either of the two markers. -/
def specKeeps (ev : JSON) : Bool :=
  match getField ev "text", getField ev "suggestion", getField ev "revised_excerpt" with
  | some (.str t), some (.str s), some (.str r) =>
    !t.isEmpty && !s.isEmpty && !r.isEmpty &&
      !includes t markerText && !includes t markerSuggestion &&
      !includes s markerText && !includes s markerSuggestion
  | _, _, _ => false

/-- The structural filter as the code applies it: the three fields are truthy, `text` does
not contain `[AI ERROR` and `suggestion` does not contain `[AI did not provide`. -/
def fieldKeeps (ev : JSON) : Bool :=
  truthyOpt (getField ev "text") && truthyOpt (getField ev "suggestion") &&
    truthyOpt (getField ev "revised_excerpt") &&
    (match getField ev "text" with
      | some (.str t) => !includes t markerText
      | _ => true) &&
    (match getField ev "suggestion" with
      | some (.str s) => !includes s markerSuggestion
      | _ => true)

/-- The value is falsy or a string. -/
def falsyOrString (v : Option JSON) : Bool :=
  match v with
  | some (.str _) => true
  | other => !truthyOpt other

/-- In a candidate, `text` and `suggestion` are strings whenever they are truthy. -/
def stringQuoted (ev : JSON) : Bool :=
  falsyOrString (getField ev "text") && falsyOrString (getField ev "suggestion")

/-- The list held in `grade.evidence` when it is an array, `[]` otherwise. -/
def evidenceList (grade : JSON) : List JSON :=
  match getField grade "evidence" with
  | some (.arr evs) => evs
  | _ => []

/-- How an element of the payload relates to the raw candidate at the same place: a
candidate that the loop skips is there unchanged, a processed one is there sanitised. -/
def SanitizedFrom (toStr : Option JSON → Except JSError JSString) (paperContent : JSString)
    (raw out : JSON) : Prop :=
  (isProcessedGrade raw = false ∧ out = raw) ∨
  (isProcessedGrade raw = true ∧ isProcessedGrade out = true ∧
    sanitizeGrade toStr paperContent (normalizeText paperContent) raw = .ok out)

/-- A raw grade: 80 out of 100 with one item quoting `sky`. -/
def sampleGrade : JSON := mkFullGrade 80 100 "Good." [mkEvidence "sky" "s" "r"]

/-- The grade `sampleGrade` after sanitising against `samplePaper`. -/
def sampleGradeClean : JSON :=
  .obj [("category", .str (lit "Clarity")), ("score", .num 80), ("maxScore", .num 100),
    ("comment", .str (lit "Good.")),
    ("evidence", .arr [.obj [("text", .str (lit "sky")), ("suggestion", .str (lit "s")),
      ("revised_excerpt", .str (lit "r")), ("start_index", .num 4), ("end_index", .num 7)]])]

/-- An evidence item whose `text` is the number 5. -/
def numericTextEvidence : JSON :=
  .obj [("text", .num 5), ("suggestion", .str (lit "s")), ("revised_excerpt", .str (lit "r"))]

/-- A candidate whose `score` is a string. -/
def stringScoreGrade : JSON :=
  .obj [("category", .str (lit "Clarity")), ("score", .str (lit "high")), ("maxScore", .num 100)]

/-- An evidence item whose `text` holds the marker looked for in `suggestion` only. -/
def crossedMarkerEvidence : JSON := mkEvidence "[AI did not provide a quote]" "s" "r"

/-- The user prompt the specification gives to attempt `n` (counted from 1): the caller's
prompt on the first attempt, the fixed instruction followed by the caller's prompt on every
later one. -/
def promptAt (user_prompt : JSString) (n : Nat) : JSString :=
  if n = 1 then user_prompt else retryInstruction ++ user_prompt

/-- The arguments the specification gives to attempt `n`. -/
def attemptArgs (system_prompt user_prompt context : JSString) (timeout n : Nat) : CallArgs :=
  ⟨system_prompt, promptAt user_prompt n, context, timeout⟩

/-- A client that fails on its first call and answers `7` on every later call. -/
def failsOnce : Nat → CallArgs → Except JSString Nat :=
  fun n _ => if n = 1 then .error (lit "The AI call failed during the RubricGrading step.") else .ok 7

/-- A client that fails on every call, with the number of the call as error. -/
def alwaysFails : Nat → CallArgs → Except Nat Nat := fun n _ => .error n

/-! ## The response parser (`extractAndParseJson`) -/

/-- The fence of a code block: three backticks (unit 96). -/
def fence : JSString := [96, 96, 96]

/-- Search of `needle` in `hay` from the right; `i` is the index of the head of `hay` in the
whole string. -/
def lastIndexOfFrom (needle : JSString) : JSString → Nat → Option Nat
  | [], i => if startsWith [] needle then some i else none
  | c :: cs, i =>
    match lastIndexOfFrom needle cs (i + 1) with
    | some j => some j
    | none => if startsWith (c :: cs) needle then some i else none

/-- The call `hay.lastIndexOf(needle)`: the greatest index at which `needle` occurs, `-1`
when there is none. -/
def lastIndexOf (hay needle : JSString) : ℤ :=
  match lastIndexOfFrom needle hay 0 with
  | some i => (i : ℤ)
  | none => -1

/-- The tail of the fence pattern, tried on `body`, the text after the opening fence and the
optional tag.  The greedy white-space loop takes all leading white space; the lazy group then
ends as soon as what follows is white space and a fence, that is, it runs up to the first
fence and leaves out the white space in front of it.  The result is the text of group 1. -/
def matchFenceBody (body : JSString) : Option JSString :=
  let p := body.dropWhile isWhitespace
  match indexOfFrom fence p 0 with
  | some j => some ((p.take j).reverse.dropWhile isWhitespace).reverse
  | none => none

/-- The fence pattern tried right after an opening fence: first with the tag `json` taken
(when it is there), then without it. -/
def matchFenceAt (rest : JSString) : Option JSString :=
  match (if startsWith rest (lit "json") then matchFenceBody (rest.drop 4) else none) with
  | some r => some r
  | none => matchFenceBody rest

/-- Group 1 of the leftmost match of the fence pattern in `text` (line 62: a fence, an
optional `json`, white space, a lazy group, white space, a fence); `none` without a match. -/
def fencedContent : JSString → Option JSString
  | [] => none
  | c :: cs =>
    if startsWith (c :: cs) fence then
      match matchFenceAt ((c :: cs).drop 3) with
      | some r => some r
      | none => fencedContent cs
    else fencedContent cs

/-- Message of the error thrown at line 70. -/
def noJsonMessage (context : JSString) : JSString :=
  lit "No valid JSON object found in AI response for " ++ context ++ lit "."

/-- Message of the error thrown at line 77. -/
def malformedJsonMessage (context : JSString) : JSString :=
  lit "The AI returned malformed JSON for " ++ context ++ lit "."

/-- Lines 65-78: the brackets are located in `jsonString` and the text between them is given
to `JSON.parse`, here the parameter `jsonParse` (`none` when it throws). -/
def parseBrackets (jsonParse : JSString → Option JSON) (jsonString context : JSString) :
    Except JSError JSON :=
  let firstBracket := indexOf jsonString [123]
  let lastBracket := lastIndexOf jsonString [125]
  if firstBracket ≠ -1 ∧ lastBracket > firstBracket then
    match jsonParse (slice jsonString firstBracket.toNat (lastBracket.toNat + 1)) with
    | some v => .ok v
    | none => .error (.error (malformedJsonMessage context))
  else .error (.error (noJsonMessage context))

/-- The function `extractAndParseJson` of the handler. -/
def extractAndParseJson (jsonParse : JSString → Option JSON) (text context : JSString) :
    Except JSError JSON :=
  let jsonString :=
    match fencedContent text with
    | some inner => inner
    | none => text
  parseBrackets jsonParse jsonString context

/-- The candidate text of the specification: the content of the fenced block when the pattern
matches, the whole text otherwise. -/
def candidateText (text : JSString) : JSString := (fencedContent text).getD text

/-- The content of a block without its optional tag `json`. -/
def stripJsonTag (mid : JSString) : JSString :=
  if startsWith mid (lit "json") then mid.drop 4 else mid

/-- A decoder that knows one text, an object with the member `a` equal to 1. -/
def sampleParse (s : JSString) : Option JSON :=
  if s = lit "\x7b\"a\":1\x7d" then some (.obj [("a", .num 1)]) else none

/-- A fenced block that holds another fenced block, the inner one tagged `json`. -/
def nestedFences : JSString :=
  fence ++ [10] ++ (fence ++ lit "json\n\x7b\"a\":1\x7d\n" ++ fence) ++ [10] ++ fence

/-- The text of the parser example of the specification. -/
def proseAroundFence : JSString :=
  lit "Here is the result:\n" ++ fence ++ lit "json\n\x7b\"a\":1\x7d\n" ++ fence ++ lit "\nThanks"

/-! ## Statements about the evidence validator -/

/-- The pair of offsets that the loop body computes for the quote `q`. -/
def offsetPair (paperContent normalizedPaperContent q : JSString) : ℚ × ℚ :=
  if includes normalizedPaperContent (normalizeText q) then
    if indexOf paperContent q ≠ -1 then
      ((indexOf paperContent q : ℤ), (indexOf paperContent q : ℤ) + ((q.length : ℤ) : ℚ))
    else (-1, -1)
  else (-1, -1)

/-- The validator of the specification that skips normalisation: the offsets are those of
the first literal occurrence of the quote in the document, `(-1, -1)` without one. -/
def resolveOffsetsLiteral (paperContent : JSString) (ev : JSON) : Except JSError JSON :=
  match getField ev "text" with
  | some (.str text) =>
    if indexOf paperContent text = -1 then
      .ok (setField (setField ev "start_index" (.num (-1))) "end_index" (.num (-1)))
    else
      .ok (setField (setField ev "start_index" (.num (indexOf paperContent text)))
        "end_index" (.num (indexOf paperContent text + (text.length : ℤ))))
  | _ => .error .typeError

/-- A second validation of an item, as the specification words it: the item is given back
to the loop body with its quote replaced by its own normalised quote. -/
def revalidate (paperContent : JSString) (ev : JSON) : Except JSError JSON :=
  match normalizeString (getField ev "text") with
  | .error e => .error e
  | .ok normalizedQuote =>
    resolveOffsets paperContent (normalizeText paperContent)
      (setField ev "text" (.str normalizedQuote))

/-- The quote `q` is obtained from the text `s` by replacing straight single or double
quotes (units 39, 34) with typographic ones and by making runs of white space longer or
shorter. -/
inductive QuoteVariant : JSString → JSString → Prop where
  | nil : QuoteVariant [] []
  | keep (c : Nat) {s q : JSString} : QuoteVariant s q → QuoteVariant (c :: s) (c :: q)
  | curlSingle (c : Nat) {s q : JSString} :
      c = 8216 ∨ c = 8217 → QuoteVariant s q → QuoteVariant (39 :: s) (c :: q)
  | curlDouble (c : Nat) {s q : JSString} :
      c = 8220 ∨ c = 8221 → QuoteVariant s q → QuoteVariant (34 :: s) (c :: q)
  | longer (w w' : Nat) {s q : JSString} :
      isWhitespace w = true → isWhitespace w' = true →
      QuoteVariant s (w' :: q) → QuoteVariant s (w :: w' :: q)
  | shorter (w w' : Nat) {s q : JSString} :
      isWhitespace w = true → isWhitespace w' = true →
      QuoteVariant (w' :: s) q → QuoteVariant (w :: w' :: s) q

/-- A document with a quotation in straight double quotes. -/
def quotingPaper : JSString := lit "He said \"like this\" and left."

/-- The quotation of `quotingPaper` in typographic double quotes. -/
def curlyQuote : JSString := [8220] ++ lit "like this" ++ [8221]

/-- A document with two spaces between two words. -/
def spacedPaper : JSString := lit "The sky  is blue."

/-- A document in which a passage occurs twice. -/
def repeatingPaper : JSString := lit "the cat and the cat"

/-- The range condition of the specification on a grade: `0 ≤ score ≤ maxScore`. -/
def ScoreInRange (g : JSON) : Prop :=
  0 ≤ numField g "score" ∧ numField g "score" ≤ numField g "maxScore"

/-- The two replacements of typographic quotes on one unit, in the order of
`normalizeString`. -/
def straightenUnit (c : Nat) : Nat :=
  let c₁ := if c = 8216 ∨ c = 8217 then 39 else c
  if c₁ = 8220 ∨ c₁ = 8221 then 34 else c₁

/-! ## The handler around the calls -/

/-- Line 47: the rubric when none is supplied. -/
def noRubricSentence : JSString :=
  lit "No rubric provided. Grade based on general academic standards."

/-- Line 138: the five default categories, one per line. -/
def defaultRubric : JSString := lit "Clarity\nArgumentation\nEvidence\nStructure\nMechanics"

/-- Lines 47-52: `rubricFile` is the text extracted from the uploaded rubric file, if any,
and `rubricText` the form field of that name, `none` when the request has none. -/
def rubricContent (rubricFile rubricText : Option JSString) : JSString :=
  match rubricFile with
  | some extracted => extracted
  | none =>
    match rubricText with
    | some t => if t.isEmpty then noRubricSentence else t
    | none => noRubricSentence

/-- Lines 135-139. -/
def finalRubricContent (rubricContent : JSString) : JSString :=
  if rubricContent.isEmpty || (trim rubricContent).isEmpty then defaultRubric else rubricContent

/-- Line 175; `customPrompt` is `req.body.customPrompt || ''`. -/
def rubric_user_prompt (finalRubricContent paperContent customPrompt : JSString) : JSString :=
  lit "Rubric:\n" ++ finalRubricContent ++ lit "\n\nPaper:\n" ++ paperContent ++
    (if customPrompt.isEmpty then [] else lit "\n\nAdditionalInstructions:\n" ++ customPrompt)

/-- Lines 143-174: the system prompt of the grading call. -/
def rubric_system_prompt : JSString :=
  lit ("\n" ++
    "You are a writing analyst and JSON API. Your purpose is to identify weaknesses in a paper and provide actionable feedback.\n" ++
    "\n" ++
    "**ABSOLUTE RULES:**\n" ++
    "1.  **VERBATIM QUOTES ONLY:** The \"text\" field in your response MUST be an exact, word-for-word quote copied directly from the provided paper. Any deviation from this rule (summarizing, paraphrasing, commenting) is a critical failure. This is your most important instruction.\n" ++
    "2.  **COMPLETE FEEDBACK:** Every \"evidence\" object MUST contain all three required fields: \"text\", \"suggestion\", and \"revised_excerpt\". No exceptions.\n" ++
    "3.  **VALID JSON:** Your entire output must be a single, valid JSON object.\n" ++
    "\n" ++
    "**TASK:**\n" ++
    "Grade the paper against the rubric. For each rubric category, find 1-3 examples of weaknesses.\n" ++
    "\n" ++
    "**OUTPUT FORMAT:**\n" ++
    "- A single JSON object with one key: \"rubricGrades\".\n" ++
    "- \"rubricGrades\" is an array of objects, each with: \"category\", \"score\", \"maxScore\", \"comment\", and \"evidence\".\n" ++
    "- \"score\": An integer based on a standard academic scale (90-100 A, 80-89 B, etc.).\n" ++
    "- \"comment\": A paragraph explaining the score.\n" ++
    "- \"evidence\": An array of feedback objects.\n" ++
    "  - If no weaknesses are found for a category, assign a perfect score and return an empty \"evidence\" array.\n" ++
    "  - Each evidence object MUST contain:\n" ++
    "    - \"text\" (string): The verbatim quote from the paper.\n" ++
    "    - \"suggestion\" (string): A direct suggestion for improving the quote.\n" ++
    "    - \"revised_excerpt\" (string): A rewritten version of the \"text\" that implements the \"suggestion\".\n" ++
    "\n" ++
    "**EXAMPLE EVIDENCE OBJECT:**\n" ++
    "\x7b\n" ++
    "  \"text\": \"Further, the problem of evil is a big question.\",\n" ++
    "  \"suggestion\": \"This sentence is too informal and vague. Use more precise academic language.\",\n" ++
    "  \"revised_excerpt\": \"Furthermore, the philosophical problem of evil presents a significant challenge to classical theism.\"\n" ++
    "\x7d\n" ++
    "\n" ++
    "Adhere to these rules strictly. Your primary function is to provide accurate, quote-based feedback.\n" ++
    "      ")

/-- How the request of `callAI` to the model ends: it resolves with the text `response`, it
is aborted by the timeout, it is rejected with the HTTP status of a response, or it fails in
another way (no response). -/
inductive HttpOutcome where
  | answered (response : JSString) : HttpOutcome
  | cancelled : HttpOutcome
  | rejected (status : Nat) : HttpOutcome
  | failed : HttpOutcome

/-- Message of the error thrown at line 103. -/
def timeoutMessage (context : JSString) : JSString :=
  lit "The AI call for the " ++ context ++ lit " step timed out."

/-- Message of the error thrown at line 106. -/
def statusMessage (context : JSString) (status : Nat) : JSString :=
  lit "The AI call for the " ++ context ++ lit " step failed with status code " ++
    lit (toString status) ++ lit "."

/-- Message of the error thrown at line 109. -/
def callFailedMessage (context : JSString) : JSString :=
  lit "The AI call failed during the " ++ context ++
    lit " step. Check backend console logs for details."

/-- The function `callAI` of the handler; `post n args` is the way the request of the `n`-th
call ends.  An exception of `extractAndParseJson` is thrown inside the `try`, is not a
cancellation and has no `response`, so the `catch` replaces it by the error of line 109. -/
def callAI (jsonParse : JSString → Option JSON) (post : Nat → CallArgs → HttpOutcome)
    (n : Nat) (args : CallArgs) : Except JSError JSON :=
  match post n args with
  | .answered response =>
    match extractAndParseJson jsonParse (trim response) args.context with
    | .ok v => .ok v
    | .error _ => .error (.error (callFailedMessage args.context))
  | .cancelled => .error (.error (timeoutMessage args.context))
  | .rejected status => .error (.error (statusMessage args.context status))
  | .failed => .error (.error (callFailedMessage args.context))

/-- The body of an error answer: its two members. -/
structure ErrorEnvelope where
  error : JSString
  details : JSString
  deriving DecidableEq

/-- What the handler sends: the payload, or an error answer with its HTTP status. -/
inductive Reply where
  | sent (payload : ResponsePayload) : Reply
  | failed (status : Nat) (envelope : ErrorEnvelope) : Reply

/-- The member `message` of a thrown value; the message of a `TypeError` is given by the
runtime and is the parameter `runtimeMessage`. -/
def errorMessage (runtimeMessage : JSString) : JSError → JSString
  | .typeError => runtimeMessage
  | .error m => m

/-- Line 310. -/
def analysisFailedText : JSString := lit "Failed to get feedback from the AI."

/-- Line 326. -/
def serverErrorText : JSString := lit "Server processing error"

/-- The `catch` of lines 306-314. -/
def analysisFailure (runtimeMessage : JSString) (e : JSError) : Reply :=
  .failed 500 ⟨analysisFailedText, errorMessage runtimeMessage e⟩

/-- The context name of the grading call. -/
def gradingContext : JSString := lit "RubricGrading"

/-- The user prompt of the grading call for a request. -/
def gradingPrompt (paperContent : JSString) (rubricFile rubricText : Option JSString)
    (customPrompt : JSString) : JSString :=
  rubric_user_prompt (finalRubricContent (rubricContent rubricFile rubricText)) paperContent
    customPrompt

/-- Lines 133-314, from the texts read from the request to the answer.  The value thrown by
`callAIWithRetry` is never `undefined` here (two attempts are made); were it so, reading its
`message` would throw in the `catch` and the outer `catch` of line 316 would answer. -/
def handleUpload (toStr : Option JSON → Except JSError JSString) (runtimeMessage : JSString)
    (jsonParse : JSString → Option JSON) (post : Nat → CallArgs → HttpOutcome)
    (paperContent : JSString) (rubricFile rubricText : Option JSString)
    (customPrompt : JSString) : Reply :=
  match (callAIWithRetry (callAI jsonParse post) rubric_system_prompt
      (gradingPrompt paperContent rubricFile rubricText customPrompt)
      gradingContext 300000 2).result with
  | .ok response =>
    match gradeResponse toStr paperContent response with
    | .ok payload => .sent payload
    | .error e => analysisFailure runtimeMessage e
  | .error (some e) => analysisFailure runtimeMessage e
  | .error none => .failed 500 ⟨serverErrorText, runtimeMessage⟩

/-- The kinds of failure of the grading call and of the schema check. -/
inductive FailureKind where
  | timeout : FailureKind
  | endpoint (status : Nat) : FailureKind
  | callFailed : FailureKind
  | schema : FailureKind
  deriving DecidableEq

/-- The message that goes with a kind of failure. -/
def kindDetails (context : JSString) : FailureKind → JSString
  | .timeout => timeoutMessage context
  | .endpoint status => statusMessage context status
  | .callFailed => callFailedMessage context
  | .schema => schemaErrorMessage

/-- The kind of failure of one call of the model, `none` when the call returns an object: a
timeout, an error status, or any other failure, to which an answer without a JSON object
belongs. -/
def callFailureKind (jsonParse : JSString → Option JSON) (context : JSString) :
    HttpOutcome → Option FailureKind
  | .cancelled => some .timeout
  | .rejected status => some (.endpoint status)
  | .failed => some .callFailed
  | .answered response =>
    match extractAndParseJson jsonParse (trim response) context with
    | .ok _ => none
    | .error _ => some .callFailed

/-- The arguments of the `n`-th call of the model for a request. -/
def gradingArgs (paperContent : JSString) (rubricFile rubricText : Option JSString)
    (customPrompt : JSString) (n : Nat) : CallArgs :=
  attemptArgs rubric_system_prompt
    (gradingPrompt paperContent rubricFile rubricText customPrompt) gradingContext 300000 n

/-- The text is empty or made of white space only. -/
def isBlank (t : JSString) : Bool := t.all isWhitespace

/-- A model that never answers in time. -/
def alwaysCancelled : Nat → CallArgs → HttpOutcome := fun _ _ => .cancelled

/-- A model that always answers with an object without `rubricGrades`. -/
def answersWithoutGrades : Nat → CallArgs → HttpOutcome :=
  fun _ _ => .answered (lit "\x7b\"a\":1\x7d")

/-- A grade with a score above its maximum and one resolved evidence item. -/
def overfullGrade : JSON := mkFullGrade 150 100 "Good." [mkEvidence "sky" "s" "r"]

/-- The grade `overfullGrade` after sanitising against `samplePaper`. -/
def overfullGradeClean : JSON :=
  .obj [("category", .str (lit "Clarity")), ("score", .num 150), ("maxScore", .num 100),
    ("comment", .str (lit "Good.")),
    ("evidence", .arr [.obj [("text", .str (lit "sky")), ("suggestion", .str (lit "s")),
      ("revised_excerpt", .str (lit "r")), ("start_index", .num 4), ("end_index", .num 7)]])]
/-! ## Properties of the score aggregation -/

theorem isValidGrade_eq_hasNumericScores (g : JSON) : isValidGrade g = hasNumericScores g := by
  cases g <;> simp [isValidGrade, hasNumericScores, truthy, typeofObject, getField, isNumber]

theorem jsNumber_ofNat (n : ℕ) : (OfNat.ofNat n : JSNumber) = .finite (n : ℚ) := rfl

theorem roundHalfEven_near (t : ℚ) (m : ℤ) (h1 : (m : ℚ) - 1 / 2 < t)
    (h2 : t < (m : ℚ) + 1 / 2) : roundHalfEven t = m := by
  unfold roundHalfEven
  by_cases hge : (m : ℚ) ≤ t
  · have hf : ⌊t⌋ = m := by
      rw [Int.floor_eq_iff]
      constructor
      · exact hge
      · linarith
    rw [hf]
    rw [if_pos (by linarith)]
  · push_neg at hge
    have hf : ⌊t⌋ = m - 1 := by
      rw [Int.floor_eq_iff]
      push_cast
      constructor <;> linarith
    rw [hf]
    push_cast
    rw [if_neg (by linarith), if_pos (by linarith)]
    ring

theorem roundHalfEven_nonneg (t : ℚ) (h : 0 ≤ t) : 0 ≤ roundHalfEven t := by
  have hf : 0 ≤ ⌊t⌋ := Int.floor_nonneg.mpr h
  unfold roundHalfEven
  split_ifs <;> omega

theorem roundHalfEven_le (t : ℚ) (N : ℤ) (h : t ≤ N) : roundHalfEven t ≤ N := by
  have hf : ⌊t⌋ ≤ N := Int.floor_le_iff.mpr (by linarith)
  have hstep : 0 < t - ⌊t⌋ → ⌊t⌋ + 1 ≤ N := by
    intro hpos
    have hlt : (⌊t⌋ : ℚ) < N := by linarith
    have : ⌊t⌋ < N := by exact_mod_cast hlt
    omega
  unfold roundHalfEven
  split_ifs with h1 h2 h3
  · exact hf
  · exact hstep (by linarith)
  · exact hf
  · exact hstep (by linarith)

theorem binaryExponent_eq (x : ℚ) (e : ℤ) (he : -1022 ≤ e) (hlo : (2 : ℚ) ^ e ≤ |x|)
    (hhi : |x| < (2 : ℚ) ^ (e + 1)) : binaryExponent x = e := by
  have hpos : (0 : ℚ) < |x| := lt_of_lt_of_le (by positivity) hlo
  have h1 : e ≤ Int.log 2 |x| :=
    (Int.zpow_le_iff_le_log (by norm_num) hpos).mp (by exact_mod_cast hlo)
  have h2 : Int.log 2 |x| < e + 1 :=
    (Int.lt_zpow_iff_log_lt (by norm_num) hpos).mp (by exact_mod_cast hhi)
  unfold binaryExponent
  omega

theorem binaryExponent_le (x : ℚ) (e : ℤ) (he : -1022 ≤ e) (hpos : 0 < x)
    (hhi : x < (2 : ℚ) ^ (e + 1)) : binaryExponent x ≤ e := by
  have habs : |x| = x := abs_of_pos hpos
  have h2 : Int.log 2 |x| < e + 1 :=
    (Int.lt_zpow_iff_log_lt (by norm_num) (by rw [habs]; exact hpos)).mp
      (by rw [habs]; exact_mod_cast hhi)
  unfold binaryExponent
  omega

/-- A certificate for one rounding: `x` lies in the binade of `2 ^ e` and its quotient by the
unit in the last place is within one half of the integer `m`. -/
theorem roundDouble_near (x : ℚ) (e m : ℤ) (he : -1022 ≤ e) (hlo : (2 : ℚ) ^ e ≤ |x|)
    (hhi : |x| < (2 : ℚ) ^ (e + 1)) (h1 : (m : ℚ) - 1 / 2 < |x| / (2 : ℚ) ^ (e - 52))
    (h2 : |x| / (2 : ℚ) ^ (e - 52) < (m : ℚ) + 1 / 2)
    (hfin : (m : ℚ) * (2 : ℚ) ^ (e - 52) < (2 : ℚ) ^ (1024 : ℕ)) :
    roundDouble x =
      .finite (if x < 0 then -((m : ℚ) * (2 : ℚ) ^ (e - 52))
        else (m : ℚ) * (2 : ℚ) ^ (e - 52)) := by
  have hpos : (0 : ℚ) < |x| := lt_of_lt_of_le (by positivity) hlo
  have hx : x ≠ 0 := abs_pos.mp hpos
  unfold roundDouble
  rw [if_neg hx]
  simp only [binaryExponent_eq x e he hlo hhi, roundHalfEven_near _ m h1 h2, if_pos hfin]

/-- Rounding does not pass a bound that is a multiple of the unit in the last place. -/
theorem roundDouble_le_multiple (x c : ℚ) (N : ℤ) (hpos : 0 < x) (hxc : x ≤ c)
    (hc : c = (N : ℚ) * (2 : ℚ) ^ (binaryExponent x - 52)) (hfin : c < (2 : ℚ) ^ (1024 : ℕ)) :
    ∃ y : ℚ, roundDouble x = .finite y ∧ 0 ≤ y ∧ y ≤ c := by
  have hulp : (0 : ℚ) < (2 : ℚ) ^ (binaryExponent x - 52) := by positivity
  have habs : |x| = x := abs_of_pos hpos
  have ht : x / (2 : ℚ) ^ (binaryExponent x - 52) ≤ (N : ℚ) := by
    rw [div_le_iff₀ hulp, ← hc]; exact hxc
  have ht0 : 0 ≤ x / (2 : ℚ) ^ (binaryExponent x - 52) := by positivity
  have hR := roundHalfEven_le _ N ht
  have hR0 := roundHalfEven_nonneg _ ht0
  have hy : (roundHalfEven (x / (2 : ℚ) ^ (binaryExponent x - 52)) : ℚ) *
      (2 : ℚ) ^ (binaryExponent x - 52) ≤ c := by
    rw [hc]
    apply mul_le_mul_of_nonneg_right _ hulp.le
    exact_mod_cast hR
  have hy0 : (0 : ℚ) ≤ (roundHalfEven (x / (2 : ℚ) ^ (binaryExponent x - 52)) : ℚ) *
      (2 : ℚ) ^ (binaryExponent x - 52) := by
    apply mul_nonneg _ hulp.le
    exact_mod_cast hR0
  refine ⟨(roundHalfEven (x / (2 : ℚ) ^ (binaryExponent x - 52)) : ℚ) *
      (2 : ℚ) ^ (binaryExponent x - 52), ?_, hy0, hy⟩
  unfold roundDouble
  rw [if_neg hpos.ne']
  simp only [habs]
  rw [if_pos (lt_of_le_of_lt hy hfin), if_neg (not_lt.mpr hpos.le)]

theorem roundDouble_two_pow_53 : roundDouble ((2 : ℚ) ^ (53 : ℕ)) = .finite ((2 : ℚ) ^ (53 : ℕ)) := by
  have := roundDouble_near ((2 : ℚ) ^ (53 : ℕ)) 53 4503599627370496 (by norm_num)
    (by norm_num [abs_of_pos]) (by norm_num [abs_of_pos]) (by norm_num [abs_of_pos])
    (by norm_num [abs_of_pos]) (by norm_num)
  rw [this]
  norm_num

/-- Rounding a value between 0 and a natural number up to `2 ^ 53` gives a finite value in
the same range. -/
theorem roundDouble_le_nat (x : ℚ) (k : ℕ) (hx0 : 0 ≤ x) (hxk : x ≤ k)
    (hk : k ≤ 2 ^ 53) : ∃ y : ℚ, roundDouble x = .finite y ∧ 0 ≤ y ∧ y ≤ k := by
  have hkq : (k : ℚ) ≤ (2 : ℚ) ^ (53 : ℕ) := by exact_mod_cast hk
  rcases eq_or_lt_of_le hx0 with h0 | hpos
  · refine ⟨0, ?_, le_refl _, by positivity⟩
    rw [← h0]; simp [roundDouble]
  · by_cases hlt : x < (2 : ℚ) ^ (53 : ℕ)
    · have he : binaryExponent x ≤ 52 :=
        binaryExponent_le x 52 (by norm_num) hpos (by norm_num; linarith)
      obtain ⟨d, hd⟩ : ∃ d : ℕ, (52 : ℤ) - binaryExponent x = d :=
        ⟨(52 - binaryExponent x).toNat, by omega⟩
      have hmul : (2 : ℚ) ^ (d : ℤ) * (2 : ℚ) ^ (binaryExponent x - 52) = 1 := by
        rw [← zpow_add₀ (by norm_num : (2 : ℚ) ≠ 0)]
        have : (d : ℤ) + (binaryExponent x - 52) = 0 := by omega
        rw [this]; simp
      apply roundDouble_le_multiple x k ((k : ℤ) * 2 ^ d) hpos hxk
      · push_cast
        rw [mul_assoc, ← zpow_natCast (2 : ℚ) d, hmul, mul_one]
      · calc (k : ℚ) ≤ (2 : ℚ) ^ (53 : ℕ) := hkq
          _ < (2 : ℚ) ^ (1024 : ℕ) := by norm_num
    · have hx : x = (2 : ℚ) ^ (53 : ℕ) := le_antisymm (le_trans hxk hkq) (not_lt.mp hlt)
      refine ⟨(2 : ℚ) ^ (53 : ℕ), ?_, by positivity, ?_⟩
      · rw [hx]; exact roundDouble_two_pow_53
      · rw [← hx]; exact hxk

/-- A sum just above `2 ^ 53` rounds back to `2 ^ 53`: the tie at `2 ^ 53 + 1` goes to the
even significand. -/
theorem roundDouble_saturate (x : ℚ) (hlo : (2 : ℚ) ^ (53 : ℕ) ≤ x)
    (hhi : x ≤ (2 : ℚ) ^ (53 : ℕ) + 1) : roundDouble x = .finite ((2 : ℚ) ^ (53 : ℕ)) := by
  have hpos : (0 : ℚ) < x := lt_of_lt_of_le (by positivity) hlo
  have habs : |x| = x := abs_of_pos hpos
  have he : binaryExponent x = 53 := by
    apply binaryExponent_eq x 53 (by norm_num)
    · rw [habs]; norm_num at hlo ⊢; linarith
    · rw [habs]; norm_num at hhi ⊢; linarith
  have hf : ⌊x / 2⌋ = 4503599627370496 := by
    rw [Int.floor_eq_iff]
    norm_num at hlo hhi ⊢
    constructor <;> linarith
  have hr : roundHalfEven (x / 2) = 4503599627370496 := by
    unfold roundHalfEven
    rw [hf]
    norm_num at hlo hhi ⊢
    intro _
    linarith
  unfold roundDouble
  rw [if_neg hpos.ne']
  simp only [habs, he]
  norm_num [hr]
  exact hpos.le

/-- A certificate for one rounding with the result named: see `roundDouble_near`. -/
theorem roundDouble_eval (x y : ℚ) (e m : ℤ) (he : -1022 ≤ e) (hlo : (2 : ℚ) ^ e ≤ |x|)
    (hhi : |x| < (2 : ℚ) ^ (e + 1)) (h1 : (m : ℚ) - 1 / 2 < |x| / (2 : ℚ) ^ (e - 52))
    (h2 : |x| / (2 : ℚ) ^ (e - 52) < (m : ℚ) + 1 / 2)
    (hfin : (m : ℚ) * (2 : ℚ) ^ (e - 52) < (2 : ℚ) ^ (1024 : ℕ))
    (hy : y = if x < 0 then -((m : ℚ) * (2 : ℚ) ^ (e - 52))
      else (m : ℚ) * (2 : ℚ) ^ (e - 52)) :
    roundDouble x = .finite y := by
  rw [roundDouble_near x e m he hlo hhi h1 h2 hfin, hy]

theorem mathRound_range (r : ℚ) (h0 : 0 ≤ r) (h1 : r ≤ 100) :
    0 ≤ mathRound r ∧ mathRound r ≤ 100 := by
  unfold mathRound
  constructor
  · apply Int.floor_nonneg.mpr; linarith
  · have : ⌊r + 1 / 2⌋ < 101 := by
      apply Int.floor_lt.mpr
      push_cast
      linarith
    omega

theorem pct_range (g : JSON)
    (h : 0 < numField g "maxScore" →
      0 ≤ numField g "score" ∧ numField g "score" ≤ numField g "maxScore") :
    ∃ p : ℚ, pct g = .finite p ∧ 0 ≤ p ∧ p ≤ 1 := by
  unfold pct
  split
  · rename_i hpos
    have hb := h hpos
    have := roundDouble_le_nat (numField g "score" / numField g "maxScore") 1
      (div_nonneg hb.1 hpos.le) (by rw [Nat.cast_one, div_le_one hpos]; exact hb.2) (by norm_num)
    simpa using this
  · exact ⟨0, by simp [jsNumber_ofNat], le_refl _, zero_le_one⟩

/-- The running sum of percentages between 0 and 1 stays finite, between 0 and the number of
terms added. -/
theorem foldl_pct_range (l : List JSON)
    (hl : ∀ g ∈ l, ∃ p : ℚ, pct g = .finite p ∧ 0 ≤ p ∧ p ≤ 1) (a : ℚ) (j : ℕ)
    (ha0 : 0 ≤ a) (haj : a ≤ ((min j (2 ^ 53) : ℕ) : ℚ)) :
    ∃ b : ℚ, l.foldl (fun acc g => jsAdd acc (pct g)) (.finite a) = .finite b ∧ 0 ≤ b ∧
      b ≤ ((min (j + l.length) (2 ^ 53) : ℕ) : ℚ) := by
  induction l generalizing a j with
  | nil => exact ⟨a, rfl, ha0, by simpa using haj⟩
  | cons g gs ih =>
    obtain ⟨p, hp, hp0, hp1⟩ := hl g (List.mem_cons_self g gs)
    have hstep : ∃ y : ℚ, roundDouble (a + p) = .finite y ∧ 0 ≤ y ∧
        y ≤ ((min (j + 1) (2 ^ 53) : ℕ) : ℚ) := by
      by_cases hj : j < 2 ^ 53
      · have hm : min j (2 ^ 53) = j := min_eq_left hj.le
        have hm1 : min (j + 1) (2 ^ 53) = j + 1 := min_eq_left hj
        rw [hm] at haj
        rw [hm1]
        apply roundDouble_le_nat (a + p) (j + 1) (by linarith) _ hj
        push_cast
        linarith
      · have hm : min j (2 ^ 53) = 2 ^ 53 := min_eq_right (not_lt.mp hj)
        have hm1 : min (j + 1) (2 ^ 53) = 2 ^ 53 := min_eq_right (by omega)
        rw [hm] at haj
        rw [hm1]
        push_cast at haj ⊢
        by_cases hle : a + p ≤ (2 : ℚ) ^ (53 : ℕ)
        · have := roundDouble_le_nat (a + p) (2 ^ 53) (by linarith) (by push_cast; exact hle)
            (le_refl _)
          simpa using this
        · refine ⟨(2 : ℚ) ^ (53 : ℕ), ?_, by positivity, le_refl _⟩
          exact roundDouble_saturate (a + p) (not_le.mp hle).le (by linarith)
    obtain ⟨y, hy, hy0, hy1⟩ := hstep
    have := ih (fun x hx => hl x (List.mem_cons_of_mem g hx)) y (j + 1) hy0 hy1
    simp only [List.foldl_cons, hp, jsAdd, hy, List.length_cons]
    have hlen : j + 1 + gs.length = j + (gs.length + 1) := by omega
    rw [hlen] at this
    exact this

theorem roundDouble_zero : roundDouble 0 = 0 := by
  simp [roundDouble, jsNumber_ofNat]

theorem pct_eq_specPercentDouble (g : JSON) : pct g = specPercentDouble g := by
  cases g with
  | obj kvs =>
    cases h1 : lookupKey "score" kvs with
    | none => simp [pct, specPercentDouble, numField, getField, h1, roundDouble_zero]
    | some s =>
      cases h2 : lookupKey "maxScore" kvs with
      | none => simp [pct, specPercentDouble, numField, getField, h1, h2, roundDouble_zero]
      | some m =>
        cases s <;> cases m <;> simp [pct, specPercentDouble, numField, getField, h1, h2, roundDouble_zero]
  | null => simp [pct, specPercentDouble, numField, getField]
  | bool b => simp [pct, specPercentDouble, numField, getField]
  | num q => simp [pct, specPercentDouble, numField, getField]
  | str s => simp [pct, specPercentDouble, numField, getField]
  | arr xs => simp [pct, specPercentDouble, numField, getField]

/-- The aggregate of a single record built by `mkGrade` with a positive maximum. -/
theorem computeOverall_single (s m : ℚ) (hm : 0 < m) :
    computeOverall (.arr [mkGrade s m]) =
      jsMathRound (jsMulPos (jsDivPos (jsAdd (.finite 0) (roundDouble (s / m))) 1) 100) := by
  simp [computeOverall, isValidGrade, mkGrade, truthy, typeofObject, isNumber, getField,
    lookupKey, pct, numField, hm, jsNumber_ofNat]

/-- C1 (as the code behaves).  When every counted record with a positive `maxScore` has
`0 ≤ score ≤ maxScore`, the scores being finite numbers, `computeOverall` returns an integer
between 0 and 100. -/
theorem computeOverall_range (gs : List JSON)
    (h : ∀ g ∈ gs, isValidGrade g = true → 0 < numField g "maxScore" →
      0 ≤ numField g "score" ∧ numField g "score" ≤ numField g "maxScore") :
    ∃ n : ℤ, computeOverall (.arr gs) = .finite (n : ℚ) ∧ 0 ≤ n ∧ n ≤ 100 := by
  unfold computeOverall
  simp only
  split
  · exact ⟨0, by simp [jsNumber_ofNat], le_refl _, by norm_num⟩
  · rename_i hlen
    have hpos : (0 : ℚ) < ((gs.filter isValidGrade).length : ℚ) := by
      exact_mod_cast Nat.pos_of_ne_zero hlen
    obtain ⟨b, hb, hb0, hb1⟩ := foldl_pct_range (gs.filter isValidGrade) (fun g hg => by
      rw [List.mem_filter] at hg
      exact pct_range g (h g hg.1 hg.2)) 0 0 (le_refl _) (by simp)
    have hbn : b ≤ ((gs.filter isValidGrade).length : ℚ) := by
      refine le_trans hb1 ?_
      rw [zero_add]
      exact_mod_cast min_le_left _ _
    obtain ⟨q, hq, hq0, hq1⟩ := roundDouble_le_nat (b / ((gs.filter isValidGrade).length : ℚ)) 1
      (div_nonneg hb0 hpos.le) (by rw [Nat.cast_one, div_le_one hpos]; exact hbn) (by norm_num)
    obtain ⟨r, hr, hr0, hr1⟩ := roundDouble_le_nat (q * 100) 100 (by linarith)
      (by push_cast at hq1 ⊢; linarith) (by norm_num)
    have hz : (0 : JSNumber) = .finite 0 := rfl
    refine ⟨mathRound r, ?_, mathRound_range r hr0 (by exact_mod_cast hr1)⟩
    rw [hz, hb]
    simp only [jsDivPos, hq, jsMulPos, hr, jsMathRound]

/-- Witness of `computeOverall_range`: two records scoring 80 out of 100. -/
theorem computeOverall_range_witness :
    ∃ n : ℤ, computeOverall (.arr [mkGrade 80 100, mkGrade 80 100]) = .finite (n : ℚ) ∧
      0 ≤ n ∧ n ≤ 100 :=
  computeOverall_range [mkGrade 80 100, mkGrade 80 100] (by
    intro g hg _ _
    simp only [List.mem_cons, List.mem_singleton, List.mem_nil_iff, or_false, or_self] at hg
    subst hg
    simp [mkGrade, numField, getField, lookupKey]
    norm_num)

theorem mathRound_eq (r : ℚ) (n : ℤ) (h1 : (n : ℚ) - 1 / 2 ≤ r) (h2 : r < (n : ℚ) + 1 / 2) :
    mathRound r = n := by
  unfold mathRound
  rw [Int.floor_eq_iff]
  constructor <;> linarith

/-- The aggregate of one record, from the results of its three roundings. -/
theorem computeOverall_single_eval (s m p r : ℚ) (hm : 0 < m)
    (hp : roundDouble (s / m) = .finite p) (hpp : roundDouble p = .finite p)
    (hr : roundDouble (p * 100) = .finite r) :
    computeOverall (.arr [mkGrade s m]) = .finite (mathRound r) := by
  rw [computeOverall_single s m hm, hp]
  simp only [jsAdd, zero_add, hpp, jsDivPos, div_one, jsMulPos, hr, jsMathRound]

/-- The aggregate of two equal records, from the results of its roundings. -/
theorem computeOverall_pair_eval (s m p a q r : ℚ) (hm : 0 < m)
    (hp : roundDouble (s / m) = .finite p) (hpp : roundDouble p = .finite p)
    (ha : roundDouble (p + p) = .finite a) (hq : roundDouble (a / 2) = .finite q)
    (hr : roundDouble (q * 100) = .finite r) :
    computeOverall (.arr [mkGrade s m, mkGrade s m]) = .finite (mathRound r) := by
  have h2 : ((1 : ℚ) + 1) = 2 := by norm_num
  simp [computeOverall, isValidGrade, mkGrade, truthy, typeofObject, isNumber, getField,
    lookupKey, pct, numField, hm, jsNumber_ofNat, hp, jsAdd, hpp, ha, jsDivPos, h2, hq,
    jsMulPos, hr, jsMathRound]

theorem roundDouble_of_29_200 :
    roundDouble (29 / 200) = .finite (5224175567749775 / 36028797018963968) :=
  roundDouble_eval _ _ (-3) 5224175567749775 (by norm_num) (by norm_num [abs_of_pos])
    (by norm_num [abs_of_pos]) (by norm_num [abs_of_pos]) (by norm_num [abs_of_pos])
    (by norm_num) (by norm_num)

theorem roundDouble_of_double_29_200 :
    roundDouble (5224175567749775 / 36028797018963968) =
      .finite (5224175567749775 / 36028797018963968) :=
  roundDouble_eval _ _ (-3) 5224175567749775 (by norm_num) (by norm_num [abs_of_pos])
    (by norm_num [abs_of_pos]) (by norm_num [abs_of_pos]) (by norm_num [abs_of_pos])
    (by norm_num) (by norm_num)

theorem roundDouble_of_29_200_times_100 :
    roundDouble (5224175567749775 / 36028797018963968 * 100) =
      .finite (8162774324609023 / 562949953421312) :=
  roundDouble_eval _ _ 3 8162774324609023 (by norm_num) (by norm_num [abs_of_pos])
    (by norm_num [abs_of_pos]) (by norm_num [abs_of_pos]) (by norm_num [abs_of_pos])
    (by norm_num) (by norm_num)

theorem computeOverall_of_29_200 : computeOverall (.arr [mkGrade 29 200]) = .finite 14 := by
  rw [computeOverall_single_eval 29 200 _ _ (by norm_num) roundDouble_of_29_200
    roundDouble_of_double_29_200 roundDouble_of_29_200_times_100]
  rw [mathRound_eq _ 14 (by norm_num) (by norm_num)]
  norm_num

theorem roundDouble_of_80_100 :
    roundDouble (80 / 100) = .finite (7205759403792794 / 9007199254740992) :=
  roundDouble_eval _ _ (-1) 7205759403792794 (by norm_num) (by norm_num [abs_of_pos])
    (by norm_num [abs_of_pos]) (by norm_num [abs_of_pos]) (by norm_num [abs_of_pos])
    (by norm_num) (by norm_num)

theorem roundDouble_of_double_80_100 :
    roundDouble (7205759403792794 / 9007199254740992) =
      .finite (7205759403792794 / 9007199254740992) :=
  roundDouble_eval _ _ (-1) 7205759403792794 (by norm_num) (by norm_num [abs_of_pos])
    (by norm_num [abs_of_pos]) (by norm_num [abs_of_pos]) (by norm_num [abs_of_pos])
    (by norm_num) (by norm_num)

theorem roundDouble_of_80_100_twice :
    roundDouble (7205759403792794 / 9007199254740992 + 7205759403792794 / 9007199254740992) =
      .finite (7205759403792794 / 4503599627370496) :=
  roundDouble_eval _ _ 0 7205759403792794 (by norm_num) (by norm_num [abs_of_pos])
    (by norm_num [abs_of_pos]) (by norm_num [abs_of_pos]) (by norm_num [abs_of_pos])
    (by norm_num) (by norm_num)

theorem roundDouble_of_80_100_mean :
    roundDouble (7205759403792794 / 4503599627370496 / 2) =
      .finite (7205759403792794 / 9007199254740992) :=
  roundDouble_eval _ _ (-1) 7205759403792794 (by norm_num) (by norm_num [abs_of_pos])
    (by norm_num [abs_of_pos]) (by norm_num [abs_of_pos]) (by norm_num [abs_of_pos])
    (by norm_num) (by norm_num)

theorem roundDouble_of_80_100_times_100 :
    roundDouble (7205759403792794 / 9007199254740992 * 100) = .finite 80 :=
  roundDouble_eval _ _ 6 5629499534213120 (by norm_num) (by norm_num [abs_of_pos])
    (by norm_num [abs_of_pos]) (by norm_num [abs_of_pos]) (by norm_num [abs_of_pos])
    (by norm_num) (by norm_num)

theorem computeOverall_of_two_80_100 :
    computeOverall (.arr [mkGrade 80 100, mkGrade 80 100]) = .finite 80 := by
  rw [computeOverall_pair_eval 80 100 _ _ _ _ (by norm_num) roundDouble_of_80_100
    roundDouble_of_double_80_100 roundDouble_of_80_100_twice roundDouble_of_80_100_mean
    roundDouble_of_80_100_times_100]
  rw [mathRound_eq _ 80 (by norm_num) (by norm_num)]
  norm_num

theorem roundDouble_of_150_100 : roundDouble (150 / 100) = .finite (3 / 2) :=
  roundDouble_eval _ _ 0 6755399441055744 (by norm_num) (by norm_num [abs_of_pos])
    (by norm_num [abs_of_pos]) (by norm_num [abs_of_pos]) (by norm_num [abs_of_pos])
    (by norm_num) (by norm_num)

theorem roundDouble_of_three_halves : roundDouble (3 / 2) = .finite (3 / 2) :=
  roundDouble_eval _ _ 0 6755399441055744 (by norm_num) (by norm_num [abs_of_pos])
    (by norm_num [abs_of_pos]) (by norm_num [abs_of_pos]) (by norm_num [abs_of_pos])
    (by norm_num) (by norm_num)

theorem roundDouble_of_three_halves_times_100 : roundDouble (3 / 2 * 100) = .finite 150 :=
  roundDouble_eval _ _ 7 5277655813324800 (by norm_num) (by norm_num [abs_of_pos])
    (by norm_num [abs_of_pos]) (by norm_num [abs_of_pos]) (by norm_num [abs_of_pos])
    (by norm_num) (by norm_num)

theorem computeOverall_of_150_100 : computeOverall (.arr [mkGrade 150 100]) = .finite 150 := by
  rw [computeOverall_single_eval 150 100 _ _ (by norm_num) roundDouble_of_150_100
    roundDouble_of_three_halves roundDouble_of_three_halves_times_100]
  rw [mathRound_eq _ 150 (by norm_num) (by norm_num)]
  norm_num

theorem roundDouble_of_neg_50_100 : roundDouble (-50 / 100) = .finite (-1 / 2) :=
  roundDouble_eval _ _ (-1) 4503599627370496 (by norm_num) (by norm_num [abs_of_neg])
    (by norm_num [abs_of_neg]) (by norm_num [abs_of_neg]) (by norm_num [abs_of_neg])
    (by norm_num) (by norm_num)

theorem roundDouble_of_neg_half : roundDouble (-1 / 2) = .finite (-1 / 2) :=
  roundDouble_eval _ _ (-1) 4503599627370496 (by norm_num) (by norm_num [abs_of_neg])
    (by norm_num [abs_of_neg]) (by norm_num [abs_of_neg]) (by norm_num [abs_of_neg])
    (by norm_num) (by norm_num)

theorem roundDouble_of_neg_half_times_100 : roundDouble (-1 / 2 * 100) = .finite (-50) :=
  roundDouble_eval _ _ 5 7036874417766400 (by norm_num) (by norm_num [abs_of_neg])
    (by norm_num [abs_of_neg]) (by norm_num [abs_of_neg]) (by norm_num [abs_of_neg])
    (by norm_num) (by norm_num)

theorem computeOverall_of_neg_50_100 :
    computeOverall (.arr [mkGrade (-50) 100]) = .finite (-50) := by
  rw [computeOverall_single_eval (-50) 100 _ _ (by norm_num) roundDouble_of_neg_50_100
    roundDouble_of_neg_half roundDouble_of_neg_half_times_100]
  rw [mathRound_eq _ (-50) (by norm_num) (by norm_num)]
  norm_num

/-- C1 (as stated) fails: a single record scoring 150 out of 100 gives 150, and one scoring
-50 out of 100 gives -50; neither result is an integer between 0 and 100. -/
theorem computeOverall_out_of_range :
    computeOverall (.arr [mkGrade 150 100]) = 150 ∧
      (¬ ∃ n : ℤ, computeOverall (.arr [mkGrade 150 100]) = .finite (n : ℚ) ∧
        0 ≤ n ∧ n ≤ 100) ∧
      computeOverall (.arr [mkGrade (-50) 100]) = .finite (-50) ∧
      (¬ ∃ n : ℤ, computeOverall (.arr [mkGrade (-50) 100]) = .finite (n : ℚ) ∧
        0 ≤ n ∧ n ≤ 100) := by
  refine ⟨?_, ?_, computeOverall_of_neg_50_100, ?_⟩
  · rw [computeOverall_of_150_100, jsNumber_ofNat]; norm_num
  · rw [computeOverall_of_150_100]
    rintro ⟨n, hn, _, h100⟩
    have h : (150 : ℚ) = (n : ℚ) := by injection hn
    have : (150 : ℤ) = n := by exact_mod_cast h
    omega
  · rw [computeOverall_of_neg_50_100]
    rintro ⟨n, hn, h0, _⟩
    have h : (-50 : ℚ) = (n : ℚ) := by injection hn
    have : (-50 : ℤ) = n := by exact_mod_cast h
    omega

/-- C2 (as stated) fails: for one record scoring 29 out of 200 the reference definition,
`round (100 * (29 / 200) / 1)`, is 15, and `computeOverall` returns 14, since the product
of the rounded quotient and 100 is rounded below 14.5. -/
theorem computeOverall_ne_aggregateSpec :
    computeOverall (.arr [mkGrade 29 200]) = 14 ∧
      aggregateSpec [mkGrade 29 200] = 15 ∧
      computeOverall (.arr [mkGrade 29 200]) ≠
        .finite ((aggregateSpec [mkGrade 29 200] : ℤ) : ℚ) := by
  have hspec : aggregateSpec [mkGrade 29 200] = 15 := by
    have hv : hasNumericScores (mkGrade 29 200) = true := by
      simp [hasNumericScores, mkGrade, lookupKey, isNumber]
    have hp : specPercent (mkGrade 29 200) = 29 / 200 := by
      simp [specPercent, mkGrade, lookupKey]
    simp only [aggregateSpec, List.filter, hv, List.isEmpty_cons, Bool.false_eq_true, if_false,
      List.map_cons, List.map_nil, hp, List.sum_cons, List.sum_nil, List.length_cons,
      List.length_nil]
    exact mathRound_eq _ 15 (by norm_num) (by norm_num)
  refine ⟨?_, hspec, ?_⟩
  · rw [computeOverall_of_29_200, jsNumber_ofNat]; norm_num
  · rw [computeOverall_of_29_200, hspec]
    intro h
    have h2 : (14 : ℚ) = ((15 : ℤ) : ℚ) := by injection h
    norm_num at h2

/-- C2 (as the code behaves).  `computeOverall` equals the reference definition evaluated in
binary64 arithmetic, `aggregateDouble`; a record without numeric `score` and `maxScore`
placed anywhere in the list does not change the result; two records scoring 80 out of 100
give 80. -/
theorem computeOverall_eq_aggregateDouble :
    (∀ gs : List JSON, computeOverall (.arr gs) = aggregateDouble gs) ∧
    (∀ (gs₁ gs₂ : List JSON) (bad : JSON), hasNumericScores bad = false →
      computeOverall (.arr (gs₁ ++ bad :: gs₂)) = computeOverall (.arr (gs₁ ++ gs₂))) ∧
    computeOverall (.arr [mkGrade 80 100, mkGrade 80 100]) = 80 := by
  refine ⟨?_, ?_, ?_⟩
  · intro gs
    unfold computeOverall aggregateDouble
    have hf : gs.filter isValidGrade = gs.filter hasNumericScores := by
      congr 1; funext g; exact isValidGrade_eq_hasNumericScores g
    have hpct : (fun (acc : JSNumber) (g : JSON) => jsAdd acc (pct g)) =
        (fun acc g => jsAdd acc (specPercentDouble g)) := by
      funext acc g; rw [pct_eq_specPercentDouble]
    simp only [hf, hpct]
    by_cases hV : gs.filter hasNumericScores = []
    · simp [hV]
    · have hlen : (gs.filter hasNumericScores).length ≠ 0 := by
        simpa [List.length_eq_zero] using hV
      have hemp : (gs.filter hasNumericScores).isEmpty = false := by
        simpa [List.isEmpty_iff] using hV
      rw [if_neg hlen, hemp]
      simp only [Bool.false_eq_true, if_false]
  · intro gs₁ gs₂ bad hbad
    have hb : isValidGrade bad = false := by
      rw [isValidGrade_eq_hasNumericScores]; exact hbad
    unfold computeOverall
    simp only [List.filter_append, List.filter_cons, hb, Bool.false_eq_true, if_false]
  · rw [computeOverall_of_two_80_100, jsNumber_ofNat]; norm_num

/-- Witness of `computeOverall_eq_aggregateDouble`: a `null` entry after one record scoring
80 out of 100 leaves the result unchanged. -/
theorem computeOverall_eq_aggregateDouble_witness :
    hasNumericScores .null = false ∧
      computeOverall (.arr ([mkGrade 80 100] ++ .null :: [])) =
        computeOverall (.arr ([mkGrade 80 100] ++ [])) :=
  ⟨rfl, computeOverall_eq_aggregateDouble.2.1 [mkGrade 80 100] [] .null rfl⟩

/-! ## Properties of the string primitives -/

theorem startsWith_iff (hay needle : JSString) : startsWith hay needle = true ↔ needle <+: hay := by
  induction hay generalizing needle with
  | nil =>
    cases needle with
    | nil => simp [startsWith]
    | cons n ns => simp [startsWith]
  | cons h hs ih =>
    cases needle with
    | nil => simp [startsWith]
    | cons n ns =>
      simp only [startsWith, Bool.and_eq_true, beq_iff_eq, ih, List.cons_prefix_cons]
      constructor
      · rintro ⟨rfl, hp⟩; exact ⟨rfl, hp⟩
      · rintro ⟨rfl, hp⟩; exact ⟨rfl, hp⟩

theorem indexOfFrom_some (needle : JSString) (hay : JSString) (i j : Nat)
    (h : indexOfFrom needle hay i = some j) :
    ∃ k, j = i + k ∧ k ≤ hay.length ∧ needle <+: hay.drop k ∧
      ∀ k', k' < k → ¬ needle <+: hay.drop k' := by
  induction hay generalizing i with
  | nil =>
    simp only [indexOfFrom] at h
    split at h
    · rename_i hs
      refine ⟨0, ?_, le_refl _, ?_, ?_⟩
      · simpa using (Option.some.inj h).symm
      · simpa using (startsWith_iff [] needle).mp hs
      · intro k' hk'; omega
    · cases h
  | cons c cs ih =>
    simp only [indexOfFrom] at h
    split at h
    · rename_i hs
      refine ⟨0, ?_, Nat.zero_le _, ?_, ?_⟩
      · simpa using (Option.some.inj h).symm
      · simpa using (startsWith_iff (c :: cs) needle).mp hs
      · intro k' hk'; omega
    · rename_i hs
      obtain ⟨k, hj, hk, hp, hmin⟩ := ih (i + 1) h
      refine ⟨k + 1, by omega, by simpa using hk, by simpa using hp, ?_⟩
      intro k' hk'
      cases k' with
      | zero =>
        simp only [List.drop_zero]
        intro hpre
        exact hs ((startsWith_iff (c :: cs) needle).mpr hpre)
      | succ m =>
        simp only [List.drop_succ_cons]
        exact hmin m (by omega)

theorem indexOfFrom_none (needle : JSString) (hay : JSString) (i : Nat)
    (h : indexOfFrom needle hay i = none) : ¬ needle <:+: hay := by
  induction hay generalizing i with
  | nil =>
    simp only [indexOfFrom] at h
    split at h
    · cases h
    · rename_i hs
      intro hin
      apply hs
      rw [startsWith_iff]
      have : needle = [] := List.eq_nil_of_infix_nil hin
      simp [this]
  | cons c cs ih =>
    simp only [indexOfFrom] at h
    split at h
    · cases h
    · rename_i hs
      intro hin
      rcases List.infix_cons_iff.mp hin with hp | hin'
      · exact hs ((startsWith_iff (c :: cs) needle).mpr hp)
      · exact ih (i + 1) h hin'

theorem occurs_of_prefix_drop (needle hay : JSString) (k : Nat) (h : needle <+: hay.drop k) :
    needle <:+: hay :=
  h.isInfix.trans (List.drop_suffix k hay).isInfix

theorem includes_iff (hay needle : JSString) : includes hay needle = true ↔ needle <:+: hay := by
  unfold includes indexOf
  cases h : indexOfFrom needle hay 0 with
  | none =>
    have := indexOfFrom_none needle hay 0 h
    simp [this]
  | some j =>
    obtain ⟨k, _, _, hp, _⟩ := indexOfFrom_some needle hay 0 j h
    have hin := occurs_of_prefix_drop needle hay k hp
    simp only [hin, iff_true, decide_eq_true_eq]
    omega

/-- What `indexOf` returns when the needle occurs: the index of the first occurrence. -/
theorem indexOf_of_infix (hay needle : JSString) (h : needle <:+: hay) :
    ∃ k : Nat, indexOf hay needle = (k : ℤ) ∧ k + needle.length ≤ hay.length ∧
      slice hay k (k + needle.length) = needle ∧
      ∀ k', k' < k → ¬ needle <+: hay.drop k' := by
  unfold indexOf
  cases hidx : indexOfFrom needle hay 0 with
  | none => exact absurd h (indexOfFrom_none needle hay 0 hidx)
  | some j =>
    obtain ⟨k, hj, hk, hp, hmin⟩ := indexOfFrom_some needle hay 0 j hidx
    have hjk : j = k := by omega
    subst hjk
    refine ⟨j, rfl, ?_, ?_, hmin⟩
    · have := hp.length_le
      rw [List.length_drop] at this
      omega
    · unfold slice
      rw [Nat.add_sub_cancel_left]
      exact (List.prefix_iff_eq_take.mp hp).symm

theorem indexOf_eq_neg_one_iff (hay needle : JSString) :
    indexOf hay needle = -1 ↔ ¬ needle <:+: hay := by
  constructor
  · intro h hin
    obtain ⟨k, hk, _⟩ := indexOf_of_infix hay needle hin
    omega
  · intro h
    unfold indexOf
    cases hidx : indexOfFrom needle hay 0 with
    | none => rfl
    | some j =>
      obtain ⟨k, _, _, hp, _⟩ := indexOfFrom_some needle hay 0 j hidx
      exact absurd (occurs_of_prefix_drop needle hay k hp) h

/-! ## Normalisation keeps literal occurrences -/

theorem dropWhile_head (p : Nat → Bool) (l : List Nat) :
    l.dropWhile p = [] ∨ ∃ c t, l.dropWhile p = c :: t ∧ p c = false := by
  induction l with
  | nil => simp
  | cons a l ih =>
    by_cases h : p a = true
    · simpa [List.dropWhile_cons, h] using ih
    · right
      exact ⟨a, l, by simp [List.dropWhile_cons, h], by simpa using h⟩

theorem dropWhile_all (p : Nat → Bool) (w r : List Nat) (hw : ∀ c ∈ w, p c = true) :
    (w ++ r).dropWhile p = r.dropWhile p := by
  induction w with
  | nil => rfl
  | cons a w ih =>
    have ha := hw a (List.mem_cons_self a w)
    simp only [List.cons_append, List.dropWhile_cons, ha, if_true]
    exact ih (fun c hc => hw c (List.mem_cons_of_mem a hc))

theorem dropWhile_append_stop (p : Nat → Bool) (u : List Nat) (c : Nat) (t : List Nat)
    (hc : p c = false) : (u ++ c :: t).dropWhile p = u.dropWhile p ++ c :: t := by
  induction u with
  | nil => simp [List.dropWhile_cons, hc]
  | cons a u ih =>
    by_cases h : p a = true
    · simp only [List.cons_append, List.dropWhile_cons, h, if_true]
      exact ih
    · simp [List.dropWhile_cons, h]

theorem trim_decompose (s : JSString) :
    ∃ w₁ w₂, s = w₁ ++ trim s ++ w₂ ∧ (∀ c ∈ w₁, isWhitespace c = true) ∧
      (∀ c ∈ w₂, isWhitespace c = true) ∧ (trim s = [] ∨ Tight (trim s)) := by
  have h1 : s = s.takeWhile isWhitespace ++ s.dropWhile isWhitespace :=
    (List.takeWhile_append_dropWhile isWhitespace s).symm
  set s₁ := s.dropWhile isWhitespace with hs₁
  have h2 : s₁.reverse = s₁.reverse.takeWhile isWhitespace ++ s₁.reverse.dropWhile isWhitespace :=
    (List.takeWhile_append_dropWhile isWhitespace s₁.reverse).symm
  have h3 : s₁ = trim s ++ (s₁.reverse.takeWhile isWhitespace).reverse := by
    have := congrArg List.reverse h2
    rw [List.reverse_append, List.reverse_reverse] at this
    exact this
  refine ⟨s.takeWhile isWhitespace, (s₁.reverse.takeWhile isWhitespace).reverse, ?_, ?_, ?_, ?_⟩
  · rw [List.append_assoc, ← h3]; exact h1
  · intro c hc; exact (List.mem_takeWhile_imp hc)
  · intro c hc
    rw [List.mem_reverse] at hc
    exact (List.mem_takeWhile_imp hc)
  · by_cases hne : trim s = []
    · exact Or.inl hne
    · right
      constructor
      · -- the head of `trim s` is the head of `s₁`
        rcases dropWhile_head isWhitespace s with h0 | ⟨c, t, hct, hc⟩
        · rw [← hs₁] at h0
          rw [h0] at h3
          simp only [List.reverse_nil, List.takeWhile_nil, List.append_nil] at h3
          exact absurd h3.symm hne
        · rw [← hs₁] at hct
          cases htr : trim s with
          | nil => exact absurd htr hne
          | cons a r =>
            rw [htr, hct] at h3
            simp only [List.cons_append, List.cons.injEq] at h3
            exact ⟨a, r, rfl, by rw [← h3.1]; exact hc⟩
      · rcases dropWhile_head isWhitespace s₁.reverse with h0 | ⟨c, t, hct, hc⟩
        · have : trim s = [] := by simp [trim, ← hs₁, h0]
          exact absurd this hne
        · refine ⟨t.reverse, c, ?_, hc⟩
          simp [trim, ← hs₁, hct]

theorem collapseFrom_append_cons (b : Bool) (x : JSString) (c : Nat) (t : JSString)
    (hc : isWhitespace c = false) :
    collapseFrom b (x ++ c :: t) = collapseFrom b x ++ collapseFrom false (c :: t) := by
  induction x generalizing b with
  | nil => simp [collapseFrom, hc]
  | cons a x ih =>
    by_cases ha : isWhitespace a = true
    · cases b <;> simp [collapseFrom, ha, ih]
    · simp [collapseFrom, ha, ih]

theorem collapseFrom_snoc_append (b : Bool) (i : JSString) (c : Nat) (y : JSString)
    (hc : isWhitespace c = false) :
    collapseFrom b (i ++ [c] ++ y) = collapseFrom b (i ++ [c]) ++ collapseFrom false y := by
  induction i generalizing b with
  | nil => simp [collapseFrom, hc]
  | cons a i ih =>
    by_cases ha : isWhitespace a = true
    · cases b <;> simp [collapseFrom, ha] <;> simpa using ih true
    · simp [collapseFrom, ha]; simpa using ih false

theorem collapseFrom_tight (core : JSString) (h : Tight core) :
    Tight (collapseFrom false core) := by
  obtain ⟨⟨c, t, hct, hc⟩, ⟨i, e, hie, he⟩⟩ := h
  constructor
  · exact ⟨c, collapseFrom false t, by rw [hct]; simp [collapseFrom, hc], hc⟩
  · refine ⟨collapseFrom false i, e, ?_, he⟩
    rw [hie, collapseFrom_append_cons false i e [] he]
    simp [collapseFrom, he]

theorem collapseFrom_around (b : Bool) (x core y : JSString) (h : Tight core) :
    collapseFrom b (x ++ core ++ y) =
      collapseFrom b x ++ collapseFrom false core ++ collapseFrom false y := by
  obtain ⟨⟨c, t, hct, hc⟩, ⟨i, e, hie, he⟩⟩ := h
  have h1 : collapseFrom b (x ++ core ++ y) = collapseFrom b x ++ collapseFrom false (core ++ y) := by
    rw [List.append_assoc, hct, List.cons_append]
    exact collapseFrom_append_cons b x c (t ++ y) hc
  have h2 : collapseFrom false (core ++ y) = collapseFrom false core ++ collapseFrom false y := by
    rw [hie]
    exact collapseFrom_snoc_append false i e y he
  rw [h1, h2, List.append_assoc]

theorem collapseFrom_all_ws (b : Bool) (w : JSString) (hw : ∀ c ∈ w, isWhitespace c = true) :
    ∀ c ∈ collapseFrom b w, isWhitespace c = true := by
  induction w generalizing b with
  | nil => simp [collapseFrom]
  | cons a w ih =>
    have ha := hw a (List.mem_cons_self a w)
    have hw' : ∀ c ∈ w, isWhitespace c = true := fun c hc => hw c (List.mem_cons_of_mem a hc)
    cases b
    · simp only [collapseFrom, ha, if_true, Bool.false_eq_true, if_false, List.mem_cons]
      rintro c (rfl | hc)
      · decide
      · exact ih true hw' c hc
    · simp only [collapseFrom, ha, if_true]
      exact ih true hw'

theorem trim_all_ws (w : JSString) (hw : ∀ c ∈ w, isWhitespace c = true) : trim w = [] := by
  have h := dropWhile_all isWhitespace w [] hw
  simp only [List.append_nil, List.dropWhile_nil] at h
  simp [trim, h]

theorem trim_around (w₁ c w₂ : JSString) (h₁ : ∀ x ∈ w₁, isWhitespace x = true)
    (h₂ : ∀ x ∈ w₂, isWhitespace x = true) (hc : Tight c) : trim (w₁ ++ c ++ w₂) = c := by
  obtain ⟨⟨a, t, hat, ha⟩, ⟨i, e, hie, he⟩⟩ := hc
  have hl : (w₁ ++ c ++ w₂).dropWhile isWhitespace = c ++ w₂ := by
    rw [List.append_assoc, dropWhile_all isWhitespace w₁ (c ++ w₂) h₁, hat]
    simp [List.dropWhile_cons, ha]
  have hr : (c ++ w₂).reverse.dropWhile isWhitespace = c.reverse := by
    rw [List.reverse_append, dropWhile_all isWhitespace w₂.reverse c.reverse
      (fun x hx => h₂ x (List.mem_reverse.mp hx)), hie]
    simp [List.dropWhile_cons, he]
  unfold trim
  rw [hl, hr, List.reverse_reverse]

theorem tight_infix_trim (x y : JSString) (hx : Tight x) (h : x <:+: y) : x <:+: trim y := by
  obtain ⟨u, v, rfl⟩ := h
  obtain ⟨⟨a, t, hat, ha⟩, ⟨i, e, hie, he⟩⟩ := hx
  have hl : (u ++ x ++ v).dropWhile isWhitespace = u.dropWhile isWhitespace ++ (x ++ v) := by
    rw [List.append_assoc, hat, List.cons_append]
    exact dropWhile_append_stop isWhitespace u a (t ++ v) ha
  have hr : (u.dropWhile isWhitespace ++ (x ++ v)).reverse.dropWhile isWhitespace =
      v.reverse.dropWhile isWhitespace ++ (x.reverse ++ (u.dropWhile isWhitespace).reverse) := by
    have : (u.dropWhile isWhitespace ++ (x ++ v)).reverse =
        v.reverse ++ e :: (i.reverse ++ (u.dropWhile isWhitespace).reverse) := by
      rw [hie]; simp
    rw [this, dropWhile_append_stop isWhitespace _ e _ he, hie]
    simp
  refine ⟨u.dropWhile isWhitespace, (v.reverse.dropWhile isWhitespace).reverse, ?_⟩
  unfold trim
  rw [hl, hr]
  simp

theorem collapse_trim_infix (q d : JSString) (h : q <:+: d) :
    trim (collapseWhitespace q) <:+: trim (collapseWhitespace d) := by
  obtain ⟨a, b, rfl⟩ := h
  obtain ⟨w₁, w₂, hq, h₁, h₂, hcore⟩ := trim_decompose q
  rcases hcore with hnil | htight
  · have hqw : ∀ c ∈ q, isWhitespace c = true := by
      rw [hq, hnil]
      intro c hc
      simp only [List.append_nil, List.mem_append] at hc
      rcases hc with hc | hc
      · exact h₁ c hc
      · exact h₂ c hc
    have hnorm : trim (collapseWhitespace q) = [] :=
      trim_all_ws _ (collapseFrom_all_ws false q hqw)
    rw [hnorm]
    exact List.nil_infix
  · have hcq : trim (collapseWhitespace q) = collapseFrom false (trim q) := by
      unfold collapseWhitespace
      conv_lhs => rw [hq]
      rw [collapseFrom_around false w₁ (trim q) w₂ htight]
      exact trim_around _ _ _ (collapseFrom_all_ws false w₁ h₁) (collapseFrom_all_ws false w₂ h₂)
        (collapseFrom_tight _ htight)
    rw [hcq]
    apply tight_infix_trim _ _ (collapseFrom_tight _ htight)
    unfold collapseWhitespace
    have hd : a ++ q ++ b = (a ++ w₁) ++ trim q ++ (w₂ ++ b) := by
      conv_lhs => rw [hq]
      simp [List.append_assoc]
    rw [hd, collapseFrom_around false (a ++ w₁) (trim q) (w₂ ++ b) htight]
    exact ⟨_, _, rfl⟩

theorem map_occurs (f : Nat → Nat) (q d : JSString) (h : q <:+: d) : q.map f <:+: d.map f := by
  obtain ⟨a, b, rfl⟩ := h
  exact ⟨a.map f, b.map f, by simp⟩

/-- A literal occurrence of `q` in `d` gives an occurrence of the normalised `q` in the
normalised `d`. -/
theorem normalizeText_occurs (q d : JSString) (h : q <:+: d) :
    normalizeText q <:+: normalizeText d := by
  unfold normalizeText
  apply collapse_trim_infix
  unfold replaceSmartDouble replaceSmartSingle
  exact map_occurs _ _ _ (map_occurs _ _ _ h)

/-! ## Properties of the evidence validator -/

theorem lookupKey_assignKey_self (k : String) (v : JSON) (kvs : List (String × JSON)) :
    lookupKey k (assignKey k v kvs) = some v := by
  induction kvs with
  | nil => simp [assignKey, lookupKey]
  | cons p rest ih =>
    obtain ⟨k', v'⟩ := p
    by_cases h : k' = k
    · simp [assignKey, lookupKey, h]
    · simp [assignKey, lookupKey, h, ih]

theorem lookupKey_assignKey_ne (k k' : String) (v : JSON) (kvs : List (String × JSON))
    (hne : k' ≠ k) : lookupKey k' (assignKey k v kvs) = lookupKey k' kvs := by
  induction kvs with
  | nil => simp [assignKey, lookupKey, Ne.symm hne]
  | cons p rest ih =>
    obtain ⟨k₀, v₀⟩ := p
    by_cases h : k₀ = k
    · subst h
      simp [assignKey, lookupKey, Ne.symm hne]
    · by_cases h' : k₀ = k'
      · subst h'
        simp [assignKey, lookupKey, hne]
      · simp [assignKey, lookupKey, h, h', ih]

theorem getField_setField_self (kvs : List (String × JSON)) (k : String) (v : JSON) :
    getField (setField (.obj kvs) k v) k = some v := by
  simp [getField, setField, lookupKey_assignKey_self]

theorem getField_setField_ne (x : JSON) (k k' : String) (v : JSON) (hne : k' ≠ k) :
    getField (setField x k v) k' = getField x k' := by
  cases x <;> simp [getField, setField, lookupKey_assignKey_ne _ _ _ _ hne]

theorem getField_some_obj (x : JSON) (k : String) (v : JSON) (h : getField x k = some v) :
    ∃ kvs, x = .obj kvs := by
  cases x <;> simp [getField] at h
  exact ⟨_, rfl⟩

theorem keepEvidence_true (ev : JSON) (h : keepEvidence ev = .ok true) :
    truthyOpt (getField ev "text") = true ∧ truthyOpt (getField ev "suggestion") = true ∧
      truthyOpt (getField ev "revised_excerpt") = true ∧
      jsIncludes (getField ev "text") markerText = .ok false ∧
      jsIncludes (getField ev "suggestion") markerSuggestion = .ok false := by
  unfold keepEvidence at h
  split at h
  · cases h
  · rename_i hc
    simp only [Bool.or_eq_true, Bool.not_eq_true', not_or, Bool.not_eq_false] at hc
    obtain ⟨⟨⟨_, h1⟩, h2⟩, h3⟩ := hc
    refine ⟨h1, h2, h3, ?_⟩
    split at h
    · cases h
    · cases h
    · rename_i ht
      split at h
      · cases h
      · cases h
      · rename_i hs
        exact ⟨ht, hs⟩

/-- The two assignments of an offset pair. -/
theorem getField_offsets (ev : JSON) (kvs : List (String × JSON)) (hev : ev = .obj kvs)
    (a b : ℚ) :
    getField (setField (setField ev "start_index" (.num a)) "end_index" (.num b)) "start_index"
        = some (.num a) ∧
      getField (setField (setField ev "start_index" (.num a)) "end_index" (.num b)) "end_index"
        = some (.num b) ∧
      getField (setField (setField ev "start_index" (.num a)) "end_index" (.num b)) "text"
        = getField ev "text" := by
  subst hev
  refine ⟨?_, ?_, ?_⟩
  · rw [getField_setField_ne _ _ _ _ (by decide)]
    exact getField_setField_self _ _ _
  · simp [setField, getField, lookupKey_assignKey_self]
  · rw [getField_setField_ne _ _ _ _ (by decide), getField_setField_ne _ _ _ _ (by decide)]

/-- C3.  Round trip of the offsets: for a candidate that passes the filter and whose `text`
`q` occurs literally in the document `d`, the loop body succeeds and assigns
`start_index = s ≥ 0` and `end_index = s + |q|` with `d.slice(s, s + |q|) = q`. -/
theorem resolveOffsets_roundtrip (d q : JSString) (ev : JSON)
    (_ : keepEvidence ev = .ok true) (htext : getField ev "text" = some (.str q))
    (hsub : q <:+: d) :
    ∃ (ev' : JSON) (s : Nat), resolveOffsets d (normalizeText d) ev = .ok ev' ∧
      getField ev' "start_index" = some (.num s) ∧
      getField ev' "end_index" = some (.num ((s : ℚ) + (q.length : ℚ))) ∧
      slice d s (s + q.length) = q := by
  obtain ⟨kvs, hev⟩ := getField_some_obj ev "text" _ htext
  obtain ⟨k, hk, _, hslice, _⟩ := indexOf_of_infix d q hsub
  have hinc : includes (normalizeText d) (normalizeText q) = true :=
    (includes_iff _ _).mpr (normalizeText_occurs q d hsub)
  have hne : indexOf d q ≠ -1 := by omega
  have hres : resolveOffsets d (normalizeText d) ev =
      .ok (setField (setField ev "start_index" (.num (k : ℚ)))
        "end_index" (.num ((k : ℚ) + (q.length : ℚ)))) := by
    unfold resolveOffsets
    simp only [htext, normalizeString, hinc, if_true, hne, ne_eq, not_false_eq_true, hk]
    push_cast
    rfl
  obtain ⟨h1, h2, _⟩ := getField_offsets ev kvs hev (k : ℚ) ((k : ℚ) + (q.length : ℚ))
  exact ⟨_, k, hres, h1, h2, hslice⟩

/-- Witness of `resolveOffsets_roundtrip`: the quote `sky` in `The sky is blue.`. -/
theorem resolveOffsets_roundtrip_witness :
    ∃ (ev' : JSON) (s : Nat),
      resolveOffsets samplePaper (normalizeText samplePaper) (mkEvidence "sky" "s" "r") = .ok ev' ∧
      getField ev' "start_index" = some (.num s) ∧
      getField ev' "end_index" = some (.num ((s : ℚ) + ((lit "sky").length : ℚ))) ∧
      slice samplePaper s (s + (lit "sky").length) = lit "sky" :=
  resolveOffsets_roundtrip samplePaper (lit "sky") (mkEvidence "sky" "s" "r") (by rfl) (by rfl)
    ⟨lit "The ", lit " is blue.", by rfl⟩

theorem filterEvidence_ok (evs kept : List JSON) (h : filterEvidence evs = .ok kept) :
    (∀ ev ∈ evs, ∃ b, keepEvidence ev = .ok b) ∧
      kept = evs.filter passesFilter := by
  induction evs generalizing kept with
  | nil =>
    simp only [filterEvidence, Except.ok.injEq] at h
    subst h
    simp
  | cons ev evs ih =>
    simp only [filterEvidence] at h
    cases hk : keepEvidence ev with
    | error e => rw [hk] at h; cases h
    | ok keep =>
      rw [hk] at h
      cases hr : filterEvidence evs with
      | error e => rw [hr] at h; cases h
      | ok rest =>
        rw [hr] at h
        simp only [Except.ok.injEq] at h
        obtain ⟨hall, hrest⟩ := ih rest hr
        constructor
        · intro x hx
          rcases List.mem_cons.mp hx with rfl | hx
          · exact ⟨keep, hk⟩
          · exact hall x hx
        · subst h
          cases keep <;> simp [List.filter_cons, passesFilter, hk, hrest]

theorem filterEvidence_mem (evs kept : List JSON) (h : filterEvidence evs = .ok kept)
    (ev : JSON) (hev : ev ∈ kept) : keepEvidence ev = .ok true := by
  rw [(filterEvidence_ok evs kept h).2, List.mem_filter] at hev
  have h2 := hev.2
  unfold passesFilter at h2
  split at h2
  · assumption
  · cases h2

theorem truthyOpt_str (v : Option JSON) (q : JSString) (h : v = some (.str q))
    (ht : truthyOpt v = true) : q ≠ [] := by
  subst h
  intro hq
  subst hq
  simp [truthyOpt, truthy] at ht

theorem resolveOffsets_valid (d np : JSString) (ev ev' : JSON)
    (hkeep : keepEvidence ev = .ok true) (h : resolveOffsets d np ev = .ok ev') :
    OffsetsValid d ev' := by
  obtain ⟨ht, _, _, _, _⟩ := keepEvidence_true ev hkeep
  cases htext : getField ev "text" with
  | none => rw [htext] at ht; simp [truthyOpt] at ht
  | some v =>
    obtain ⟨kvs, hev⟩ := getField_some_obj ev "text" v htext
    have hminus : OffsetsValid d
        (setField (setField ev "start_index" (.num (-1))) "end_index" (.num (-1))) := by
      left
      obtain ⟨h1, h2, _⟩ := getField_offsets ev kvs hev (-1) (-1)
      exact ⟨h1, h2⟩
    cases v with
    | str q =>
      have hq : q ≠ [] := truthyOpt_str _ q htext ht
      unfold resolveOffsets at h
      simp only [htext, normalizeString] at h
      split at h
      · split at h
        · rename_i hidx
          simp only [Except.ok.injEq] at h
          subst h
          have hin : q <:+: d := by
            by_contra hcon
            exact hidx ((indexOf_eq_neg_one_iff d q).mpr hcon)
          obtain ⟨k, hk, hlen, hslice, _⟩ := indexOf_of_infix d q hin
          right
          refine ⟨k, k + q.length, q, ?_, ?_, ?_, ?_, hlen, hslice⟩
          · rw [hk]
            exact (getField_offsets ev kvs hev _ _).1
          · rw [hk, (getField_offsets ev kvs hev _ _).2.1]
            simp
          · rw [(getField_offsets ev kvs hev _ _).2.2]
            exact htext
          · have := List.length_pos.mpr hq
            omega
        · simp only [Except.ok.injEq] at h
          subst h
          exact hminus
      · simp only [Except.ok.injEq] at h
        subst h
        exact hminus
    | null => rw [htext] at ht; simp [truthyOpt, truthy] at ht
    | bool b =>
      rw [htext] at ht
      simp only [truthyOpt] at ht
      unfold resolveOffsets at h
      simp [htext, normalizeString, truthyOpt, ht] at h
    | num x =>
      rw [htext] at ht
      simp only [truthyOpt] at ht
      unfold resolveOffsets at h
      simp [htext, normalizeString, truthyOpt, ht] at h
    | arr xs =>
      unfold resolveOffsets at h
      simp [htext, normalizeString, truthyOpt, truthy] at h
    | obj o =>
      unfold resolveOffsets at h
      simp [htext, normalizeString, truthyOpt, truthy] at h

theorem resolveAll_valid (d np : JSString) (kept res : List JSON)
    (hkeep : ∀ ev ∈ kept, keepEvidence ev = .ok true) (h : resolveAll d np kept = .ok res) :
    ∀ ev' ∈ res, OffsetsValid d ev' := by
  induction kept generalizing res with
  | nil =>
    simp only [resolveAll, Except.ok.injEq] at h
    subst h
    simp
  | cons ev evs ih =>
    simp only [resolveAll] at h
    cases h1 : resolveOffsets d np ev with
    | error e => rw [h1] at h; cases h
    | ok ev1 =>
      rw [h1] at h
      cases h2 : resolveAll d np evs with
      | error e => rw [h2] at h; cases h
      | ok rest =>
        rw [h2] at h
        simp only [Except.ok.injEq] at h
        subst h
        intro x hx
        rcases List.mem_cons.mp hx with rfl | hx
        · exact resolveOffsets_valid d np ev x (hkeep ev (List.mem_cons_self ev evs)) h1
        · exact ih rest (fun e he => hkeep e (List.mem_cons_of_mem ev he)) h2 x hx

/-! ## Properties of the grade sanitizer -/

theorem isProcessedGrade_obj (g : JSON) (h : isProcessedGrade g = true) : ∃ kvs, g = .obj kvs := by
  cases g <;> simp [isProcessedGrade, getField, isNumber] at h
  exact ⟨_, rfl⟩

theorem validEvidence_mem (grade : JSON) (kept : List JSON) (h : validEvidence grade = .ok kept)
    (ev : JSON) (hev : ev ∈ kept) : keepEvidence ev = .ok true := by
  unfold validEvidence at h
  split at h
  · exact filterEvidence_mem _ kept h ev hev
  · simp only [Except.ok.injEq] at h
    subst h
    simp at hev

/-- The comment, the score and the maximum after `backfillComment`, on an object whose
`evidence` is the list `kept`. -/
theorem backfillComment_spec (toStr : Option JSON → Except JSError JSString)
    (kvs : List (String × JSON)) (kept : List JSON) (g1 : JSON)
    (h : backfillComment toStr (setField (.obj kvs) "evidence" (.arr kept)) = .ok g1) :
    (∃ kvs1, g1 = .obj kvs1) ∧
    getField g1 "score" = lookupKey "score" kvs ∧
    getField g1 "maxScore" = lookupKey "maxScore" kvs ∧
    (kept ≠ [] → getField g1 "comment" = lookupKey "comment" kvs) ∧
    (kept = [] → numField (.obj kvs) "score" = numField (.obj kvs) "maxScore" →
      getField g1 "comment" = some (.str positiveComment)) ∧
    (kept = [] → numField (.obj kvs) "score" ≠ numField (.obj kvs) "maxScore" →
      ∃ s, toStringValue toStr (lookupKey "comment" kvs) = .ok s ∧
        getField g1 "comment" = some (.str (s ++ diagnosticSuffix))) := by
  have hE : getField (setField (.obj kvs) "evidence" (.arr kept)) "evidence" = some (.arr kept) :=
    getField_setField_self kvs _ _
  have hS : ∀ k, k ≠ "evidence" →
      getField (setField (.obj kvs) "evidence" (.arr kept)) k = lookupKey k kvs := by
    intro k hk
    rw [getField_setField_ne _ _ _ _ hk]
    rfl
  have hN : ∀ k, k ≠ "evidence" →
      numField (setField (.obj kvs) "evidence" (.arr kept)) k = numField (.obj kvs) k := by
    intro k hk
    unfold numField
    rw [getField_setField_ne _ _ _ _ hk]
  unfold backfillComment at h
  rw [hE] at h
  cases kept with
  | cons ev evs =>
    simp only [Except.ok.injEq] at h
    subst h
    refine ⟨⟨_, rfl⟩, hS _ (by decide), hS _ (by decide), fun _ => hS _ (by decide), ?_, ?_⟩
    · intro hk; cases hk
    · intro hk; cases hk
  | nil =>
    simp only [hN "score" (by decide), hN "maxScore" (by decide)] at h
    split at h
    · rename_i heq
      simp only [Except.ok.injEq] at h
      subst h
      refine ⟨⟨_, rfl⟩, ?_, ?_, fun hk => absurd rfl hk, ?_, ?_⟩
      · rw [getField_setField_ne _ _ _ _ (by decide)]; exact hS _ (by decide)
      · rw [getField_setField_ne _ _ _ _ (by decide)]; exact hS _ (by decide)
      · intro _ _
        simp [setField, getField, lookupKey_assignKey_self]
      · intro _ hne; exact absurd heq hne
    · rename_i hneq
      rw [hS "comment" (by decide)] at h
      unfold appendToComment at h
      cases hts : toStringValue toStr (lookupKey "comment" kvs) with
      | error e => rw [hts] at h; cases h
      | ok s =>
        rw [hts] at h
        simp only [Except.ok.injEq] at h
        subst h
        refine ⟨⟨_, rfl⟩, ?_, ?_, fun hk => absurd rfl hk, ?_, ?_⟩
        · rw [getField_setField_ne _ _ _ _ (by decide)]; exact hS _ (by decide)
        · rw [getField_setField_ne _ _ _ _ (by decide)]; exact hS _ (by decide)
        · intro _ heq; exact absurd heq hneq
        · intro _ _
          exact ⟨s, rfl, by simp [setField, getField, lookupKey_assignKey_self]⟩

/-- Inversion of a successful iteration on a processed grade. -/
theorem sanitizeGrade_ok (toStr : Option JSON → Except JSError JSString) (d np : JSString)
    (grade grade' : JSON) (hp : isProcessedGrade grade = true)
    (h : sanitizeGrade toStr d np grade = .ok grade') :
    ∃ kept g1 resolved, validEvidence grade = .ok kept ∧
      backfillComment toStr (setField grade "evidence" (.arr kept)) = .ok g1 ∧
      resolveAll d np kept = .ok resolved ∧
      grade' = setField g1 "evidence" (.arr resolved) := by
  unfold sanitizeGrade at h
  simp only [hp, Bool.not_true, Bool.false_eq_true, if_false] at h
  cases h1 : validEvidence grade with
  | error e => rw [h1] at h; cases h
  | ok kept =>
    rw [h1] at h
    simp only at h
    cases h2 : backfillComment toStr (setField grade "evidence" (.arr kept)) with
    | error e => rw [h2] at h; cases h
    | ok g1 =>
      rw [h2] at h
      simp only at h
      cases h3 : resolveAll d np kept with
      | error e => rw [h3] at h; cases h
      | ok resolved =>
        rw [h3] at h
        simp only [Except.ok.injEq] at h
        exact ⟨kept, g1, resolved, rfl, h2, h3, h.symm⟩

theorem sanitizeGrade_skip (toStr : Option JSON → Except JSError JSString) (d np : JSString)
    (grade : JSON) (hp : isProcessedGrade grade = false) :
    sanitizeGrade toStr d np grade = .ok grade := by
  simp [sanitizeGrade, hp]

/-- A successful iteration keeps `score` and `maxScore`, hence the status of the grade. -/
theorem sanitizeGrade_scores (toStr : Option JSON → Except JSError JSString) (d np : JSString)
    (grade grade' : JSON) (h : sanitizeGrade toStr d np grade = .ok grade') :
    getField grade' "score" = getField grade "score" ∧
      getField grade' "maxScore" = getField grade "maxScore" ∧
      isProcessedGrade grade' = isProcessedGrade grade := by
  cases hp : isProcessedGrade grade with
  | false =>
    rw [sanitizeGrade_skip toStr d np grade hp] at h
    simp only [Except.ok.injEq] at h
    subst h
    exact ⟨rfl, rfl, hp⟩
  | true =>
    obtain ⟨kvs, rfl⟩ := isProcessedGrade_obj grade hp
    obtain ⟨kept, g1, resolved, _, h2, _, h4⟩ := sanitizeGrade_ok toStr d np _ grade' hp h
    obtain ⟨⟨kvs1, hg1⟩, hs, hm, _⟩ := backfillComment_spec toStr kvs kept g1 h2
    have e1 : getField grade' "score" = getField (.obj kvs) "score" := by
      rw [h4, getField_setField_ne _ _ _ _ (by decide), hs]; rfl
    have e2 : getField grade' "maxScore" = getField (.obj kvs) "maxScore" := by
      rw [h4, getField_setField_ne _ _ _ _ (by decide), hm]; rfl
    refine ⟨e1, e2, ?_⟩
    have hobj : truthy grade' = true := by rw [h4, hg1]; rfl
    unfold isProcessedGrade at hp ⊢
    rw [e1, e2, hobj]
    exact hp

theorem forall₂_mem_right (R : JSON → JSON → Prop) (l₁ l₂ : List JSON)
    (h : List.Forall₂ R l₁ l₂) : ∀ b ∈ l₂, ∃ a ∈ l₁, R a b := by
  induction h with
  | nil => intro b hb; cases hb
  | cons hab _ ih =>
    intro b hb
    rcases List.mem_cons.mp hb with rfl | hb
    · exact ⟨_, List.mem_cons_self _ _, hab⟩
    · obtain ⟨a, ha, hr⟩ := ih b hb
      exact ⟨a, List.mem_cons_of_mem _ ha, hr⟩

theorem sanitizeLoop_forall₂ (toStr : Option JSON → Except JSError JSString) (d : JSString)
    (raw out : List JSON) (h : sanitizeLoop toStr d (normalizeText d) raw = .ok out) :
    List.Forall₂ (SanitizedFrom toStr d) raw out := by
  induction raw generalizing out with
  | nil =>
    simp only [sanitizeLoop, Except.ok.injEq] at h
    subst h
    exact List.Forall₂.nil
  | cons g gs ih =>
    simp only [sanitizeLoop] at h
    cases h1 : sanitizeGrade toStr d (normalizeText d) g with
    | error e => rw [h1] at h; cases h
    | ok g' =>
      rw [h1] at h
      cases h2 : sanitizeLoop toStr d (normalizeText d) gs with
      | error e => rw [h2] at h; cases h
      | ok rest =>
        rw [h2] at h
        simp only [Except.ok.injEq] at h
        subst h
        refine List.Forall₂.cons ?_ (ih rest h2)
        cases hp : isProcessedGrade g with
        | false =>
          left
          rw [sanitizeGrade_skip toStr d _ g hp] at h1
          simp only [Except.ok.injEq] at h1
          exact ⟨hp, h1.symm⟩
        | true =>
          right
          refine ⟨hp, ?_, h1⟩
          rw [(sanitizeGrade_scores toStr d _ g g' h1).2.2]
          exact hp

/-- C4.  Offset invariant: after a successful sanitisation of the grades against the
document `d`, every processed grade of the result holds an evidence array, and every item of
it has offsets `(-1, -1)` or offsets `0 ≤ s < e ≤ |d|` with `d.slice(s, e)` equal to the
item's `text`. -/
theorem sanitizeGrades_offsets (toStr : Option JSON → Except JSError JSString) (d : JSString)
    (grades out : List JSON) (h : sanitizeGrades toStr d grades = .ok out) :
    ∀ g ∈ out, isProcessedGrade g = true →
      ∃ evs, getField g "evidence" = some (.arr evs) ∧ ∀ ev ∈ evs, OffsetsValid d ev := by
  have hall := sanitizeLoop_forall₂ toStr d grades out h
  intro g hg hp
  obtain ⟨raw, _, hrel⟩ := forall₂_mem_right _ grades out hall g hg
  rcases hrel with ⟨hraw, heq⟩ | ⟨hraw, _, hsan⟩
  · subst heq
    rw [hraw] at hp
    cases hp
  · obtain ⟨kvs, rfl⟩ := isProcessedGrade_obj raw hraw
    obtain ⟨kept, g1, resolved, h1, h2, h3, h4⟩ := sanitizeGrade_ok toStr d _ _ g hraw hsan
    obtain ⟨⟨kvs1, hg1⟩, _⟩ := backfillComment_spec toStr kvs kept g1 h2
    refine ⟨resolved, ?_, ?_⟩
    · rw [h4, hg1]
      exact getField_setField_self _ _ _
    · exact resolveAll_valid d _ kept resolved (validEvidence_mem _ kept h1) h3

theorem sampleEvidence_resolved :
    resolveOffsets samplePaper (normalizeText samplePaper) (mkEvidence "sky" "s" "r") =
      .ok (.obj [("text", .str (lit "sky")), ("suggestion", .str (lit "s")),
        ("revised_excerpt", .str (lit "r")), ("start_index", .num 4), ("end_index", .num 7)]) := by
  have h1 : includes (normalizeText samplePaper) (normalizeText (lit "sky")) = true := by decide
  have h2 : indexOf samplePaper (lit "sky") = 4 := by decide
  have h3 : (lit "sky").length = 3 := by decide
  simp [resolveOffsets, mkEvidence, getField, lookupKey, normalizeString, h1, h2, h3, setField,
    assignKey]
  norm_num

theorem sampleGrade_sanitized :
    sanitizeGrades sampleToStr samplePaper [sampleGrade] = .ok [sampleGradeClean] := by
  have h0 : keepEvidence (mkEvidence "sky" "s" "r") = .ok true := by rfl
  simp [sanitizeGrades, sanitizeLoop, sanitizeGrade, sampleGrade, mkFullGrade, isProcessedGrade,
    truthy, isNumber, getField, lookupKey, validEvidence, filterEvidence, h0, backfillComment,
    setField, assignKey, resolveAll, sampleEvidence_resolved, sampleGradeClean]

/-- Witness of `sanitizeGrades_offsets`: the grade quoting `sky` against `The sky is blue.`. -/
theorem sanitizeGrades_offsets_witness :
    sanitizeGrades sampleToStr samplePaper [sampleGrade] = .ok [sampleGradeClean] ∧
    ∀ g ∈ [sampleGradeClean], isProcessedGrade g = true →
      ∃ evs, getField g "evidence" = some (.arr evs) ∧ ∀ ev ∈ evs, OffsetsValid samplePaper ev :=
  ⟨sampleGrade_sanitized,
    sanitizeGrades_offsets sampleToStr samplePaper [sampleGrade] [sampleGradeClean]
      sampleGrade_sanitized⟩

/-- C5 fails on the code.  A grade whose only evidence item has the number 5 as `text` makes
the sanitising loop throw a `TypeError` (`ev.text.includes` is not a function), whatever the
document; the request then ends in the error branch instead of a grading result. -/
theorem sanitizeGrades_throws :
    (∀ (toStr : Option JSON → Except JSError JSString) (paper : JSString),
      sanitizeGrades toStr paper [mkFullGrade 80 100 "Good." [numericTextEvidence]]
        = .error .typeError) ∧
    (∀ (toStr : Option JSON → Except JSError JSString) (paper : JSString),
      ∃ e, gradeResponse toStr paper
        (.obj [("rubricGrades", .arr [mkFullGrade 80 100 "Good." [numericTextEvidence]])])
          = .error e) := by
  have h0 : keepEvidence numericTextEvidence = .error .typeError := by rfl
  have h1 : ∀ (toStr : Option JSON → Except JSError JSString) (paper : JSString),
      sanitizeGrades toStr paper [mkFullGrade 80 100 "Good." [numericTextEvidence]]
        = .error .typeError := by
    intro toStr paper
    simp [sanitizeGrades, sanitizeLoop, sanitizeGrade, mkFullGrade, isProcessedGrade,
      truthy, isNumber, getField, lookupKey, validEvidence, filterEvidence, h0]
  refine ⟨h1, ?_⟩
  intro toStr paper
  refine ⟨.typeError, ?_⟩
  simp only [gradeResponse, getField, lookupKey, if_true, h1]

/-- C6 (as stated) fails: with the candidates `null` and a record whose `score` is a string,
none of which has numeric `score` and `maxScore`, the payload still lists both. -/
theorem gradeResponse_keeps_invalid :
    ∃ p, gradeResponse sampleToStr samplePaper
        (.obj [("rubricGrades", .arr [.null, stringScoreGrade])]) = .ok p ∧
      p.rubricGrades = [.null, stringScoreGrade] ∧
      [JSON.null, stringScoreGrade].filter hasNumericScores = [] := by
  refine ⟨⟨0, [.null, stringScoreGrade], samplePaper⟩, ?_, rfl, ?_⟩
  · simp [gradeResponse, getField, lookupKey, sanitizeGrades, sanitizeLoop, sanitizeGrade,
      isProcessedGrade, truthy, stringScoreGrade, isNumber, computeOverall, isValidGrade,
      typeofObject]
  · simp [hasNumericScores, stringScoreGrade, lookupKey, isNumber]

/-- C6 (as the code behaves).  In a successful run the payload lists the raw candidates in
their order and number: a candidate that is `null` or lacks a numeric `score` or `maxScore`
stands there unchanged, and every other candidate stands there sanitised. -/
theorem gradeResponse_rubricGrades (toStr : Option JSON → Except JSError JSString)
    (paper : JSString) (response : JSON) (p : ResponsePayload)
    (h : gradeResponse toStr paper response = .ok p) :
    ∃ raw, getField response "rubricGrades" = some (.arr raw) ∧
      p.rubricGrades.length = raw.length ∧
      List.Forall₂ (SanitizedFrom toStr paper) raw p.rubricGrades := by
  unfold gradeResponse at h
  split at h
  · rename_i raw hraw
    cases hs : sanitizeGrades toStr paper raw with
    | error e => rw [hs] at h; cases h
    | ok cleaned =>
      rw [hs] at h
      simp only [Except.ok.injEq] at h
      subst h
      have hall := sanitizeLoop_forall₂ toStr paper raw cleaned hs
      exact ⟨raw, hraw, hall.length_eq.symm, hall⟩
  · cases h

/-- Witness of `gradeResponse_rubricGrades`: the candidates `null` and a record with a
string `score`. -/
theorem gradeResponse_rubricGrades_witness :
    ∃ raw, getField (.obj [("rubricGrades", .arr [.null, stringScoreGrade])]) "rubricGrades"
        = some (.arr raw) ∧
      [JSON.null, stringScoreGrade].length = raw.length ∧
      List.Forall₂ (SanitizedFrom sampleToStr samplePaper) raw [.null, stringScoreGrade] :=
  gradeResponse_rubricGrades sampleToStr samplePaper
    (.obj [("rubricGrades", .arr [.null, stringScoreGrade])])
    ⟨0, [.null, stringScoreGrade], samplePaper⟩ (by
      simp [gradeResponse, getField, lookupKey, sanitizeGrades, sanitizeLoop, sanitizeGrade,
        isProcessedGrade, truthy, stringScoreGrade, isNumber, computeOverall, isValidGrade,
        typeofObject])

theorem sanitizeGrade_no_evidence (toStr : Option JSON → Except JSError JSString)
    (d np : JSString) (kvs : List (String × JSON)) (hp : isProcessedGrade (.obj kvs) = true)
    (hk : validEvidence (.obj kvs) = .ok []) (g1 : JSON)
    (hb : backfillComment toStr (setField (.obj kvs) "evidence" (.arr [])) = .ok g1) :
    sanitizeGrade toStr d np (.obj kvs) = .ok (setField g1 "evidence" (.arr [])) := by
  unfold sanitizeGrade
  simp only [hp, Bool.not_true, Bool.false_eq_true, if_false, hk, hb, resolveAll]

theorem backfillComment_perfect (toStr : Option JSON → Except JSError JSString)
    (kvs : List (String × JSON))
    (heq : numField (.obj kvs) "score" = numField (.obj kvs) "maxScore") :
    backfillComment toStr (setField (.obj kvs) "evidence" (.arr [])) =
      .ok (setField (setField (.obj kvs) "evidence" (.arr [])) "comment"
        (.str positiveComment)) := by
  have hE : getField (setField (.obj kvs) "evidence" (.arr [])) "evidence" = some (.arr []) :=
    getField_setField_self kvs _ _
  have hN : ∀ k, k ≠ "evidence" →
      numField (setField (.obj kvs) "evidence" (.arr [])) k = numField (.obj kvs) k := by
    intro k hk
    unfold numField
    rw [getField_setField_ne _ _ _ _ hk]
  unfold backfillComment
  rw [hE]
  simp only [hN "score" (by decide), hN "maxScore" (by decide), heq, if_true]

theorem backfillComment_imperfect (toStr : Option JSON → Except JSError JSString)
    (kvs : List (String × JSON)) (s : JSString)
    (hne : numField (.obj kvs) "score" ≠ numField (.obj kvs) "maxScore")
    (hs : toStringValue toStr (getField (.obj kvs) "comment") = .ok s) :
    backfillComment toStr (setField (.obj kvs) "evidence" (.arr [])) =
      .ok (setField (setField (.obj kvs) "evidence" (.arr [])) "comment"
        (.str (s ++ diagnosticSuffix))) := by
  have hE : getField (setField (.obj kvs) "evidence" (.arr [])) "evidence" = some (.arr []) :=
    getField_setField_self kvs _ _
  have hN : ∀ k, k ≠ "evidence" →
      numField (setField (.obj kvs) "evidence" (.arr [])) k = numField (.obj kvs) k := by
    intro k hk
    unfold numField
    rw [getField_setField_ne _ _ _ _ hk]
  have hC : getField (setField (.obj kvs) "evidence" (.arr [])) "comment" =
      getField (.obj kvs) "comment" := getField_setField_ne _ _ _ _ (by decide)
  unfold backfillComment
  rw [hE]
  simp only [hN "score" (by decide), hN "maxScore" (by decide), hne, if_false, hC,
    appendToComment, hs]

theorem getField_comment_final (g : JSON) (c : JSON) (evs : List JSON) :
    getField (setField (setField g "comment" c) "evidence" (.arr evs)) "comment" =
      getField (setField g "comment" c) "comment" :=
  getField_setField_ne _ _ _ _ (by decide)

/-- C7.  Comment backfill on a grade with numeric `score` and `maxScore` whose filtered
evidence is `kept`.  When `kept` is empty and `score = maxScore`, the iteration succeeds and
the comment is the fixed positive statement.  When `kept` is empty and `score ≠ maxScore`,
the iteration succeeds and the comment is the original comment (as a string, `s`) followed by
the fixed suffix; for a string comment `s` is the comment itself.  When `kept` is not empty
the comment is unchanged.  In all cases `score` and `maxScore` are unchanged. -/
theorem sanitizeGrade_comment (toStr : Option JSON → Except JSError JSString)
    (d np : JSString) (grade : JSON) (kept : List JSON)
    (hp : isProcessedGrade grade = true) (hk : validEvidence grade = .ok kept) :
    (kept = [] → numField grade "score" = numField grade "maxScore" →
      ∃ grade', sanitizeGrade toStr d np grade = .ok grade' ∧
        getField grade' "comment" = some (.str positiveComment) ∧
        getField grade' "score" = getField grade "score" ∧
        getField grade' "maxScore" = getField grade "maxScore") ∧
    (kept = [] → numField grade "score" ≠ numField grade "maxScore" →
      ∀ s, toStringValue toStr (getField grade "comment") = .ok s →
      ∃ grade', sanitizeGrade toStr d np grade = .ok grade' ∧
        getField grade' "comment" = some (.str (s ++ diagnosticSuffix)) ∧
        getField grade' "score" = getField grade "score" ∧
        getField grade' "maxScore" = getField grade "maxScore") ∧
    (∀ c, toStringValue toStr (some (.str c)) = .ok c) ∧
    (kept ≠ [] → ∀ grade', sanitizeGrade toStr d np grade = .ok grade' →
      getField grade' "comment" = getField grade "comment" ∧
        getField grade' "score" = getField grade "score" ∧
        getField grade' "maxScore" = getField grade "maxScore") := by
  obtain ⟨kvs, rfl⟩ := isProcessedGrade_obj grade hp
  refine ⟨?_, ?_, fun c => rfl, ?_⟩
  · intro hnil heq
    subst hnil
    have hrun := sanitizeGrade_no_evidence toStr d np kvs hp hk _
      (backfillComment_perfect toStr kvs heq)
    have hsc := sanitizeGrade_scores toStr d np _ _ hrun
    refine ⟨_, hrun, ?_, hsc.1, hsc.2.1⟩
    rw [getField_comment_final]
    simp [setField, getField, lookupKey_assignKey_self]
  · intro hnil hne s hs
    subst hnil
    have hrun := sanitizeGrade_no_evidence toStr d np kvs hp hk _
      (backfillComment_imperfect toStr kvs s hne hs)
    have hsc := sanitizeGrade_scores toStr d np _ _ hrun
    refine ⟨_, hrun, ?_, hsc.1, hsc.2.1⟩
    rw [getField_comment_final]
    simp [setField, getField, lookupKey_assignKey_self]
  · intro hne grade' hrun
    have hsc := sanitizeGrade_scores toStr d np _ _ hrun
    refine ⟨?_, hsc.1, hsc.2.1⟩
    obtain ⟨kept', g1, resolved, h1, h2, _, h4⟩ := sanitizeGrade_ok toStr d np _ grade' hp hrun
    rw [hk] at h1
    simp only [Except.ok.injEq] at h1
    subst h1
    obtain ⟨_, _, _, hc, _⟩ := backfillComment_spec toStr kvs kept g1 h2
    rw [h4, getField_setField_ne _ _ _ _ (by decide), hc hne]
    rfl

/-- Witness of `sanitizeGrade_comment`: 60 out of 100 with an empty evidence list and the
comment `Good.` keeps its scores and gets the comment `Good.` followed by the suffix; 100 out
of 100 with an empty evidence list gets the positive comment. -/
theorem sanitizeGrade_comment_witness :
    (∃ grade', sanitizeGrade sampleToStr samplePaper (normalizeText samplePaper)
        (mkFullGrade 60 100 "Good." []) = .ok grade' ∧
      getField grade' "comment" = some (.str (lit "Good." ++ diagnosticSuffix)) ∧
      getField grade' "score" = getField (mkFullGrade 60 100 "Good." []) "score" ∧
      getField grade' "maxScore" = getField (mkFullGrade 60 100 "Good." []) "maxScore") ∧
    (∃ grade', sanitizeGrade sampleToStr samplePaper (normalizeText samplePaper)
        (mkFullGrade 100 100 "Good." []) = .ok grade' ∧
      getField grade' "comment" = some (.str positiveComment) ∧
      getField grade' "score" = getField (mkFullGrade 100 100 "Good." []) "score" ∧
      getField grade' "maxScore" = getField (mkFullGrade 100 100 "Good." []) "maxScore") :=
  ⟨(sanitizeGrade_comment sampleToStr samplePaper (normalizeText samplePaper)
      (mkFullGrade 60 100 "Good." []) [] (by rfl) (by rfl)).2.1 rfl
      (by simp [numField, mkFullGrade, getField, lookupKey]) (lit "Good.") (by rfl),
    (sanitizeGrade_comment sampleToStr samplePaper (normalizeText samplePaper)
      (mkFullGrade 100 100 "Good." []) [] (by rfl) (by rfl)).1 rfl
      (by simp [numField, mkFullGrade, getField, lookupKey])⟩

theorem truthyOpt_some (v : JSON) : truthyOpt (some v) = truthy v := rfl

theorem keepEvidence_strings (kvs : List (String × JSON)) (t s : JSString)
    (h1 : getField (.obj kvs) "text" = some (.str t))
    (h2 : getField (.obj kvs) "suggestion" = some (.str s)) :
    keepEvidence (.obj kvs) = .ok (fieldKeeps (.obj kvs)) := by
  unfold keepEvidence fieldKeeps
  rw [h1, h2]
  simp only [truthyOpt_some, truthy, jsIncludes]
  cases truthyOpt (getField (.obj kvs) "revised_excerpt") <;> cases t.isEmpty <;>
    cases s.isEmpty <;> cases includes t markerText <;> cases includes s markerSuggestion <;>
    rfl

theorem keepEvidence_eq_fieldKeeps (ev : JSON) (h : stringQuoted ev = true) :
    keepEvidence ev = .ok (fieldKeeps ev) := by
  unfold stringQuoted at h
  rw [Bool.and_eq_true] at h
  obtain ⟨ht, hs⟩ := h
  cases ev with
  | obj kvs =>
    cases h1 : getField (.obj kvs) "text" with
    | none => simp [keepEvidence, fieldKeeps, h1, truthyOpt]
    | some t =>
      cases h2 : getField (.obj kvs) "suggestion" with
      | none => simp [keepEvidence, fieldKeeps, h2, truthyOpt]
      | some s =>
        rw [h1] at ht
        rw [h2] at hs
        cases t with
        | str t =>
          cases s with
          | str s => exact keepEvidence_strings kvs t s h1 h2
          | null => simp [keepEvidence, fieldKeeps, h2, truthyOpt, truthy]
          | bool b =>
            simp only [falsyOrString, truthyOpt, truthy, Bool.not_eq_true'] at hs
            simp [keepEvidence, fieldKeeps, h2, truthyOpt, truthy, hs]
          | num q =>
            simp only [falsyOrString, truthyOpt, truthy, Bool.not_eq_true'] at hs
            simp [keepEvidence, fieldKeeps, h2, truthyOpt, truthy, hs]
          | arr xs => simp [falsyOrString, truthyOpt, truthy] at hs
          | obj o => simp [falsyOrString, truthyOpt, truthy] at hs
        | null => simp [keepEvidence, fieldKeeps, h1, truthyOpt, truthy]
        | bool b =>
          simp only [falsyOrString, truthyOpt, truthy, Bool.not_eq_true'] at ht
          simp [keepEvidence, fieldKeeps, h1, truthyOpt, truthy, ht]
        | num q =>
          simp only [falsyOrString, truthyOpt, truthy, Bool.not_eq_true'] at ht
          simp [keepEvidence, fieldKeeps, h1, truthyOpt, truthy, ht]
        | arr xs => simp [falsyOrString, truthyOpt, truthy] at ht
        | obj o => simp [falsyOrString, truthyOpt, truthy] at ht
  | null => simp [keepEvidence, fieldKeeps, truthy, getField, truthyOpt]
  | bool b => simp [keepEvidence, fieldKeeps, truthy, getField, truthyOpt]
  | num q => simp [keepEvidence, fieldKeeps, truthy, getField, truthyOpt]
  | str s => simp [keepEvidence, fieldKeeps, truthy, getField, truthyOpt]
  | arr xs => simp [keepEvidence, fieldKeeps, truthy, getField, truthyOpt]

theorem filterEvidence_eq_filter (evs : List JSON) (h : ∀ ev ∈ evs, stringQuoted ev = true) :
    filterEvidence evs = .ok (evs.filter fieldKeeps) := by
  induction evs with
  | nil => rfl
  | cons ev evs ih =>
    have h1 := keepEvidence_eq_fieldKeeps ev (h ev (List.mem_cons_self ev evs))
    have h2 := ih (fun x hx => h x (List.mem_cons_of_mem ev hx))
    simp only [filterEvidence, h1, h2, List.filter_cons]

/-- C8 (as the code behaves).  When `text` and `suggestion` of every candidate are strings
whenever they are truthy, the cleaned evidence list is the subsequence, in the original
order, of the candidates whose `text`, `suggestion` and `revised_excerpt` are all truthy,
whose `text` does not contain `[AI ERROR` and whose `suggestion` does not contain
`[AI did not provide`; an `evidence` that is absent or not an array gives the empty list. -/
theorem validEvidence_eq_filter (grade : JSON)
    (h : ∀ ev ∈ evidenceList grade, stringQuoted ev = true) :
    validEvidence grade = .ok ((evidenceList grade).filter fieldKeeps) ∧
      ((∀ evs, getField grade "evidence" ≠ some (.arr evs)) → validEvidence grade = .ok []) := by
  unfold validEvidence evidenceList at *
  split
  · rename_i evs hevs
    simp only [hevs] at h
    refine ⟨filterEvidence_eq_filter evs h, ?_⟩
    intro hno
    exact absurd hevs (hno evs)
  · exact ⟨rfl, fun _ => rfl⟩

/-- Witness of `validEvidence_eq_filter`: of two candidates, the one whose `text` holds
`[AI ERROR` is dropped and the one whose `text` holds `[AI did not provide` is kept. -/
theorem validEvidence_eq_filter_witness :
    validEvidence (mkFullGrade 80 100 "Good."
        [mkEvidence "[AI ERROR: none]" "s" "r", crossedMarkerEvidence]) =
      .ok ((evidenceList (mkFullGrade 80 100 "Good."
        [mkEvidence "[AI ERROR: none]" "s" "r", crossedMarkerEvidence])).filter fieldKeeps) :=
  (validEvidence_eq_filter (mkFullGrade 80 100 "Good."
    [mkEvidence "[AI ERROR: none]" "s" "r", crossedMarkerEvidence]) (by
      intro ev hev
      simp only [evidenceList, mkFullGrade, getField, lookupKey] at hev
      simp at hev
      rcases hev with rfl | rfl <;> rfl)).1

/-- C8 (as stated) fails: a candidate whose `text` contains the marker `[AI did not provide`
is kept by the filter, although the filter of the specification drops it. -/
theorem validEvidence_keeps_crossed_marker :
    specKeeps crossedMarkerEvidence = false ∧
      validEvidence (mkFullGrade 80 100 "Good." [crossedMarkerEvidence]) =
        .ok [crossedMarkerEvidence] := by
  have h0 : keepEvidence crossedMarkerEvidence = .ok true := by rfl
  refine ⟨by decide, ?_⟩
  simp [validEvidence, mkFullGrade, getField, lookupKey, filterEvidence, h0]

/-! ## Properties of the retry loop -/

theorem retryLoop_exit {ε ρ : Type} (callAI : Nat → CallArgs → Except ε ρ)
    (sys user ctx : JSString) (timeout retries a : Nat) (cur : JSString) (last : Option ε)
    (h : ¬ a < retries) :
    retryLoop callAI sys user ctx timeout retries a cur last = ⟨[], .error last⟩ := by
  rw [retryLoop, if_neg h]

theorem retryLoop_ok {ε ρ : Type} (callAI : Nat → CallArgs → Except ε ρ)
    (sys user ctx : JSString) (timeout retries a : Nat) (cur : JSString) (last : Option ε)
    (h : a < retries) (r : ρ) (hr : callAI (a + 1) ⟨sys, cur, ctx, timeout⟩ = .ok r) :
    retryLoop callAI sys user ctx timeout retries a cur last =
      ⟨[⟨sys, cur, ctx, timeout⟩], .ok r⟩ := by
  rw [retryLoop, if_pos h]
  simp only [hr]

theorem retryLoop_error {ε ρ : Type} (callAI : Nat → CallArgs → Except ε ρ)
    (sys user ctx : JSString) (timeout retries a : Nat) (cur : JSString) (last : Option ε)
    (h : a < retries) (e : ε) (he : callAI (a + 1) ⟨sys, cur, ctx, timeout⟩ = .error e) :
    retryLoop callAI sys user ctx timeout retries a cur last =
      ⟨⟨sys, cur, ctx, timeout⟩ ::
          (retryLoop callAI sys user ctx timeout retries (a + 1) (retryInstruction ++ user)
            (some e)).calls,
        (retryLoop callAI sys user ctx timeout retries (a + 1) (retryInstruction ++ user)
            (some e)).result⟩ := by
  rw [retryLoop, if_pos h]
  simp only [he]

theorem promptAt_succ_succ (user : JSString) (a : Nat) :
    promptAt user (a + 1 + 1) = retryInstruction ++ user := by
  simp [promptAt]

/-- The loop from the state reached after `a` failed attempts. -/
theorem retryLoop_spec {ε ρ : Type} (callAI : Nat → CallArgs → Except ε ρ)
    (sys user ctx : JSString) (timeout retries : Nat) :
    ∀ (n a : Nat) (last : Option ε), retries - a = n →
      (retryLoop callAI sys user ctx timeout retries a (promptAt user (a + 1)) last).calls.length
        ≤ n ∧
      (∀ i, i < (retryLoop callAI sys user ctx timeout retries a
            (promptAt user (a + 1)) last).calls.length →
          (retryLoop callAI sys user ctx timeout retries a (promptAt user (a + 1)) last).calls[i]?
            = some (attemptArgs sys user ctx timeout (a + 1 + i))) ∧
      (∀ k r, a < k → k ≤ retries → callAI k (attemptArgs sys user ctx timeout k) = .ok r →
          (∀ j, a < j → j < k → ∃ e, callAI j (attemptArgs sys user ctx timeout j) = .error e) →
          (retryLoop callAI sys user ctx timeout retries a (promptAt user (a + 1)) last).result
              = .ok r ∧
            (retryLoop callAI sys user ctx timeout retries a
              (promptAt user (a + 1)) last).calls.length = k - a) ∧
      ((∀ j, a < j → j ≤ retries → ∃ e, callAI j (attemptArgs sys user ctx timeout j) = .error e) →
          (retryLoop callAI sys user ctx timeout retries a
              (promptAt user (a + 1)) last).calls.length = n ∧
            (a < retries → ∃ e, callAI retries (attemptArgs sys user ctx timeout retries) = .error e ∧
              (retryLoop callAI sys user ctx timeout retries a
                (promptAt user (a + 1)) last).result = .error (some e)) ∧
            (retries ≤ a →
              (retryLoop callAI sys user ctx timeout retries a
                (promptAt user (a + 1)) last).result = .error last)) := by
  intro n
  induction n with
  | zero =>
    intro a last hn
    have hna : ¬ a < retries := by omega
    rw [retryLoop_exit callAI sys user ctx timeout retries a _ last hna]
    refine ⟨by simp, ?_, ?_, ?_⟩
    · intro i hi; simp at hi
    · intro k r hk hk'; omega
    · intro _
      exact ⟨rfl, fun h => absurd h hna, fun _ => rfl⟩
  | succ n ih =>
    intro a last hn
    have ha : a < retries := by omega
    have hargs : (⟨sys, promptAt user (a + 1), ctx, timeout⟩ : CallArgs) =
        attemptArgs sys user ctx timeout (a + 1) := rfl
    cases hcall : callAI (a + 1) ⟨sys, promptAt user (a + 1), ctx, timeout⟩ with
    | ok r =>
      rw [retryLoop_ok callAI sys user ctx timeout retries a _ last ha r hcall]
      rw [hargs] at hcall
      refine ⟨by simp, ?_, ?_, ?_⟩
      · intro i hi
        simp only [List.length_singleton, Nat.lt_one_iff] at hi
        subst hi
        simp [hargs]
      · intro k r' hk hk' hok hfail
        by_cases hka : k = a + 1
        · subst hka
          rw [hcall] at hok
          simp only [Except.ok.injEq] at hok
          subst hok
          exact ⟨rfl, by simp⟩
        · obtain ⟨e, he⟩ := hfail (a + 1) (by omega) (by omega)
          rw [hcall] at he
          cases he
      · intro hfail
        obtain ⟨e, he⟩ := hfail (a + 1) (by omega) (by omega)
        rw [hcall] at he
        cases he
    | error e =>
      rw [retryLoop_error callAI sys user ctx timeout retries a _ last ha e hcall]
      rw [hargs] at hcall
      obtain ⟨h1, h2, h3, h4⟩ := ih (a + 1) (some e) (by omega)
      rw [promptAt_succ_succ] at h1 h2 h3 h4
      refine ⟨by simp; omega, ?_, ?_, ?_⟩
      · intro i hi
        cases i with
        | zero => simp [hargs]
        | succ i =>
          simp only [List.length_cons, Nat.add_lt_add_iff_right] at hi
          simp only [List.getElem?_cons_succ]
          rw [h2 i hi]
          congr 2
          omega
      · intro k r hk hk' hok hfail
        have hka : k ≠ a + 1 := by
          intro hka
          subst hka
          rw [hcall] at hok
          cases hok
        obtain ⟨hres, hlen⟩ := h3 k r (by omega) hk' hok
          (fun j hj hj' => hfail j (by omega) hj')
        refine ⟨hres, ?_⟩
        simp only [List.length_cons, hlen]
        omega
      · intro hfail
        obtain ⟨hlen, hlt, hge⟩ := h4 (fun j hj hj' => hfail j (by omega) hj')
        refine ⟨by simp [hlen], ?_, fun h => by omega⟩
        intro _
        by_cases hlast : a + 1 < retries
        · exact hlt hlast
        · have hr : retries = a + 1 := by omega
          refine ⟨e, by rw [hr]; exact hcall, ?_⟩
          exact hge (by omega)

/-- C9.  Bounded retry, for `retries ≥ 1`: at most `retries` calls of the client are made;
when attempt `k ≤ retries` is the first to succeed its result is returned and exactly `k`
calls are made; when all `retries` attempts fail, the value thrown is the error of attempt
`retries` itself, after exactly `retries` calls. -/
theorem callAIWithRetry_bounded {ε ρ : Type} (callAI : Nat → CallArgs → Except ε ρ)
    (sys user ctx : JSString) (timeout retries : Nat) (h : 1 ≤ retries) :
    (callAIWithRetry callAI sys user ctx timeout retries).calls.length ≤ retries ∧
    (∀ k r, 1 ≤ k → k ≤ retries → callAI k (attemptArgs sys user ctx timeout k) = .ok r →
      (∀ j, 1 ≤ j → j < k → ∃ e, callAI j (attemptArgs sys user ctx timeout j) = .error e) →
      (callAIWithRetry callAI sys user ctx timeout retries).result = .ok r ∧
        (callAIWithRetry callAI sys user ctx timeout retries).calls.length = k) ∧
    ((∀ j, 1 ≤ j → j ≤ retries → ∃ e, callAI j (attemptArgs sys user ctx timeout j) = .error e) →
      ∃ e, callAI retries (attemptArgs sys user ctx timeout retries) = .error e ∧
        (callAIWithRetry callAI sys user ctx timeout retries).result = .error (some e) ∧
        (callAIWithRetry callAI sys user ctx timeout retries).calls.length = retries) := by
  have hstart : callAIWithRetry callAI sys user ctx timeout retries =
      retryLoop callAI sys user ctx timeout retries 0 (promptAt user (0 + 1)) none := rfl
  obtain ⟨h1, _, h3, h4⟩ := retryLoop_spec callAI sys user ctx timeout retries retries 0 none rfl
  rw [hstart]
  refine ⟨h1, ?_, ?_⟩
  · intro k r hk hk' hok hfail
    exact h3 k r (by omega) hk' hok (fun j hj hj' => hfail j (by omega) hj')
  · intro hfail
    obtain ⟨hlen, hlt, _⟩ := h4 (fun j hj hj' => hfail j (by omega) hj')
    obtain ⟨e, he, hres⟩ := hlt (by omega)
    exact ⟨e, he, hres, hlen⟩

/-- Witness of `callAIWithRetry_bounded`: two attempts with a client that always fails. -/
theorem callAIWithRetry_bounded_witness :
    ∃ e, alwaysFails 2 (attemptArgs [] (lit "Paper") [] 1000 2) = .error e ∧
      (callAIWithRetry alwaysFails [] (lit "Paper") [] 1000 2).result = .error (some e) ∧
      (callAIWithRetry alwaysFails [] (lit "Paper") [] 1000 2).calls.length = 2 :=
  (callAIWithRetry_bounded alwaysFails [] (lit "Paper") [] 1000 2 (by decide)).2.2
    (fun j _ _ => ⟨j, rfl⟩)

/-- C10.  Retry escalation: the first call is made with the caller's prompt, every later call
with the fixed instruction followed by the caller's prompt, and all calls with the same system
prompt, context and timeout.  When the first attempt fails and the second succeeds, the second
result is returned and the two calls are those just described. -/
theorem callAIWithRetry_escalation {ε ρ : Type} (callAI : Nat → CallArgs → Except ε ρ)
    (sys user ctx : JSString) (timeout retries : Nat) :
    (∀ i, i < (callAIWithRetry callAI sys user ctx timeout retries).calls.length →
      (callAIWithRetry callAI sys user ctx timeout retries).calls[i]? =
        some ⟨sys, if i = 0 then user else retryInstruction ++ user, ctx, timeout⟩) ∧
    (∀ e r, 2 ≤ retries → callAI 1 ⟨sys, user, ctx, timeout⟩ = .error e →
      callAI 2 ⟨sys, retryInstruction ++ user, ctx, timeout⟩ = .ok r →
      (callAIWithRetry callAI sys user ctx timeout retries).result = .ok r ∧
        (callAIWithRetry callAI sys user ctx timeout retries).calls =
          [⟨sys, user, ctx, timeout⟩, ⟨sys, retryInstruction ++ user, ctx, timeout⟩] ∧
        retryInstruction <+: retryInstruction ++ user) := by
  have hstart : callAIWithRetry callAI sys user ctx timeout retries =
      retryLoop callAI sys user ctx timeout retries 0 (promptAt user (0 + 1)) none := rfl
  constructor
  · obtain ⟨_, h2, _, _⟩ := retryLoop_spec callAI sys user ctx timeout retries retries 0 none rfl
    rw [hstart]
    intro i hi
    rw [h2 i hi]
    cases i with
    | zero => rfl
    | succ i => simp [attemptArgs, promptAt]
  · intro e r hr h1 h2
    have hrun : callAIWithRetry callAI sys user ctx timeout retries =
        ⟨[⟨sys, user, ctx, timeout⟩, ⟨sys, retryInstruction ++ user, ctx, timeout⟩], .ok r⟩ := by
      unfold callAIWithRetry
      rw [retryLoop_error callAI sys user ctx timeout retries 0 user none (by omega) e h1,
        retryLoop_ok callAI sys user ctx timeout retries 1 _ (some e) (by omega) r h2]
    rw [hrun]
    exact ⟨rfl, rfl, List.prefix_append _ _⟩

/-- Witness of `callAIWithRetry_escalation`: a client failing on its first call only. -/
theorem callAIWithRetry_escalation_witness :
    (callAIWithRetry failsOnce [] (lit "Paper") [] 1000 2).result = .ok 7 ∧
      (callAIWithRetry failsOnce [] (lit "Paper") [] 1000 2).calls =
        [⟨[], lit "Paper", [], 1000⟩, ⟨[], retryInstruction ++ lit "Paper", [], 1000⟩] ∧
      retryInstruction <+: retryInstruction ++ lit "Paper" :=
  (callAIWithRetry_escalation failsOnce [] (lit "Paper") [] 1000 2).2
    (lit "The AI call failed during the RubricGrading step.") 7 (by decide) rfl rfl

/-! ## Properties of the response parser -/

theorem startsWith_unit (c x : Nat) (cs : JSString) : startsWith (c :: cs) [x] = (c == x) := by
  cases cs <;> simp [startsWith]

theorem indexOfFrom_unit (x : Nat) (a r : JSString) (i : Nat) (ha : x ∉ a) :
    indexOfFrom [x] (a ++ x :: r) i = some (i + a.length) := by
  induction a generalizing i with
  | nil => simp [indexOfFrom, startsWith_unit]
  | cons c a ih =>
    have hc : c ≠ x := fun h => ha (by simp [h])
    have ha' : x ∉ a := fun h => ha (List.mem_cons_of_mem c h)
    have hstep : indexOfFrom [x] (c :: a ++ x :: r) i = indexOfFrom [x] (a ++ x :: r) (i + 1) := by
      simp [indexOfFrom, startsWith_unit, hc]
    rw [hstep, ih (i + 1) ha']
    simp only [List.length_cons]
    congr 1
    omega

theorem indexOfFrom_unit_some (x : Nat) (hay : JSString) (i j : Nat)
    (h : indexOfFrom [x] hay i = some j) :
    ∃ a r, hay = a ++ x :: r ∧ j = i + a.length ∧ x ∉ a := by
  induction hay generalizing i with
  | nil => simp [indexOfFrom, startsWith] at h
  | cons c cs ih =>
    simp only [indexOfFrom, startsWith_unit, beq_iff_eq] at h
    split at h
    · rename_i hc
      subst hc
      exact ⟨[], cs, rfl, by simpa using (Option.some.inj h).symm, by simp⟩
    · rename_i hc
      obtain ⟨a, r, hcs, hj, ha⟩ := ih (i + 1) h
      refine ⟨c :: a, r, by simp [hcs], by simp only [List.length_cons]; omega, ?_⟩
      intro hm
      rcases List.mem_cons.mp hm with hx | hx
      · exact hc hx.symm
      · exact ha hx

theorem lastIndexOfFrom_unit_none (x : Nat) (b : JSString) (i : Nat) (hb : x ∉ b) :
    lastIndexOfFrom [x] b i = none := by
  induction b generalizing i with
  | nil => simp [lastIndexOfFrom, startsWith]
  | cons c b ih =>
    have hc : c ≠ x := fun h => hb (by simp [h])
    have hb' : x ∉ b := fun h => hb (List.mem_cons_of_mem c h)
    simp [lastIndexOfFrom, ih (i + 1) hb', startsWith_unit, hc]

theorem lastIndexOfFrom_unit (x : Nat) (r b : JSString) (i : Nat) (hb : x ∉ b) :
    lastIndexOfFrom [x] (r ++ x :: b) i = some (i + r.length) := by
  induction r generalizing i with
  | nil =>
    simp [lastIndexOfFrom, lastIndexOfFrom_unit_none x b (i + 1) hb, startsWith_unit]
  | cons c r ih =>
    have hstep : lastIndexOfFrom [x] (c :: r ++ x :: b) i = some (i + 1 + r.length) := by
      simp [lastIndexOfFrom, ih (i + 1)]
    rw [hstep]
    simp only [List.length_cons]
    congr 1
    omega

theorem exists_last_occurrence (x : Nat) (l : JSString) (h : x ∈ l) :
    ∃ r b, l = r ++ x :: b ∧ x ∉ b := by
  induction l with
  | nil => simp at h
  | cons d ds ih =>
    by_cases hds : x ∈ ds
    · obtain ⟨r, b, hr, hb⟩ := ih hds
      exact ⟨d :: r, b, by simp [hr], hb⟩
    · rcases List.mem_cons.mp h with hxd | hxd
      · exact ⟨[], ds, by simp [hxd], hds⟩
      · exact absurd hxd hds

theorem lastIndexOfFrom_unit_some (x : Nat) (hay : JSString) (i j : Nat)
    (h : lastIndexOfFrom [x] hay i = some j) :
    ∃ r b, hay = r ++ x :: b ∧ j = i + r.length ∧ x ∉ b := by
  induction hay generalizing i with
  | nil => simp [lastIndexOfFrom, startsWith] at h
  | cons c cs ih =>
    simp only [lastIndexOfFrom] at h
    cases hrec : lastIndexOfFrom [x] cs (i + 1) with
    | some k =>
      rw [hrec] at h
      simp only [Option.some.injEq] at h
      subst h
      obtain ⟨r, b, hcs, hj, hb⟩ := ih (i + 1) hrec
      exact ⟨c :: r, b, by simp [hcs], by simp only [List.length_cons]; omega, hb⟩
    | none =>
      rw [hrec] at h
      simp only [startsWith_unit, beq_iff_eq] at h
      split at h
      · rename_i hc
        subst hc
        refine ⟨[], cs, rfl, by simpa using (Option.some.inj h).symm, ?_⟩
        intro hm
        obtain ⟨r', b', h', hb'⟩ := exists_last_occurrence c cs hm
        rw [h', lastIndexOfFrom_unit c r' b' (i + 1) hb'] at hrec
        cases hrec
      · cases h

/-- The two bracket searches on a text with a `{` before a `}`. -/
theorem brackets_found (a m b : JSString) (ha : (123 : Nat) ∉ a) (hb : (125 : Nat) ∉ b) :
    indexOf (a ++ 123 :: (m ++ 125 :: b)) [123] = (a.length : ℤ) ∧
      lastIndexOf (a ++ 123 :: (m ++ 125 :: b)) [125] = ((a.length + 1 + m.length : Nat) : ℤ) := by
  constructor
  · unfold indexOf
    rw [indexOfFrom_unit 123 a _ 0 ha]
    simp
  · unfold lastIndexOf
    have h : a ++ 123 :: (m ++ 125 :: b) = (a ++ 123 :: m) ++ 125 :: b := by simp
    rw [h, lastIndexOfFrom_unit 125 (a ++ 123 :: m) b 0 hb]
    simp
    omega

/-- When the test of line 67 passes, a `{` stands before a `}`. -/
theorem brackets_of_test (c : JSString)
    (h : indexOf c [123] ≠ -1 ∧ lastIndexOf c [125] > indexOf c [123]) :
    ∃ a m b, c = a ++ 123 :: (m ++ 125 :: b) ∧ (123 : Nat) ∉ a ∧ (125 : Nat) ∉ b := by
  obtain ⟨h1, h2⟩ := h
  unfold indexOf at h1 h2
  unfold lastIndexOf at h2
  cases hi : indexOfFrom [123] c 0 with
  | none => rw [hi] at h1; exact absurd rfl h1
  | some i =>
    cases hj : lastIndexOfFrom [125] c 0 with
    | none =>
      rw [hi, hj] at h2
      simp only at h2
      omega
    | some j =>
      rw [hi, hj] at h2
      simp only [gt_iff_lt, Nat.cast_lt] at h2
      obtain ⟨a, r, hc, hia, ha⟩ := indexOfFrom_unit_some 123 c 0 i hi
      obtain ⟨r', b, hc', hjr, hb⟩ := lastIndexOfFrom_unit_some 125 c 0 j hj
      have hlen : a.length < r'.length := by omega
      have heq : a ++ 123 :: r = r' ++ 125 :: b := by rw [← hc, ← hc']
      rcases List.append_eq_append_iff.mp heq with ⟨t, ht, ht'⟩ | ⟨t, ht, ht'⟩
      · cases t with
        | nil =>
          simp only [List.append_nil] at ht
          rw [ht] at hlen
          omega
        | cons d t =>
          simp only [List.cons_append, List.cons.injEq] at ht'
          obtain ⟨hd, hr⟩ := ht'
          exact ⟨a, t, b, by rw [hc, hr], ha, hb⟩
      · have : r'.length ≤ a.length := by
          rw [ht]; simp
        omega

theorem extractAndParseJson_eq (jsonParse : JSString → Option JSON) (text context : JSString) :
    extractAndParseJson jsonParse text context =
      parseBrackets jsonParse (candidateText text) context := by
  unfold extractAndParseJson candidateText
  cases fencedContent text <;> rfl

theorem parseBrackets_found (jsonParse : JSString → Option JSON) (context a m b : JSString)
    (ha : (123 : Nat) ∉ a) (hb : (125 : Nat) ∉ b) :
    parseBrackets jsonParse (a ++ 123 :: (m ++ 125 :: b)) context =
      match jsonParse (123 :: (m ++ [125])) with
      | some v => .ok v
      | none => .error (.error (malformedJsonMessage context)) := by
  obtain ⟨h1, h2⟩ := brackets_found a m b ha hb
  have hslice : slice (a ++ 123 :: (m ++ 125 :: b)) a.length (a.length + 1 + m.length + 1) =
      123 :: (m ++ [125]) := by
    unfold slice
    rw [List.drop_left]
    have : a.length + 1 + m.length + 1 - a.length = (123 :: (m ++ [125])).length := by
      simp; omega
    rw [this]
    have h3 : (123 : Nat) :: (m ++ 125 :: b) = (123 :: (m ++ [125])) ++ b := by simp
    rw [h3, List.take_left]
  unfold parseBrackets
  simp only [h1, h2]
  have hc : ((a.length : ℤ) ≠ -1 ∧ ((a.length + 1 + m.length : Nat) : ℤ) > (a.length : ℤ)) := by
    constructor <;> omega
  rw [if_pos hc]
  simp only [Int.toNat_ofNat, hslice]

theorem parseBrackets_missing (jsonParse : JSString → Option JSON) (context c : JSString)
    (h : ∀ a r, c = a ++ 123 :: r → (123 : Nat) ∉ a → (125 : Nat) ∉ r) :
    parseBrackets jsonParse c context = .error (.error (noJsonMessage context)) := by
  unfold parseBrackets
  simp only
  split
  · rename_i htest
    obtain ⟨a, m, b, hc, ha, _⟩ := brackets_of_test c htest
    exact absurd (by simp) (h a (m ++ 125 :: b) hc ha)
  · rfl

/-- C11.  Parser bracket rule, with `c` the candidate text (the content of the fenced block
when there is one, else the whole text).  When `c` has no `{`, or no `}`, or no `}` after
its first `{`, `extractAndParseJson` throws the error of line 70.  Otherwise the text given
to the JSON decoder is `c` from its first `{` to its last `}` inclusive, and a failure of
the decoder is thrown as the error of line 77, an `Error` as well.  The text `no json here`
fails. -/
theorem extractAndParseJson_brackets (jsonParse : JSString → Option JSON)
    (text context : JSString) :
    (((123 : Nat) ∉ candidateText text ∨ (125 : Nat) ∉ candidateText text ∨
        (∀ a r, candidateText text = a ++ 123 :: r → (123 : Nat) ∉ a → (125 : Nat) ∉ r)) →
      extractAndParseJson jsonParse text context = .error (.error (noJsonMessage context))) ∧
    (∀ a m b, candidateText text = a ++ 123 :: (m ++ 125 :: b) → (123 : Nat) ∉ a →
        (125 : Nat) ∉ b →
      extractAndParseJson jsonParse text context =
        match jsonParse (123 :: (m ++ [125])) with
        | some v => .ok v
        | none => .error (.error (malformedJsonMessage context))) ∧
    extractAndParseJson jsonParse (lit "no json here") context =
      .error (.error (noJsonMessage context)) := by
  refine ⟨?_, ?_, ?_⟩
  · intro h
    rw [extractAndParseJson_eq]
    apply parseBrackets_missing
    intro a r hc ha
    rcases h with h | h | h
    · exact absurd (by rw [hc]; simp) h
    · intro hr
      exact h (by rw [hc]; simp [hr])
    · exact h a r hc ha
  · intro a m b hc ha hb
    rw [extractAndParseJson_eq, hc]
    exact parseBrackets_found jsonParse context a m b ha hb
  · rw [extractAndParseJson_eq]
    apply parseBrackets_missing
    intro a r hc ha
    have hno : (123 : Nat) ∉ candidateText (lit "no json here") := by decide
    exact absurd (by rw [hc]; simp) hno

/-- Witness of `extractAndParseJson_brackets`: the fenced answer of the specification hands
its object to the decoder. -/
theorem extractAndParseJson_brackets_witness :
    extractAndParseJson sampleParse proseAroundFence (lit "RubricGrading") =
      match sampleParse (123 :: (lit "\"a\":1" ++ [125])) with
      | some v => .ok v
      | none => .error (.error (malformedJsonMessage (lit "RubricGrading"))) :=
  (extractAndParseJson_brackets sampleParse proseAroundFence (lit "RubricGrading")).2.1
    [] (lit "\"a\":1") [] (by decide) (by decide) (by decide)

theorem no_fence_start (c : Nat) (x y : JSString) (h : ¬ fence <:+: (c :: x) ++ [96, 96]) :
    startsWith ((c :: x) ++ fence ++ y) fence = false := by
  cases hs : startsWith ((c :: x) ++ fence ++ y) fence with
  | false => rfl
  | true =>
    exfalso
    apply h
    have hp : fence <+: (c :: x) ++ fence ++ y := (startsWith_iff _ _).mp hs
    have hq : (c :: x) ++ [96, 96] <+: (c :: x) ++ fence ++ y :=
      ⟨96 :: y, by simp [fence]⟩
    have hlen : fence.length ≤ ((c :: x) ++ [96, 96]).length := by
      simp [fence]
    exact (List.prefix_of_prefix_length_le hp hq hlen).isInfix

theorem indexOfFrom_fence (x y : JSString) (i : Nat) (h : ¬ fence <:+: x ++ [96, 96]) :
    indexOfFrom fence (x ++ fence ++ y) i = some (i + x.length) := by
  induction x generalizing i with
  | nil => simp [indexOfFrom, fence, startsWith]
  | cons c x ih =>
    have hx : ¬ fence <:+: x ++ [96, 96] := fun hin =>
      h (hin.trans (List.suffix_cons c (x ++ [96, 96])).isInfix)
    have hstep : indexOfFrom fence ((c :: x) ++ fence ++ y) i =
        indexOfFrom fence (x ++ fence ++ y) (i + 1) := by
      have h0 := no_fence_start c x y h
      simp only [List.cons_append] at h0 ⊢
      simp only [indexOfFrom, h0, Bool.false_eq_true, if_false]
    rw [hstep, ih (i + 1) hx]
    simp only [List.length_cons]
    congr 1
    omega

theorem suffix_append_both (s m t : JSString) (h : s <:+ m) : s ++ t <:+ m ++ t := by
  obtain ⟨u, rfl⟩ := h
  exact ⟨u, by simp⟩

theorem matchFenceBody_block (m post : JSString) (h : ¬ fence <:+: m ++ [96, 96]) :
    matchFenceBody (m ++ fence ++ post) = some (trim m) := by
  have hdrop : (m ++ fence ++ post).dropWhile isWhitespace =
      m.dropWhile isWhitespace ++ fence ++ post := by
    have h1 : m ++ fence ++ post = m ++ 96 :: (96 :: 96 :: post) := by simp [fence]
    rw [h1, dropWhile_append_stop isWhitespace m 96 _ (by decide)]
    simp [fence]
  have hsuf : ¬ fence <:+: m.dropWhile isWhitespace ++ [96, 96] := fun hin =>
    h (hin.trans (suffix_append_both _ _ [96, 96]
      (List.dropWhile_suffix isWhitespace)).isInfix)
  unfold matchFenceBody
  simp only [hdrop, indexOfFrom_fence _ post 0 hsuf, Nat.zero_add]
  rw [List.append_assoc, List.take_left]
  rfl

theorem startsWith_json_block (mid post : JSString) :
    startsWith (mid ++ fence ++ post) (lit "json") = startsWith mid (lit "json") := by
  have hj : lit "json" = [106, 115, 111, 110] := by decide
  rw [hj]
  rcases mid with _ | ⟨a, _ | ⟨b, _ | ⟨c, _ | ⟨d, rest⟩⟩⟩⟩ <;> simp [startsWith, fence]

theorem matchFenceAt_block (mid post : JSString) (h : ¬ fence <:+: mid ++ [96, 96]) :
    matchFenceAt (mid ++ fence ++ post) = some (trim (stripJsonTag mid)) := by
  unfold matchFenceAt stripJsonTag
  rw [startsWith_json_block]
  cases hs : startsWith mid (lit "json") with
  | false =>
    simp only [Bool.false_eq_true, if_false]
    exact matchFenceBody_block mid post h
  | true =>
    have hlen : 4 ≤ mid.length := by
      have := ((startsWith_iff mid (lit "json")).mp hs).length_le
      simpa using this
    have hdrop : (mid ++ fence ++ post).drop 4 = mid.drop 4 ++ fence ++ post := by
      rw [List.append_assoc, List.drop_append_of_le_length hlen, List.append_assoc]
    have hsuf : ¬ fence <:+: mid.drop 4 ++ [96, 96] := fun hin =>
      h (hin.trans (suffix_append_both _ _ [96, 96]
        (List.drop_suffix 4 mid)).isInfix)
    simp only [if_true, hdrop, matchFenceBody_block (mid.drop 4) post hsuf]

/-- The fence pattern on a text whose first fence opens a block closed by the next fence. -/
theorem fencedContent_first_block (pre mid post : JSString)
    (hpre : ¬ fence <:+: pre ++ [96, 96]) (hmid : ¬ fence <:+: mid ++ [96, 96]) :
    fencedContent (pre ++ fence ++ mid ++ fence ++ post) = some (trim (stripJsonTag mid)) := by
  induction pre with
  | nil =>
    have h := matchFenceAt_block mid post hmid
    have htext : [] ++ fence ++ mid ++ fence ++ post = 96 :: 96 :: 96 :: (mid ++ fence ++ post) := by
      simp [fence]
    rw [htext]
    simp only [fencedContent, startsWith, fence, beq_self_eq_true, Bool.and_self, if_true,
      List.drop_succ_cons, List.drop_zero]
    simp only [fence] at h
    rw [h]
  | cons c pre ih =>
    have hx : ¬ fence <:+: pre ++ [96, 96] := fun hin =>
      hpre (hin.trans (List.suffix_cons c (pre ++ [96, 96])).isInfix)
    have h0 := no_fence_start c pre (mid ++ fence ++ post) hpre
    have htext : (c :: pre) ++ fence ++ mid ++ fence ++ post =
        c :: (pre ++ fence ++ mid ++ fence ++ post) := by simp
    have htext' : (c :: pre) ++ fence ++ (mid ++ fence ++ post) =
        c :: (pre ++ fence ++ mid ++ fence ++ post) := by simp
    rw [htext'] at h0
    rw [htext]
    simp only [fencedContent, h0, Bool.false_eq_true, if_false]
    exact ih hx

theorem matchFenceBody_some (body r : JSString) (h : matchFenceBody body = some r) :
    fence <:+: body := by
  unfold matchFenceBody at h
  simp only at h
  cases hi : indexOfFrom fence (body.dropWhile isWhitespace) 0 with
  | none => rw [hi] at h; cases h
  | some j =>
    obtain ⟨k, _, _, hp, _⟩ := indexOfFrom_some fence _ 0 j hi
    exact (occurs_of_prefix_drop fence _ k hp).trans
      (List.dropWhile_suffix isWhitespace).isInfix

theorem matchFenceAt_some (rest r : JSString) (h : matchFenceAt rest = some r) :
    fence <:+: rest := by
  unfold matchFenceAt at h
  split at h
  · rename_i r' hr'
    split at hr'
    · exact (matchFenceBody_some _ r' hr').trans (List.drop_suffix 4 rest).isInfix
    · cases hr'
  · exact matchFenceBody_some rest r h

/-- Without two fences one after the other, the fence pattern does not match. -/
theorem fencedContent_none (text : JSString)
    (h : ∀ a b c, text ≠ a ++ fence ++ b ++ fence ++ c) : fencedContent text = none := by
  induction text with
  | nil => rfl
  | cons d ds ih =>
    have hds : ∀ a b c, ds ≠ a ++ fence ++ b ++ fence ++ c := by
      intro a b c hc
      exact h (d :: a) b c (by simp [hc])
    simp only [fencedContent]
    split
    · rename_i hs
      cases hm : matchFenceAt ((d :: ds).drop 3) with
      | none => exact ih hds
      | some r =>
        exfalso
        obtain ⟨t, ht⟩ := (startsWith_iff _ _).mp hs
        obtain ⟨b, c, hbc⟩ := matchFenceAt_some _ r hm
        have hrest : (d :: ds).drop 3 = t := by
          rw [← ht]
          simp [fence]
        rw [hrest] at hbc
        exact h [] b c (by rw [← ht, ← hbc]; simp)
    · exact ih hds

/-- C12 (as the code behaves).  Fence, then brackets: when the first fence of the text opens a
block that the next fence closes, the brackets are located in the content of that block only
(its tag `json` and the white space around it left out), whatever stands before and after
the block; in a text without two fences one after the other they are located in the whole
text.  The fenced answer of the specification yields its object. -/
theorem extractAndParseJson_first_fence (jsonParse : JSString → Option JSON)
    (context pre mid post : JSString)
    (hpre : ¬ fence <:+: pre ++ [96, 96]) (hmid : ¬ fence <:+: mid ++ [96, 96]) :
    extractAndParseJson jsonParse (pre ++ fence ++ mid ++ fence ++ post) context =
        parseBrackets jsonParse (trim (stripJsonTag mid)) context ∧
    (∀ text, (∀ a b c, text ≠ a ++ fence ++ b ++ fence ++ c) →
      extractAndParseJson jsonParse text context = parseBrackets jsonParse text context) ∧
    extractAndParseJson sampleParse proseAroundFence context = .ok (.obj [("a", .num 1)]) := by
  refine ⟨?_, ?_, ?_⟩
  · unfold extractAndParseJson
    rw [fencedContent_first_block pre mid post hpre hmid]
  · intro text h
    unfold extractAndParseJson
    rw [fencedContent_none text h]
  · have h : fencedContent proseAroundFence = some (lit "\x7b\"a\":1\x7d") := by decide
    have h1 : indexOf (lit "\x7b\"a\":1\x7d") [123] = 0 := by decide
    have h2 : lastIndexOf (lit "\x7b\"a\":1\x7d") [125] = 6 := by decide
    have h3 : slice (lit "\x7b\"a\":1\x7d") 0 7 = lit "\x7b\"a\":1\x7d" := by decide
    simp [extractAndParseJson, h, parseBrackets, h1, h2, h3, sampleParse]

/-- Witness of `extractAndParseJson_first_fence`: prose, a block tagged `json`, prose. -/
theorem extractAndParseJson_first_fence_witness :
    extractAndParseJson sampleParse
        (lit "Here is the result:\n" ++ fence ++ lit "json\n\x7b\"a\":1\x7d\n" ++ fence
          ++ lit "\nThanks") (lit "RubricGrading") =
      parseBrackets sampleParse (trim (stripJsonTag (lit "json\n\x7b\"a\":1\x7d\n")))
        (lit "RubricGrading") :=
  (extractAndParseJson_first_fence sampleParse (lit "RubricGrading")
    (lit "Here is the result:\n") (lit "json\n\x7b\"a\":1\x7d\n") (lit "\nThanks")
    (by decide) (by decide)).1

/-- C12 (as stated) fails: in a block that holds another block, the inner one with the object
of the specification, the pattern takes the empty text between the first two fences, so the
parser throws the error of line 70, although the decoder accepts the content of the inner
block. -/
theorem extractAndParseJson_nested_fence :
    nestedFences = fence ++ [10] ++
        (fence ++ lit "json\n" ++ lit "\x7b\"a\":1\x7d" ++ [10] ++ fence) ++ [10] ++ fence ∧
      extractAndParseJson sampleParse nestedFences (lit "RubricGrading") =
        .error (.error (noJsonMessage (lit "RubricGrading"))) ∧
      parseBrackets sampleParse (lit "\x7b\"a\":1\x7d") (lit "RubricGrading") =
        .ok (.obj [("a", .num 1)]) := by
  refine ⟨by decide, ?_, ?_⟩
  · have h : fencedContent nestedFences = some [] := by decide
    have h1 : indexOf [] [123] = -1 := by decide
    simp [extractAndParseJson, h, parseBrackets, h1]
  · have h1 : indexOf (lit "\x7b\"a\":1\x7d") [123] = 0 := by decide
    have h2 : lastIndexOf (lit "\x7b\"a\":1\x7d") [125] = 6 := by decide
    have h3 : slice (lit "\x7b\"a\":1\x7d") 0 7 = lit "\x7b\"a\":1\x7d" := by decide
    simp [parseBrackets, h1, h2, h3, sampleParse]

/-! ## More properties of the evidence validator -/

/-- The loop body on an item whose `text` is a string: the two assignments of `offsetPair`. -/
theorem resolveOffsets_string (d np q : JSString) (ev : JSON)
    (htext : getField ev "text" = some (.str q)) :
    resolveOffsets d np ev =
      .ok (setField (setField ev "start_index" (.num (offsetPair d np q).1))
        "end_index" (.num (offsetPair d np q).2)) := by
  unfold resolveOffsets offsetPair
  simp only [htext, normalizeString]
  by_cases hinc : includes np (normalizeText q) = true
  · by_cases hidx : indexOf d q = -1
    · simp [hinc, hidx]
    · simp [hinc, hidx]
  · simp [hinc]

theorem offsetPair_literal (d q : JSString) :
    offsetPair d (normalizeText d) q =
      if indexOf d q = -1 then ((-1, -1) : ℚ × ℚ)
      else (((indexOf d q : ℤ) : ℚ), ((indexOf d q : ℤ) : ℚ) + ((q.length : ℤ) : ℚ)) := by
  unfold offsetPair
  by_cases hidx : indexOf d q = -1
  · simp [hidx]
  · have hin : q <:+: d := by
      by_contra hcon
      exact hidx ((indexOf_eq_neg_one_iff d q).mpr hcon)
    have hinc : includes (normalizeText d) (normalizeText q) = true :=
      (includes_iff _ _).mpr (normalizeText_occurs q d hin)
    simp [hidx, hinc]

theorem resolveOffsets_frame (d np : JSString) (ev ev' : JSON) (k : String)
    (h : resolveOffsets d np ev = .ok ev') (hs : k ≠ "start_index") (he : k ≠ "end_index") :
    getField ev' k = getField ev k := by
  have hset : ∀ a b : ℚ,
      getField (setField (setField ev "start_index" (.num a)) "end_index" (.num b)) k =
        getField ev k := by
    intro a b
    rw [getField_setField_ne _ _ _ _ he, getField_setField_ne _ _ _ _ hs]
  unfold resolveOffsets at h
  split at h
  · cases h
  · split at h
    · split at h
      · simp only at h
        split at h
        · simp only [Except.ok.injEq] at h
          rw [← h]; exact hset _ _
        · simp only [Except.ok.injEq] at h
          rw [← h]; exact hset _ _
      · cases h
    · simp only [Except.ok.injEq] at h
      rw [← h]; exact hset _ _

theorem resolveAll_forall₂ (d np : JSString) (kept res : List JSON)
    (h : resolveAll d np kept = .ok res) :
    List.Forall₂ (fun ev ev' => resolveOffsets d np ev = .ok ev') kept res := by
  induction kept generalizing res with
  | nil =>
    simp only [resolveAll, Except.ok.injEq] at h
    subst h
    exact List.Forall₂.nil
  | cons ev evs ih =>
    simp only [resolveAll] at h
    cases h1 : resolveOffsets d np ev with
    | error e => rw [h1] at h; cases h
    | ok ev1 =>
      rw [h1] at h
      cases h2 : resolveAll d np evs with
      | error e => rw [h2] at h; cases h
      | ok rest =>
        rw [h2] at h
        simp only [Except.ok.injEq] at h
        subst h
        exact List.Forall₂.cons h1 (ih rest h2)

/-- C15.  Unresolved evidence is kept as it is: a candidate that passes the filter, whose
normalised quote is not in the normalised document or whose quote is not literally in the
document, goes through the loop body without an exception and gets the offsets `(-1, -1)`,
with `text`, `suggestion` and `revised_excerpt` as supplied.  The loop body changes no
property other than the two offsets of any item, and the loop keeps every item in place. -/
theorem resolveOffsets_unresolved (d q : JSString) (ev : JSON)
    (_ : keepEvidence ev = .ok true) (htext : getField ev "text" = some (.str q))
    (h : includes (normalizeText d) (normalizeText q) = false ∨ ¬ q <:+: d) :
    (∃ ev', resolveOffsets d (normalizeText d) ev = .ok ev' ∧
      getField ev' "start_index" = some (.num (-1)) ∧
      getField ev' "end_index" = some (.num (-1)) ∧
      getField ev' "text" = getField ev "text" ∧
      getField ev' "suggestion" = getField ev "suggestion" ∧
      getField ev' "revised_excerpt" = getField ev "revised_excerpt") ∧
    (∀ (np : JSString) (ev₀ ev₁ : JSON) (k : String), resolveOffsets d np ev₀ = .ok ev₁ →
      k ≠ "start_index" → k ≠ "end_index" → getField ev₁ k = getField ev₀ k) ∧
    (∀ (np : JSString) (kept res : List JSON), resolveAll d np kept = .ok res →
      List.Forall₂ (fun e e' => resolveOffsets d np e = .ok e') kept res) := by
  refine ⟨?_, fun np ev₀ ev₁ k hr hs he => resolveOffsets_frame d np ev₀ ev₁ k hr hs he,
    fun np kept res hr => resolveAll_forall₂ d np kept res hr⟩
  obtain ⟨kvs, hev⟩ := getField_some_obj ev "text" _ htext
  have hnot : ¬ q <:+: d := by
    rcases h with h | h
    · intro hin
      have := (includes_iff _ _).mpr (normalizeText_occurs q d hin)
      rw [h] at this
      cases this
    · exact h
  have hidx : indexOf d q = -1 := (indexOf_eq_neg_one_iff d q).mpr hnot
  have hpair : offsetPair d (normalizeText d) q = (-1, -1) := by
    rw [offsetPair_literal, if_pos hidx]
  have hres := resolveOffsets_string d (normalizeText d) q ev htext
  rw [hpair] at hres
  obtain ⟨h1, h2, h3⟩ := getField_offsets ev kvs hev (-1) (-1)
  refine ⟨_, hres, h1, h2, h3, ?_, ?_⟩
  · exact resolveOffsets_frame d _ ev _ _ hres (by decide) (by decide)
  · exact resolveOffsets_frame d _ ev _ _ hres (by decide) (by decide)

/-- Witness of `resolveOffsets_unresolved`: the quote `moon` against `The sky is blue.`. -/
theorem resolveOffsets_unresolved_witness :
    ∃ ev', resolveOffsets samplePaper (normalizeText samplePaper) (mkEvidence "moon" "s" "r")
        = .ok ev' ∧
      getField ev' "start_index" = some (.num (-1)) ∧
      getField ev' "end_index" = some (.num (-1)) ∧
      getField ev' "text" = getField (mkEvidence "moon" "s" "r") "text" ∧
      getField ev' "suggestion" = getField (mkEvidence "moon" "s" "r") "suggestion" ∧
      getField ev' "revised_excerpt" = getField (mkEvidence "moon" "s" "r") "revised_excerpt" :=
  (resolveOffsets_unresolved samplePaper (lit "moon") (mkEvidence "moon" "s" "r") (by rfl)
    (by rfl) (Or.inl (by decide))).1

/-! ## Normalisation is idempotent and insensitive to quote style and run length -/

theorem normalizeText_eq_map (s : JSString) :
    normalizeText s = trim (collapseWhitespace (s.map straightenUnit)) := by
  unfold normalizeText replaceSmartDouble replaceSmartSingle
  rw [List.map_map]
  rfl

theorem isWhitespace_straightenUnit (c : Nat) :
    isWhitespace (straightenUnit c) = isWhitespace c := by
  unfold straightenUnit
  simp only
  by_cases h1 : c = 8216 ∨ c = 8217
  · rcases h1 with rfl | rfl <;> decide
  · rw [if_neg h1]
    by_cases h2 : c = 8220 ∨ c = 8221
    · rcases h2 with rfl | rfl <;> decide
    · rw [if_neg h2]

theorem straightenUnit_idem (c : Nat) : straightenUnit (straightenUnit c) = straightenUnit c := by
  unfold straightenUnit
  simp only
  by_cases h1 : c = 8216 ∨ c = 8217
  · rcases h1 with rfl | rfl <;> decide
  · rw [if_neg h1]
    by_cases h2 : c = 8220 ∨ c = 8221
    · rcases h2 with rfl | rfl <;> decide
    · rw [if_neg h2, if_neg h1, if_neg h2]

theorem collapseFrom_map (b : Bool) (s : JSString) :
    collapseFrom b (s.map straightenUnit) = (collapseFrom b s).map straightenUnit := by
  induction s generalizing b with
  | nil => rfl
  | cons c s ih =>
    simp only [List.map_cons, collapseFrom, isWhitespace_straightenUnit]
    by_cases hc : isWhitespace c = true
    · cases b
      · simp only [hc, if_true, Bool.false_eq_true, if_false, List.map_cons, ih]
        congr 1
      · simp only [hc, if_true, ih]
    · simp only [hc, Bool.false_eq_true, if_false, List.map_cons, ih]

theorem dropWhile_map (s : JSString) :
    (s.map straightenUnit).dropWhile isWhitespace =
      (s.dropWhile isWhitespace).map straightenUnit := by
  induction s with
  | nil => rfl
  | cons c s ih =>
    simp only [List.map_cons, List.dropWhile_cons, isWhitespace_straightenUnit]
    by_cases hc : isWhitespace c = true
    · simp only [hc, if_true, ih]
    · simp only [hc, Bool.false_eq_true, if_false, List.map_cons]

theorem trim_map (s : JSString) : trim (s.map straightenUnit) = (trim s).map straightenUnit := by
  unfold trim
  rw [dropWhile_map, ← List.map_reverse, dropWhile_map, List.map_reverse]

theorem collapseFrom_idem (b : Bool) (x : JSString) :
    collapseFrom b (collapseFrom b x) = collapseFrom b x := by
  induction x generalizing b with
  | nil => rfl
  | cons c x ih =>
    by_cases hc : isWhitespace c = true
    · cases b
      · have h32 : isWhitespace 32 = true := by decide
        simp only [collapseFrom, hc, if_true, Bool.false_eq_true, if_false, h32, ih true]
      · simp only [collapseFrom, hc, if_true, ih true]
    · simp only [collapseFrom, hc, Bool.false_eq_true, if_false, ih false]

theorem trim_tight (u : JSString) (h : Tight u) : trim u = u := by
  have := trim_around [] u [] (by simp) (by simp) h
  simpa using this

theorem trim_collapse_tight (q : JSString) (h : Tight (trim q)) :
    trim (collapseWhitespace q) = collapseFrom false (trim q) := by
  obtain ⟨w₁, w₂, hq, h₁, h₂, _⟩ := trim_decompose q
  unfold collapseWhitespace
  conv_lhs => rw [hq]
  rw [collapseFrom_around false w₁ (trim q) w₂ h]
  exact trim_around _ _ _ (collapseFrom_all_ws false w₁ h₁) (collapseFrom_all_ws false w₂ h₂)
    (collapseFrom_tight _ h)

theorem trim_collapse_idem (s : JSString) :
    trim (collapseWhitespace (trim (collapseWhitespace s))) = trim (collapseWhitespace s) := by
  obtain ⟨w₁, w₂, hs, h₁, h₂, hcore⟩ := trim_decompose s
  rcases hcore with hnil | htight
  · have hall : ∀ c ∈ s, isWhitespace c = true := by
      rw [hs, hnil]
      intro c hc
      simp only [List.append_nil, List.mem_append] at hc
      rcases hc with hc | hc
      · exact h₁ c hc
      · exact h₂ c hc
    have h0 : trim (collapseWhitespace s) = [] :=
      trim_all_ws _ (collapseFrom_all_ws false s hall)
    rw [h0]
    rfl
  · have hu := trim_collapse_tight s htight
    have htu : Tight (collapseFrom false (trim s)) := collapseFrom_tight _ htight
    rw [hu]
    have h1 : Tight (trim (collapseFrom false (trim s))) := by
      rw [trim_tight _ htu]; exact htu
    rw [trim_collapse_tight _ h1, trim_tight _ htu, collapseFrom_idem]

/-- Normalising twice is normalising once. -/
theorem normalizeText_idem (s : JSString) : normalizeText (normalizeText s) = normalizeText s := by
  have hform : ∀ x : JSString,
      normalizeText x = (trim (collapseWhitespace x)).map straightenUnit := by
    intro x
    rw [normalizeText_eq_map]
    unfold collapseWhitespace
    rw [collapseFrom_map, trim_map]
  rw [hform (normalizeText s), hform s]
  unfold collapseWhitespace
  rw [collapseFrom_map, trim_map, List.map_map]
  have hcomp : straightenUnit ∘ straightenUnit = straightenUnit := by
    funext c
    exact straightenUnit_idem c
  rw [hcomp]
  have := trim_collapse_idem s
  unfold collapseWhitespace at this
  rw [this]

theorem collapseFrom_variant (s q : JSString) (h : QuoteVariant s q) :
    ∀ b, collapseFrom b (q.map straightenUnit) = collapseFrom b (s.map straightenUnit) := by
  induction h with
  | nil => intro b; rfl
  | keep c _ ih =>
    intro b
    simp only [List.map_cons, collapseFrom, ih]
  | curlSingle c hc _ ih =>
    intro b
    have h1 : straightenUnit c = 39 := by rcases hc with rfl | rfl <;> decide
    have h2 : straightenUnit 39 = 39 := by decide
    simp only [List.map_cons, collapseFrom, ih, h1, h2]
  | curlDouble c hc _ ih =>
    intro b
    have h1 : straightenUnit c = 34 := by rcases hc with rfl | rfl <;> decide
    have h2 : straightenUnit 34 = 34 := by decide
    simp only [List.map_cons, collapseFrom, ih, h1, h2]
  | longer w w' hw hw' _ ih =>
    intro b
    have hb := ih b
    have ht := ih true
    simp only [List.map_cons, collapseFrom, isWhitespace_straightenUnit, hw, hw', if_true]
      at hb ht ⊢
    cases b
    · simp only [Bool.false_eq_true, if_false] at hb ⊢
      exact hb
    · simp only [if_true] at hb ⊢
      exact hb
  | shorter w w' hw hw' _ ih =>
    intro b
    have hb := ih b
    simp only [List.map_cons, collapseFrom, isWhitespace_straightenUnit, hw, hw', if_true]
      at hb ⊢
    cases b
    · simp only [Bool.false_eq_true, if_false] at hb ⊢
      exact hb
    · simp only [if_true] at hb ⊢
      exact hb

theorem normalizeText_variant (s q : JSString) (h : QuoteVariant s q) :
    normalizeText q = normalizeText s := by
  rw [normalizeText_eq_map, normalizeText_eq_map]
  unfold collapseWhitespace
  rw [collapseFrom_variant s q h false]

theorem quoteVariant_keep_all (x s q : JSString) (h : QuoteVariant s q) :
    QuoteVariant (x ++ s) (x ++ q) := by
  induction x with
  | nil => exact h
  | cons c x ih => exact QuoteVariant.keep c ih

/-- C14.  Normalised membership.  `normalizeString` on a string maps the units U+2018 and
U+2019 to the apostrophe and U+201C and U+201D to the double quote, turns every run of
white space into one space and trims.  Hence, for a quote `q` obtained from a part `s` of
the document `d` by putting typographic quotes for straight ones and by changing the length
of runs of white space, the normalised `q` occurs in the normalised `d`: the membership test
of line 238 passes. -/
theorem normalizeString_membership (d s q : JSString) (hsub : s <:+: d)
    (hvar : QuoteVariant s q) :
    normalizeString (some (.str q)) = .ok (normalizeText q) ∧
    normalizeText q = trim (collapseWhitespace (q.map straightenUnit)) ∧
    (straightenUnit 8216 = 39 ∧ straightenUnit 8217 = 39 ∧
      straightenUnit 8220 = 34 ∧ straightenUnit 8221 = 34) ∧
    normalizeText q <:+: normalizeText d ∧
    includes (normalizeText d) (normalizeText q) = true := by
  have hocc : normalizeText q <:+: normalizeText d := by
    rw [normalizeText_variant s q hvar]
    exact normalizeText_occurs s d hsub
  exact ⟨rfl, normalizeText_eq_map q, ⟨by decide, by decide, by decide, by decide⟩, hocc,
    (includes_iff _ _).mpr hocc⟩

/-- Witness of `normalizeString_membership`: the quote in typographic double quotes against
a document that has it in straight double quotes. -/
theorem normalizeString_membership_witness :
    normalizeText curlyQuote <:+: normalizeText quotingPaper ∧
      includes (normalizeText quotingPaper) (normalizeText curlyQuote) = true :=
  (normalizeString_membership quotingPaper ([34] ++ lit "like this" ++ [34]) curlyQuote
    (by decide)
    (QuoteVariant.curlDouble 8220 (Or.inl rfl)
      (quoteVariant_keep_all (lit "like this") [34] [8221]
        (QuoteVariant.curlDouble 8221 (Or.inr rfl) QuoteVariant.nil)))).2.2.2

/-- C20.  The membership test on normalised texts never changes an offset: on an item whose
quote is the string `q`, the loop body does what the validator without normalisation does.
When `q` occurs literally in `d` the offsets are `(i, i + |q|)` with `i` the index of its
first occurrence; otherwise they are `(-1, -1)`, also when the normalised quote occurs in the
normalised document.  Two items with the same quote get the same offsets. -/
theorem resolveOffsets_eq_literal (d q : JSString) (ev : JSON)
    (htext : getField ev "text" = some (.str q)) :
    resolveOffsets d (normalizeText d) ev = resolveOffsetsLiteral d ev ∧
    (q <:+: d → ∃ (i : Nat) (ev' : JSON), resolveOffsets d (normalizeText d) ev = .ok ev' ∧
      getField ev' "start_index" = some (.num i) ∧
      getField ev' "end_index" = some (.num ((i : ℚ) + (q.length : ℚ))) ∧
      q <+: d.drop i ∧ ∀ j, j < i → ¬ q <+: d.drop j) ∧
    (¬ q <:+: d → ∃ ev', resolveOffsets d (normalizeText d) ev = .ok ev' ∧
      getField ev' "start_index" = some (.num (-1)) ∧
      getField ev' "end_index" = some (.num (-1))) ∧
    (∀ ev₂ ev' ev₂', getField ev₂ "text" = some (.str q) →
      resolveOffsets d (normalizeText d) ev = .ok ev' →
      resolveOffsets d (normalizeText d) ev₂ = .ok ev₂' →
      getField ev' "start_index" = getField ev₂' "start_index" ∧
        getField ev' "end_index" = getField ev₂' "end_index") := by
  obtain ⟨kvs, hev⟩ := getField_some_obj ev "text" _ htext
  have hres := resolveOffsets_string d (normalizeText d) q ev htext
  have hpair := offsetPair_literal d q
  refine ⟨?_, ?_, ?_, ?_⟩
  · rw [hres, hpair]
    unfold resolveOffsetsLiteral
    simp only [htext]
    by_cases hidx : indexOf d q = -1
    · simp [hidx]
    · simp [hidx]
  · intro hin
    obtain ⟨k, hk, _, hslice, hmin⟩ := indexOf_of_infix d q hin
    have hne : indexOf d q ≠ -1 := by omega
    rw [hpair, if_neg hne, hk] at hres
    obtain ⟨h1, h2, _⟩ := getField_offsets ev kvs hev ((k : ℤ) : ℚ)
      (((k : ℤ) : ℚ) + ((q.length : ℤ) : ℚ))
    refine ⟨k, _, hres, by simpa using h1, by simpa using h2, ?_, hmin⟩
    unfold slice at hslice
    rw [Nat.add_sub_cancel_left] at hslice
    rw [← hslice]
    exact List.take_prefix _ _
  · intro hnot
    have hidx : indexOf d q = -1 := (indexOf_eq_neg_one_iff d q).mpr hnot
    rw [hpair, if_pos hidx] at hres
    obtain ⟨h1, h2, _⟩ := getField_offsets ev kvs hev (-1) (-1)
    exact ⟨_, hres, h1, h2⟩
  · intro ev₂ ev' ev₂' htext₂ hr hr₂
    obtain ⟨kvs₂, hev₂⟩ := getField_some_obj ev₂ "text" _ htext₂
    rw [hres] at hr
    rw [resolveOffsets_string d (normalizeText d) q ev₂ htext₂] at hr₂
    simp only [Except.ok.injEq] at hr hr₂
    subst hr
    subst hr₂
    obtain ⟨h1, h2, _⟩ := getField_offsets ev kvs hev (offsetPair d (normalizeText d) q).1
      (offsetPair d (normalizeText d) q).2
    obtain ⟨h1', h2', _⟩ := getField_offsets ev₂ kvs₂ hev₂ (offsetPair d (normalizeText d) q).1
      (offsetPair d (normalizeText d) q).2
    exact ⟨by rw [h1, h1'], by rw [h2, h2']⟩

/-- Witness of `resolveOffsets_eq_literal`: the typographic quote, which matches the document
only after normalisation, stays unresolved. -/
theorem resolveOffsets_eq_literal_witness :
    ∃ ev', resolveOffsets quotingPaper (normalizeText quotingPaper)
        (.obj [("text", .str curlyQuote), ("suggestion", .str (lit "s")),
          ("revised_excerpt", .str (lit "r"))]) = .ok ev' ∧
      getField ev' "start_index" = some (.num (-1)) ∧
      getField ev' "end_index" = some (.num (-1)) :=
  (resolveOffsets_eq_literal quotingPaper curlyQuote
    (.obj [("text", .str curlyQuote), ("suggestion", .str (lit "s")),
      ("revised_excerpt", .str (lit "r"))]) (by rfl)).2.2.1 (by decide)

theorem setField_obj (kvs : List (String × JSON)) (k : String) (v : JSON) :
    setField (.obj kvs) k v = .obj (assignKey k v kvs) := rfl

/-- C13 (as the code behaves).  Validating an item again with its normalised quote gives the
same offsets when normalisation leaves the quote as it is; and every normalised quote is of
that kind, since normalising twice is normalising once. -/
theorem revalidate_same_offsets (d q : JSString) (ev ev₁ : JSON)
    (htext : getField ev "text" = some (.str q))
    (hfirst : resolveOffsets d (normalizeText d) ev = .ok ev₁)
    (hnorm : normalizeText q = q) :
    (∃ ev₂, revalidate d ev₁ = .ok ev₂ ∧
      getField ev₂ "start_index" = getField ev₁ "start_index" ∧
      getField ev₂ "end_index" = getField ev₁ "end_index") ∧
    (∀ s, normalizeText (normalizeText s) = normalizeText s) := by
  refine ⟨?_, normalizeText_idem⟩
  obtain ⟨kvs, hev⟩ := getField_some_obj ev "text" _ htext
  subst hev
  rw [resolveOffsets_string d (normalizeText d) q _ htext] at hfirst
  simp only [Except.ok.injEq] at hfirst
  obtain ⟨h1, h2, h3⟩ := getField_offsets (.obj kvs) kvs rfl (offsetPair d (normalizeText d) q).1
    (offsetPair d (normalizeText d) q).2
  rw [hfirst] at h1 h2 h3
  rw [htext] at h3
  have hobj : ∃ kvs₁, ev₁ = .obj kvs₁ := getField_some_obj ev₁ "text" _ h3
  obtain ⟨kvs₁, hev₁⟩ := hobj
  have htext₂ : getField (setField ev₁ "text" (.str q)) "text" = some (.str q) := by
    rw [hev₁]; exact getField_setField_self _ _ _
  have hrun : revalidate d ev₁ =
      .ok (setField (setField (setField ev₁ "text" (.str q)) "start_index"
          (.num (offsetPair d (normalizeText d) q).1))
        "end_index" (.num (offsetPair d (normalizeText d) q).2)) := by
    unfold revalidate
    rw [h3]
    simp only [normalizeString, hnorm]
    exact resolveOffsets_string d (normalizeText d) q _ htext₂
  obtain ⟨g1, g2, _⟩ := getField_offsets (setField ev₁ "text" (.str q)) (assignKey "text" (.str q) kvs₁)
    (by rw [hev₁]; rfl) (offsetPair d (normalizeText d) q).1 (offsetPair d (normalizeText d) q).2
  exact ⟨_, hrun, by rw [g1, h1], by rw [g2, h2]⟩

/-- Witness of `revalidate_same_offsets`: the quote `sky` against `The sky is blue.`. -/
theorem revalidate_same_offsets_witness :
    ∃ ev₂, revalidate samplePaper
        (.obj [("text", .str (lit "sky")), ("suggestion", .str (lit "s")),
          ("revised_excerpt", .str (lit "r")), ("start_index", .num 4), ("end_index", .num 7)])
        = .ok ev₂ ∧
      getField ev₂ "start_index" = getField
        (.obj [("text", .str (lit "sky")), ("suggestion", .str (lit "s")),
          ("revised_excerpt", .str (lit "r")), ("start_index", .num 4), ("end_index", .num 7)])
        "start_index" ∧
      getField ev₂ "end_index" = getField
        (.obj [("text", .str (lit "sky")), ("suggestion", .str (lit "s")),
          ("revised_excerpt", .str (lit "r")), ("start_index", .num 4), ("end_index", .num 7)])
        "end_index" :=
  (revalidate_same_offsets samplePaper (lit "sky") (mkEvidence "sky" "s" "r") _ (by rfl)
    sampleEvidence_resolved (by decide)).1

/-- C13 (as stated) fails: the quote `sky  is`, with two spaces, is found at offsets
`(4, 11)` of `The sky  is blue.`; validated again with its normalised quote `sky is`, which
is not in the document, the item gets `(-1, -1)`. -/
theorem revalidate_changes_offsets :
    ∃ ev₁ ev₂,
      resolveOffsets spacedPaper (normalizeText spacedPaper) (mkEvidence "sky  is" "s" "r")
        = .ok ev₁ ∧
      getField ev₁ "start_index" = some (.num 4) ∧ getField ev₁ "end_index" = some (.num 11) ∧
      revalidate spacedPaper ev₁ = .ok ev₂ ∧
      getField ev₂ "start_index" = some (.num (-1)) ∧
      getField ev₂ "end_index" = some (.num (-1)) := by
  have h1 : includes (normalizeText spacedPaper) (normalizeText (lit "sky  is")) = true := by
    decide
  have h2 : indexOf spacedPaper (lit "sky  is") = 4 := by decide
  have h3 : (lit "sky  is").length = 7 := by decide
  have h4 : normalizeText (lit "sky  is") = lit "sky is" := by decide
  have h5 : includes (normalizeText spacedPaper) (normalizeText (lit "sky is")) = true := by
    decide
  have h6 : indexOf spacedPaper (lit "sky is") = -1 := by decide
  have hfirst : resolveOffsets spacedPaper (normalizeText spacedPaper)
      (mkEvidence "sky  is" "s" "r") =
      .ok (.obj [("text", .str (lit "sky  is")), ("suggestion", .str (lit "s")),
        ("revised_excerpt", .str (lit "r")), ("start_index", .num 4),
        ("end_index", .num 11)]) := by
    simp [resolveOffsets, mkEvidence, getField, lookupKey, normalizeString, h1, h2, h3, setField,
      assignKey]
    norm_num
  refine ⟨_, .obj [("text", .str (lit "sky is")), ("suggestion", .str (lit "s")),
      ("revised_excerpt", .str (lit "r")), ("start_index", .num (-1)), ("end_index", .num (-1))],
    hfirst, by simp [getField, lookupKey], by simp [getField, lookupKey], ?_, ?_, ?_⟩
  · simp [revalidate, getField, lookupKey, normalizeString, h4, setField, assignKey,
      resolveOffsets, h5, h6]
  · simp [getField, lookupKey]
  · simp [getField, lookupKey]

/-! ## Properties of the handler -/

theorem forall₂_all_iff (R : JSON → JSON → Prop) (P : JSON → Prop) (l₁ l₂ : List JSON)
    (h : List.Forall₂ R l₁ l₂) (hR : ∀ a b, R a b → (P a ↔ P b)) :
    (∀ a ∈ l₁, P a) ↔ (∀ b ∈ l₂, P b) := by
  induction h with
  | nil => simp
  | cons hab _ ih =>
    simp only [List.mem_cons, forall_eq_or_imp]
    rw [hR _ _ hab, ih]

theorem sanitizedFrom_scores (toStr : Option JSON → Except JSError JSString) (paper : JSString)
    (raw out : JSON) (h : SanitizedFrom toStr paper raw out) :
    getField out "score" = getField raw "score" ∧
      getField out "maxScore" = getField raw "maxScore" := by
  rcases h with ⟨_, heq⟩ | ⟨_, _, hsan⟩
  · subst heq
    exact ⟨rfl, rfl⟩
  · obtain ⟨h1, h2, _⟩ := sanitizeGrade_scores toStr paper _ raw out hsan
    exact ⟨h1, h2⟩

theorem scoreInRange_congr (a b : JSON) (h1 : getField b "score" = getField a "score")
    (h2 : getField b "maxScore" = getField a "maxScore") : ScoreInRange a ↔ ScoreInRange b := by
  unfold ScoreInRange numField
  rw [h1, h2]

theorem gradeResponse_ok (toStr : Option JSON → Except JSError JSString) (paper : JSString)
    (response : JSON) (p : ResponsePayload) (h : gradeResponse toStr paper response = .ok p) :
    ∃ raw, getField response "rubricGrades" = some (.arr raw) ∧
      sanitizeGrades toStr paper raw = .ok p.rubricGrades ∧
      p.overallScore = computeOverall (.arr p.rubricGrades) := by
  unfold gradeResponse at h
  split at h
  · rename_i raw hraw
    cases hs : sanitizeGrades toStr paper raw with
    | error e => rw [hs] at h; cases h
    | ok cleaned =>
      rw [hs] at h
      simp only [Except.ok.injEq] at h
      subst h
      exact ⟨raw, hraw, hs, rfl⟩
  · cases h

/-- C16 (as the code behaves).  The sanitizer has no range check: every grade of a successful
result has the `score` and `maxScore` of the candidate at the same place, so the grades of
the result satisfy `0 ≤ score ≤ maxScore` exactly when the candidates do, and the overall
score is computed from all of them. -/
theorem gradeResponse_scores (toStr : Option JSON → Except JSError JSString)
    (paper : JSString) (response : JSON) (p : ResponsePayload)
    (h : gradeResponse toStr paper response = .ok p) :
    ∃ raw, getField response "rubricGrades" = some (.arr raw) ∧
      List.Forall₂ (fun r o => getField o "score" = getField r "score" ∧
        getField o "maxScore" = getField r "maxScore") raw p.rubricGrades ∧
      ((∀ r ∈ raw, ScoreInRange r) ↔ (∀ o ∈ p.rubricGrades, ScoreInRange o)) ∧
      p.overallScore = computeOverall (.arr p.rubricGrades) := by
  obtain ⟨raw, hraw, hs, hover⟩ := gradeResponse_ok toStr paper response p h
  have hall := sanitizeLoop_forall₂ toStr paper raw p.rubricGrades hs
  refine ⟨raw, hraw, ?_, ?_, hover⟩
  · exact hall.imp (fun a b hab => sanitizedFrom_scores toStr paper a b hab)
  · exact forall₂_all_iff _ _ _ _ hall (fun a b hab =>
      scoreInRange_congr a b (sanitizedFrom_scores toStr paper a b hab).1
        (sanitizedFrom_scores toStr paper a b hab).2)

theorem overfullGrade_graded :
    gradeResponse sampleToStr samplePaper (.obj [("rubricGrades", .arr [overfullGrade])]) =
      .ok ⟨150, [overfullGradeClean], samplePaper⟩ := by
  have h0 : keepEvidence (mkEvidence "sky" "s" "r") = .ok true := by rfl
  have hs : sanitizeGrades sampleToStr samplePaper [overfullGrade] = .ok [overfullGradeClean] := by
    simp [sanitizeGrades, sanitizeLoop, sanitizeGrade, overfullGrade, mkFullGrade,
      isProcessedGrade, truthy, isNumber, getField, lookupKey, validEvidence, filterEvidence, h0,
      backfillComment, setField, assignKey, resolveAll, sampleEvidence_resolved,
      overfullGradeClean]
  have hc : computeOverall (.arr [overfullGradeClean]) = 150 := by
    simp [computeOverall, isValidGrade, overfullGradeClean, truthy, typeofObject, isNumber,
      getField, lookupKey, pct, numField]
    rw [roundDouble_of_150_100]
    simp only [jsNumber_ofNat, Nat.cast_zero, jsAdd, zero_add, roundDouble_of_three_halves,
      jsDivPos, div_one, jsMulPos, roundDouble_of_three_halves_times_100, jsMathRound]
    rw [mathRound_eq _ 150 (by norm_num) (by norm_num)]
    norm_num
  simp only [gradeResponse, getField, lookupKey, if_true, hs, hc]

/-- Witness of `gradeResponse_scores`: a candidate scoring 150 out of 100. -/
theorem gradeResponse_scores_witness :
    ∃ raw, getField (.obj [("rubricGrades", .arr [overfullGrade])]) "rubricGrades"
        = some (.arr raw) ∧
      List.Forall₂ (fun r o => getField o "score" = getField r "score" ∧
        getField o "maxScore" = getField r "maxScore") raw [overfullGradeClean] ∧
      ((∀ r ∈ raw, ScoreInRange r) ↔ (∀ o ∈ [overfullGradeClean], ScoreInRange o)) ∧
      (150 : JSNumber) = computeOverall (.arr [overfullGradeClean]) :=
  gradeResponse_scores sampleToStr samplePaper (.obj [("rubricGrades", .arr [overfullGrade])])
    ⟨150, [overfullGradeClean], samplePaper⟩ overfullGrade_graded

/-- C16 (as stated) fails: a candidate scoring 150 out of 100 is in the result with that
score, and the overall score computed from it is 150. -/
theorem gradeResponse_keeps_out_of_range :
    ∃ p, gradeResponse sampleToStr samplePaper (.obj [("rubricGrades", .arr [overfullGrade])])
        = .ok p ∧
      p.overallScore = 150 ∧
      ∃ g ∈ p.rubricGrades, numField g "score" = 150 ∧ numField g "maxScore" = 100 ∧
        ¬ ScoreInRange g := by
  refine ⟨⟨150, [overfullGradeClean], samplePaper⟩, overfullGrade_graded, rfl,
    overfullGradeClean, by simp, ?_, ?_, ?_⟩
  · simp [numField, overfullGradeClean, getField, lookupKey]
  · simp [numField, overfullGradeClean, getField, lookupKey]
  · simp [ScoreInRange, numField, overfullGradeClean, getField, lookupKey]
    norm_num

theorem gradeResponse_no_array (toStr : Option JSON → Except JSError JSString)
    (paper : JSString) (response : JSON)
    (h : ∀ xs, getField response "rubricGrades" ≠ some (.arr xs)) :
    gradeResponse toStr paper response = .error (.error schemaErrorMessage) := by
  unfold gradeResponse
  split
  · rename_i xs hxs
    exact absurd hxs (h xs)
  · rfl

theorem handleUpload_no_array (toStr : Option JSON → Except JSError JSString)
    (runtimeMessage : JSString) (jsonParse : JSString → Option JSON)
    (post : Nat → CallArgs → HttpOutcome) (paper : JSString)
    (rubricFile rubricText : Option JSString) (custom : JSString) (response : JSON)
    (hrun : (callAIWithRetry (callAI jsonParse post) rubric_system_prompt
      (gradingPrompt paper rubricFile rubricText custom) gradingContext 300000 2).result
        = .ok response)
    (h : ∀ xs, getField response "rubricGrades" ≠ some (.arr xs)) :
    handleUpload toStr runtimeMessage jsonParse post paper rubricFile rubricText custom =
      .failed 500 ⟨analysisFailedText, schemaErrorMessage⟩ := by
  unfold handleUpload
  rw [hrun]
  simp only [gradeResponse_no_array toStr paper response h, analysisFailure, errorMessage]

/-- C18.  Schema check: for a decoded object whose `rubricGrades` is absent or not an array,
the grading stage throws the schema error whatever the document and the runtime (nothing of
the sanitising or of the aggregation enters the result), and the handler answers with the
error envelope.  When `rubricGrades` is an array the result is that of the sanitising and
the aggregation, and for the empty array it is the payload with score 0 and no grade. -/
theorem gradeResponse_schema (toStr : Option JSON → Except JSError JSString)
    (runtimeMessage : JSString) (jsonParse : JSString → Option JSON)
    (post : Nat → CallArgs → HttpOutcome) (paper : JSString)
    (rubricFile rubricText : Option JSString) (custom : JSString) (response : JSON) :
    ((∀ xs, getField response "rubricGrades" ≠ some (.arr xs)) →
      gradeResponse toStr paper response = .error (.error schemaErrorMessage)) ∧
    ((∀ xs, getField response "rubricGrades" ≠ some (.arr xs)) →
      (callAIWithRetry (callAI jsonParse post) rubric_system_prompt
        (gradingPrompt paper rubricFile rubricText custom) gradingContext 300000 2).result
          = .ok response →
      handleUpload toStr runtimeMessage jsonParse post paper rubricFile rubricText custom =
        .failed 500 ⟨analysisFailedText, schemaErrorMessage⟩) ∧
    (∀ xs, getField response "rubricGrades" = some (.arr xs) →
      gradeResponse toStr paper response =
        match sanitizeGrades toStr paper xs with
        | .ok cleaned => .ok ⟨computeOverall (.arr cleaned), cleaned, paper⟩
        | .error e => .error e) ∧
    (getField response "rubricGrades" = some (.arr []) →
      gradeResponse toStr paper response = .ok ⟨0, [], paper⟩) := by
  refine ⟨gradeResponse_no_array toStr paper response, ?_, ?_, ?_⟩
  · intro h hrun
    exact handleUpload_no_array toStr runtimeMessage jsonParse post paper rubricFile rubricText
      custom response hrun h
  · intro xs hxs
    unfold gradeResponse
    rw [hxs]
    simp only
    cases sanitizeGrades toStr paper xs <;> rfl
  · intro hxs
    unfold gradeResponse
    rw [hxs]
    simp [sanitizeGrades, sanitizeLoop, computeOverall]

/-- Witness of `gradeResponse_schema`: an object with the only member `a`. -/
theorem gradeResponse_schema_witness :
    gradeResponse sampleToStr samplePaper (.obj [("a", .num 1)]) =
      .error (.error schemaErrorMessage) :=
  (gradeResponse_schema sampleToStr [] sampleParse alwaysCancelled samplePaper none none []
    (.obj [("a", .num 1)])).1 (by
      intro xs h
      simp [getField, lookupKey] at h)

theorem isBlank_iff (t : JSString) : isBlank t = true ↔ ∀ c ∈ t, isWhitespace c = true := by
  unfold isBlank
  simp [List.all_eq_true]

theorem trim_isEmpty (t : JSString) : (trim t).isEmpty = isBlank t := by
  cases hb : isBlank t with
  | true =>
    rw [trim_all_ws t ((isBlank_iff t).mp hb)]
    rfl
  | false =>
    cases he : (trim t).isEmpty with
    | false => rfl
    | true =>
      exfalso
      have hnil : trim t = [] := List.isEmpty_iff.mp he
      obtain ⟨w₁, w₂, ht, h₁, h₂, _⟩ := trim_decompose t
      have hall : ∀ c ∈ t, isWhitespace c = true := by
        rw [ht, hnil]
        intro c hc
        simp only [List.append_nil, List.mem_append] at hc
        rcases hc with hc | hc
        · exact h₁ c hc
        · exact h₂ c hc
      rw [(isBlank_iff t).mpr hall] at hb
      cases hb

theorem finalRubricContent_eq (t : JSString) :
    finalRubricContent t = if isBlank t then defaultRubric else t := by
  unfold finalRubricContent
  rw [trim_isEmpty]
  cases t with
  | nil => rfl
  | cons c cs => simp

/-- C19 (as the code behaves).  The rubric placed in the prompt: for an uploaded rubric file,
the five default categories when its text is blank and its text otherwise; without a file
and with a non-empty `rubricText`, the five default categories when that text is white space
only and that text otherwise; without a file and with no or an empty `rubricText`, the
sentence of line 47.  The user prompt starts with `Rubric:`, a line break and that rubric. -/
theorem finalRubricContent_cases (rubricFile rubricText : Option JSString) :
    (∀ t, rubricFile = some t →
      finalRubricContent (rubricContent rubricFile rubricText) =
        if isBlank t then defaultRubric else t) ∧
    (∀ t, rubricFile = none → rubricText = some t → t ≠ [] →
      finalRubricContent (rubricContent rubricFile rubricText) =
        if isBlank t then defaultRubric else t) ∧
    (rubricFile = none → (rubricText = none ∨ rubricText = some []) →
      finalRubricContent (rubricContent rubricFile rubricText) = noRubricSentence) ∧
    (∀ paper custom, ∃ rest, gradingPrompt paper rubricFile rubricText custom =
      lit "Rubric:\n" ++ finalRubricContent (rubricContent rubricFile rubricText) ++
        lit "\n\nPaper:\n" ++ rest) := by
  have hsentence : finalRubricContent noRubricSentence = noRubricSentence := by decide
  refine ⟨?_, ?_, ?_, ?_⟩
  · intro t ht
    subst ht
    exact finalRubricContent_eq t
  · intro t hf ht hne
    subst hf
    subst ht
    have : rubricContent none (some t) = t := by
      cases t with
      | nil => exact absurd rfl hne
      | cons c cs => rfl
    rw [this]
    exact finalRubricContent_eq t
  · intro hf ht
    subst hf
    rcases ht with ht | ht <;> subst ht <;> exact hsentence
  · intro paper custom
    refine ⟨paper ++ (if custom.isEmpty then [] else
      lit "\n\nAdditionalInstructions:\n" ++ custom), ?_⟩
    unfold gradingPrompt rubric_user_prompt
    simp only [List.append_assoc]

/-- Witness of `finalRubricContent_cases`: a `rubricText` of three spaces gives the five
default categories. -/
theorem finalRubricContent_cases_witness :
    finalRubricContent (rubricContent none (some (lit "   "))) =
      if isBlank (lit "   ") then defaultRubric else lit "   " :=
  (finalRubricContent_cases none (some (lit "   "))).2.1 (lit "   ") rfl rfl (by decide)

/-- C19 (as stated) fails: with no rubric file and no `rubricText`, or an empty one, the
rubric placed in the prompt is the sentence of line 47, which is not the five default
categories. -/
theorem finalRubricContent_no_rubric :
    finalRubricContent (rubricContent none none) = noRubricSentence ∧
      finalRubricContent (rubricContent none (some [])) = noRubricSentence ∧
      noRubricSentence ≠ defaultRubric := by
  decide

theorem callAI_of_kind (jsonParse : JSString → Option JSON)
    (post : Nat → CallArgs → HttpOutcome) (n : Nat) (args : CallArgs) (k : FailureKind)
    (h : callFailureKind jsonParse args.context (post n args) = some k) :
    callAI jsonParse post n args = .error (.error (kindDetails args.context k)) := by
  unfold callAI
  unfold callFailureKind at h
  cases hp : post n args with
  | answered response =>
    rw [hp] at h
    simp only at h ⊢
    cases he : extractAndParseJson jsonParse (trim response) args.context with
    | ok v => rw [he] at h; cases h
    | error e =>
      rw [he] at h
      simp only [Option.some.injEq] at h
      subst h
      rfl
  | cancelled =>
    rw [hp] at h
    simp only [Option.some.injEq] at h
    subst h
    rfl
  | rejected status =>
    rw [hp] at h
    simp only [Option.some.injEq] at h
    subst h
    rfl
  | failed =>
    rw [hp] at h
    simp only [Option.some.injEq] at h
    subst h
    rfl

theorem callAIWithRetry_two_failures {ε ρ : Type} (callAI : Nat → CallArgs → Except ε ρ)
    (sys user ctx : JSString) (timeout : Nat) (e₁ e₂ : ε)
    (h1 : callAI 1 (attemptArgs sys user ctx timeout 1) = .error e₁)
    (h2 : callAI 2 (attemptArgs sys user ctx timeout 2) = .error e₂) :
    (callAIWithRetry callAI sys user ctx timeout 2).result = .error (some e₂) := by
  have a1 : attemptArgs sys user ctx timeout 1 = ⟨sys, user, ctx, timeout⟩ := rfl
  have a2 : attemptArgs sys user ctx timeout 2 = ⟨sys, retryInstruction ++ user, ctx, timeout⟩ :=
    rfl
  rw [a1] at h1
  rw [a2] at h2
  unfold callAIWithRetry
  rw [retryLoop_error callAI sys user ctx timeout 2 0 user none (by omega) e₁ h1,
    retryLoop_error callAI sys user ctx timeout 2 1 _ (some e₁) (by omega) e₂ h2,
    retryLoop_exit callAI sys user ctx timeout 2 2 _ (some e₂) (by omega)]

theorem handleUpload_two_failures (toStr : Option JSON → Except JSError JSString)
    (runtimeMessage : JSString) (jsonParse : JSString → Option JSON)
    (post : Nat → CallArgs → HttpOutcome) (paper : JSString)
    (rubricFile rubricText : Option JSString) (custom : JSString) (k₁ k₂ : FailureKind)
    (h1 : callFailureKind jsonParse gradingContext
      (post 1 (gradingArgs paper rubricFile rubricText custom 1)) = some k₁)
    (h2 : callFailureKind jsonParse gradingContext
      (post 2 (gradingArgs paper rubricFile rubricText custom 2)) = some k₂) :
    handleUpload toStr runtimeMessage jsonParse post paper rubricFile rubricText custom =
      .failed 500 ⟨analysisFailedText, kindDetails gradingContext k₂⟩ := by
  have c1 := callAI_of_kind jsonParse post 1 (gradingArgs paper rubricFile rubricText custom 1)
    k₁ h1
  have c2 := callAI_of_kind jsonParse post 2 (gradingArgs paper rubricFile rubricText custom 2)
    k₂ h2
  have hrun := callAIWithRetry_two_failures (callAI jsonParse post) rubric_system_prompt
    (gradingPrompt paper rubricFile rubricText custom) gradingContext 300000 _ _ c1 c2
  unfold handleUpload
  rw [hrun]
  rfl

/-- C17.  Error envelopes carry no document text.  When both attempts of the grading call
fail, the answer is the status 500 with the fixed `error` text and, as `details`, the message
of the kind of failure of the second attempt (timeout, error status with its code, or any
other failure of the call, to which an answer that cannot be parsed belongs), built from the
context name alone.  When the decoded answer has no `rubricGrades` array the `details` are the
fixed schema message.  Hence two runs on different documents that fail in the same way send
the same envelope, and the envelope has the members `error` and `details` only. -/
theorem handleUpload_envelope (toStr : Option JSON → Except JSError JSString)
    (runtimeMessage : JSString) (jsonParse : JSString → Option JSON) :
    (∀ post paper rubricFile rubricText custom k₁ k₂,
      callFailureKind jsonParse gradingContext
        (post 1 (gradingArgs paper rubricFile rubricText custom 1)) = some k₁ →
      callFailureKind jsonParse gradingContext
        (post 2 (gradingArgs paper rubricFile rubricText custom 2)) = some k₂ →
      handleUpload toStr runtimeMessage jsonParse post paper rubricFile rubricText custom =
        .failed 500 ⟨analysisFailedText, kindDetails gradingContext k₂⟩) ∧
    (∀ post paper rubricFile rubricText custom response,
      (callAIWithRetry (callAI jsonParse post) rubric_system_prompt
        (gradingPrompt paper rubricFile rubricText custom) gradingContext 300000 2).result
          = .ok response →
      (∀ xs, getField response "rubricGrades" ≠ some (.arr xs)) →
      handleUpload toStr runtimeMessage jsonParse post paper rubricFile rubricText custom =
        .failed 500 ⟨analysisFailedText, kindDetails gradingContext .schema⟩) ∧
    (∀ post₁ post₂ paper₁ paper₂ rubricFile rubricText custom k₁ k₁' k,
      callFailureKind jsonParse gradingContext
        (post₁ 1 (gradingArgs paper₁ rubricFile rubricText custom 1)) = some k₁ →
      callFailureKind jsonParse gradingContext
        (post₁ 2 (gradingArgs paper₁ rubricFile rubricText custom 2)) = some k →
      callFailureKind jsonParse gradingContext
        (post₂ 1 (gradingArgs paper₂ rubricFile rubricText custom 1)) = some k₁' →
      callFailureKind jsonParse gradingContext
        (post₂ 2 (gradingArgs paper₂ rubricFile rubricText custom 2)) = some k →
      handleUpload toStr runtimeMessage jsonParse post₁ paper₁ rubricFile rubricText custom =
        handleUpload toStr runtimeMessage jsonParse post₂ paper₂ rubricFile rubricText custom) ∧
    (∀ post₁ post₂ paper₁ paper₂ rubricFile rubricText custom response₁ response₂,
      (callAIWithRetry (callAI jsonParse post₁) rubric_system_prompt
        (gradingPrompt paper₁ rubricFile rubricText custom) gradingContext 300000 2).result
          = .ok response₁ →
      (∀ xs, getField response₁ "rubricGrades" ≠ some (.arr xs)) →
      (callAIWithRetry (callAI jsonParse post₂) rubric_system_prompt
        (gradingPrompt paper₂ rubricFile rubricText custom) gradingContext 300000 2).result
          = .ok response₂ →
      (∀ xs, getField response₂ "rubricGrades" ≠ some (.arr xs)) →
      handleUpload toStr runtimeMessage jsonParse post₁ paper₁ rubricFile rubricText custom =
        handleUpload toStr runtimeMessage jsonParse post₂ paper₂ rubricFile rubricText custom) := by
  refine ⟨?_, ?_, ?_, ?_⟩
  · intro post paper rubricFile rubricText custom k₁ k₂ h1 h2
    exact handleUpload_two_failures toStr runtimeMessage jsonParse post paper rubricFile
      rubricText custom k₁ k₂ h1 h2
  · intro post paper rubricFile rubricText custom response hrun h
    exact handleUpload_no_array toStr runtimeMessage jsonParse post paper rubricFile rubricText
      custom response hrun h
  · intro post₁ post₂ paper₁ paper₂ rubricFile rubricText custom k₁ k₁' k h1 h2 h1' h2'
    rw [handleUpload_two_failures toStr runtimeMessage jsonParse post₁ paper₁ rubricFile
        rubricText custom k₁ k h1 h2,
      handleUpload_two_failures toStr runtimeMessage jsonParse post₂ paper₂ rubricFile
        rubricText custom k₁' k h1' h2']
  · intro post₁ post₂ paper₁ paper₂ rubricFile rubricText custom response₁ response₂
      hrun₁ h₁ hrun₂ h₂
    rw [handleUpload_no_array toStr runtimeMessage jsonParse post₁ paper₁ rubricFile rubricText
        custom response₁ hrun₁ h₁,
      handleUpload_no_array toStr runtimeMessage jsonParse post₂ paper₂ rubricFile rubricText
        custom response₂ hrun₂ h₂]

/-- Witness of `handleUpload_envelope`: a model that never answers in time, on two
documents. -/
theorem handleUpload_envelope_witness :
    handleUpload sampleToStr [] sampleParse alwaysCancelled samplePaper none none [] =
      handleUpload sampleToStr [] sampleParse alwaysCancelled spacedPaper none none [] :=
  (handleUpload_envelope sampleToStr [] sampleParse).2.2.1 alwaysCancelled alwaysCancelled
    samplePaper spacedPaper none none [] .timeout .timeout .timeout rfl rfl rfl rfl

end Revisr
